import Mathlib

/-!
# RIPMMARC image filter: patch sampling, eigenpatch learning and projection

A shallow embedding of `itkRIPMMARCImageFilter.hxx`. Real-valued quantities are
rationals (exact arithmetic); loop counters and sizes are unbounded naturals.
The collaborators of the filter (singular value decomposition, symmetric
eigensystem, least-squares solve, interpolation, the random number source)
enter the methods as parameters. Definitions come first, theorems after them.
-/

set_option autoImplicit false

namespace RIPMMARC

/-- Number of elements of a neighborhood of radius `r` in `d` dimensions,
`Iterator.Size()`: a hypercube of side `2 r + 1`. -/
def neighborhoodSize (r d : Nat) : Nat := (2 * r + 1) ^ d

/-- Component `jj` of the neighborhood offset with linear index `ii`
(`Neighborhood::GetOffset`): the offset table is in raster order, dimension 0
running fastest, every component ranging over `-r .. r`. -/
def offsetComponent (r ii jj : Nat) : Int :=
  ((ii / (2 * r + 1) ^ jj % (2 * r + 1) : Nat) : Int) - (r : Int)

/-- The offset of neighborhood element `ii` as a `d`-vector. -/
def GetOffset (r d ii : Nat) : List Int :=
  (List.range d).map (offsetComponent r ii)

/-- `Iterator.GetIndex( ii )`: the image index of neighborhood element `ii`
for an iterator located at `location`. -/
def GetIndex (r d : Nat) (location : List Int) (ii : Nat) : List Int :=
  (List.range d).map (fun jj => location.getD jj 0 + offsetComponent r ii jj)

/-- The inner `jj` loop of the sphere test: the sum over the dimensions of
`( index[jj] - patchCenterIndex[jj] ) * ( index[jj] - patchCenterIndex[jj] )`,
before the square root is taken. -/
def squaredDistanceFromPatchCenter (d : Nat) (index patchCenterIndex : List Int) : Int :=
  (List.range d).foldl
    (fun acc jj =>
      acc + (index.getD jj 0 - patchCenterIndex.getD jj 0) *
            (index.getD jj 0 - patchCenterIndex.getD jj 0)) 0

/-- The test `sqrt( distanceFromPatchCenter ) <= m_PatchRadius`. The radicand is
a non-negative integer and the radius a natural number, so the comparison of the
square root with the radius is the comparison of the radicand with the square of
the radius, which is what is evaluated here. -/
def withinSphere (r : Nat) (sq : Int) : Bool := decide (sq ≤ (r : Int) * (r : Int))

/-- The `patchCenterIndex.Fill( m_PatchRadius )` index. -/
def patchCenterFill (r d : Nat) : List Int := List.replicate d (r : Int)

/-- One pass of the `ii` loop body of the sphere computation: element `ii` is
pushed back on `m_IndicesWithinSphere`, and `1.0` on `m_weights`, when it lies
within the sphere. -/
def sphereStep (r d : Nat) (st : List Nat × List ℚ) (ii : Nat) : List Nat × List ℚ :=
  if withinSphere r
      (squaredDistanceFromPatchCenter d (GetIndex r d (patchCenterFill r d) ii)
        (patchCenterFill r d)) then
    (st.1 ++ [ii], st.2 ++ [1])
  else st

/-- The sphere-index loop of `ExtractSamplePatches`
(`for( ii = 0; ii < Iterator.Size(); ++ii )`), run from the current contents of
`m_IndicesWithinSphere` and `m_weights`. -/
def sphereIndexLoop (r d : Nat) (st : List Nat × List ℚ) : List Nat × List ℚ :=
  (List.range (neighborhoodSize r d)).foldl (sphereStep r d) st

/-- Linear index of the neighborhood center, `Iterator.Size() / 2`. -/
def centerNeighborhoodIndex (r d : Nat) : Nat := neighborhoodSize r d / 2

/-- Sum of the squared components of an integer vector. -/
def sumSquares (v : List Int) : Int := (v.map (fun x => x * x)).sum

/-- Linear neighborhood index of an offset vector (raster order, dimension 0
fastest). -/
def linearIndexOfOffset (r : Nat) : List Int → Nat
  | [] => 0
  | x :: v => (x + (r : Int)).toNat + (2 * r + 1) * linearIndexOfOffset r v

/-- Every component of an offset lies in `-r .. r`. -/
def inCube (r : Nat) (v : List Int) : Prop := ∀ x ∈ v, -(r : Int) ≤ x ∧ x ≤ (r : Int)

/-! ## Vectors and matrices

Real-valued data (`vnl_vector`, `vnl_matrix` over `RealValueType`) are taken over
the rationals: every statement below is about exact arithmetic. -/

/-- Model of `vnl_matrix`: its dimensions and its entries. Entry access is not
bounds-checked in the source, so `get` is a total function; what it yields
outside `rows × cols` stands for whatever storage lies there. -/
structure Mat where
  rows : Nat
  cols : Nat
  get : Nat → Nat → ℚ

namespace Mat

/-- A `rows × cols` matrix after `set_size` and `fill( 0 )`. -/
def zero (rows cols : Nat) : Mat := { rows := rows, cols := cols, get := fun _ _ => 0 }

/-- The assignment `M( i, j ) = x`. -/
def put (M : Mat) (i j : Nat) (x : ℚ) : Mat :=
  { M with get := fun a b => if a = i ∧ b = j then x else M.get a b }

/-- `get_row( i )`. -/
def get_row (M : Mat) (i : Nat) : List ℚ := (List.range M.cols).map (M.get i)

/-- `get_column( j )`. -/
def get_column (M : Mat) (j : Nat) : List ℚ := (List.range M.rows).map (fun i => M.get i j)

/-- `set_row( i, v )`: entries `0 .. cols - 1` of row `i` are taken from `v`
(which the callers size to `cols`). -/
def set_row (M : Mat) (i : Nat) (v : List ℚ) : Mat :=
  { M with get := fun a b => if a = i ∧ b < M.cols then v.getD b 0 else M.get a b }

/-- `set_column( j, v )`: entries `0 .. rows - 1` of column `j` are taken from
`v` (which the callers size to `rows`). -/
def set_column (M : Mat) (j : Nat) (v : List ℚ) : Mat :=
  { M with get := fun a b => if b = j ∧ a < M.rows then v.getD a 0 else M.get a b }

/-- `get_n_columns( column, n )`: a matrix with the same rows and `n` columns,
column `c` being column `column + c` of the source. The source does not compare
`column + n` with the number of columns. -/
def get_n_columns (M : Mat) (column n : Nat) : Mat :=
  { rows := M.rows, cols := n, get := fun r c => M.get r (column + c) }

/-- `transpose()`. -/
def transpose (M : Mat) : Mat :=
  { rows := M.cols, cols := M.rows, get := fun i j => M.get j i }

/-- Matrix product `A * B`. -/
def mul (A B : Mat) : Mat :=
  { rows := A.rows, cols := B.cols,
    get := fun i j => ((List.range A.cols).map (fun k => A.get i k * B.get k j)).sum }

/-- Matrix sum `A + B`. -/
def add (A B : Mat) : Mat :=
  { rows := A.rows, cols := A.cols, get := fun i j => A.get i j + B.get i j }

/-- Matrix-vector product `A * v`. -/
def mulVec (A : Mat) (v : List ℚ) : List ℚ :=
  (List.range A.rows).map
    (fun i => ((List.range A.cols).map (fun k => A.get i k * v.getD k 0)).sum)

/-- A matrix given by its rows, as `set_size` followed by `set( values )`. -/
def ofRows (rows cols : Nat) (values : List (List ℚ)) : Mat :=
  { rows := rows, cols := cols, get := fun i j => (values.getD i []).getD j 0 }

end Mat

/-- `outer_product( u, v )`. -/
def outer_product (u v : List ℚ) : Mat :=
  { rows := u.length, cols := v.length, get := fun i j => u.getD i 0 * v.getD j 0 }

/-- `inner_product( u, v )` of two vectors of the same size. -/
def inner_product (u v : List ℚ) : ℚ := (List.zipWith (fun a b => a * b) u v).sum

/-- `vnl_vector::mean()`: the sum of the entries over their number. -/
def mean (v : List ℚ) : ℚ := v.sum / (v.length : ℚ)

/-- `v - c` for a vector `v` and a scalar `c`. -/
def subScalar (v : List ℚ) (c : ℚ) : List ℚ := v.map (fun x => x - c)

/-! ## Filter state and inputs -/

/-- Integer matrix `m_patchSeedPoints` (`vnl_matrix< int >`). -/
structure IntMat where
  rows : Nat
  cols : Nat
  get : Nat → Nat → Int

/-- `set_row( i, v )` on the seed-point matrix. -/
def IntMat.set_row (M : IntMat) (i : Nat) (v : List Int) : IntMat :=
  { M with get := fun a b => if a = i ∧ b < M.cols then v.getD b 0 else M.get a b }

/-- A scalar image as the filter reads it: its region (start index and size per
dimension) and its pixel at every index. Reads through a neighborhood iterator
whose boundary handling supplies values past the region are part of `pixel`. -/
structure Image where
  start : List Int
  size : List Nat
  pixel : List Int → ℚ

/-- The two required inputs of the filter: the image of interest and the mask. -/
structure Inputs where
  input : Image
  mask : Image

/-- Member variables of `RIPMMARCImageFilter` that the modelled methods read or
write. -/
structure Filter where
  ImageDimension : Nat
  m_RotationInvariant : Bool
  m_MeanCenterPatches : Bool
  m_LearnPatchBasis : Bool
  m_PatchRadius : Nat
  m_PaddingVoxels : Nat
  m_NumberOfSamplePatches : Nat
  m_TargetVarianceExplained : ℚ
  m_AchievedVarianceExplained : ℚ
  m_numberOfVoxelsWithinMask : Nat
  m_patchSeedPoints : IntMat
  m_IndicesWithinSphere : List Nat
  m_weights : List ℚ
  m_vectorizedSamplePatchMatrix : Mat
  m_PatchesForAllPointsWithinMask : Mat
  m_SignificantPatchEigenvectors : Mat
  m_EigenvectorCoefficients : Mat
  m_CanonicalFrame : Option Image

/-! ## LearnEigenPatches -/

/-- What the method reads from `vnl_svd< RealValueType >`: the diagonal of `W`
(`svd.W( i, i )`), `svd.rank()` and `svd.V()`. The decomposition itself is a
collaborator and enters as a parameter. -/
structure SVD where
  W : Nat → ℚ
  rank : Nat
  V : Mat

/-- The loop `for( i = 0; i < svd.rank(); i++ ) sumOfEigenvalues += svd.W(i, i)`. -/
def sumOfEigenvalues (svd : SVD) : ℚ :=
  (List.range svd.rank).foldl (fun acc i => acc + svd.W i) 0

/-- Loop variables of the two accumulation loops of `LearnEigenPatches`. -/
structure VarianceLoop where
  partialSumOfEigenvalues : ℚ
  percentVarianceExplained : ℚ
  i : Nat

/-- One pass of the body shared by both accumulation loops. -/
def VarianceLoop.step (svd : SVD) (total : ℚ) (st : VarianceLoop) : VarianceLoop :=
  { partialSumOfEigenvalues := st.partialSumOfEigenvalues + svd.W st.i,
    percentVarianceExplained := (st.partialSumOfEigenvalues + svd.W st.i) / total,
    i := st.i + 1 }

/-- The loop of the fraction branch,
`while( ( percentVarianceExplained <= target ) && ( i < svd.rank() ) )`.
The first argument bounds the number of passes; `svd.rank` passes always
suffice, since every pass increments `i`. -/
def fractionLoop (svd : SVD) (total target : ℚ) : Nat → VarianceLoop → VarianceLoop
  | 0, st => st
  | n + 1, st =>
    if st.percentVarianceExplained ≤ target ∧ st.i < svd.rank then
      fractionLoop svd total target n (VarianceLoop.step svd total st)
    else st

/-- The loop of the count branch, `while( ( j < i ) && ( j < svd.rank() ) )`,
with `j` held in the `i` field of the loop state and the requested count in
`count`. -/
def countLoop (svd : SVD) (total : ℚ) (count : Nat) : Nat → VarianceLoop → VarianceLoop
  | 0, st => st
  | n + 1, st =>
    if st.i < count ∧ st.i < svd.rank then
      countLoop svd total count n (VarianceLoop.step svd total st)
    else st

/-- `static_cast< unsigned int >( x )` for `x >= 1`: truncation, in 32 bits. -/
def castUnsignedInt (x : ℚ) : Nat := ⌊x⌋₊ % 4294967296

/-- `LearnEigenPatches`, given the decomposition `vnl_svd` computes of the
sample matrix. -/
def LearnEigenPatches (vnl_svd : Mat → SVD) (f : Filter) : Filter :=
  let svd := vnl_svd f.m_vectorizedSamplePatchMatrix
  let patchEigenvectors := svd.V
  let total := sumOfEigenvalues svd
  let start : VarianceLoop :=
    { partialSumOfEigenvalues := 0, percentVarianceExplained := 0, i := 0 }
  if f.m_TargetVarianceExplained < 1 then
    let fin := fractionLoop svd total f.m_TargetVarianceExplained svd.rank start
    { f with
      m_AchievedVarianceExplained := fin.percentVarianceExplained,
      m_SignificantPatchEigenvectors := patchEigenvectors.get_n_columns 0 fin.i }
  else
    let i := castUnsignedInt f.m_TargetVarianceExplained
    let fin := countLoop svd total i svd.rank start
    { f with
      m_AchievedVarianceExplained := fin.percentVarianceExplained,
      m_SignificantPatchEigenvectors := patchEigenvectors.get_n_columns 0 i }

/-- Cumulative fraction of the singular-value mass held by the first `k`
singular values: `(s_0 + ... + s_{k-1}) / (s_0 + ... + s_{R-1})`, `R` the rank. -/
def cumulativeFraction (svd : SVD) (k : Nat) : ℚ :=
  (∑ i in Finset.range k, svd.W i) / (∑ i in Finset.range svd.rank, svd.W i)

/-- The columns of a matrix are pairwise orthonormal: the dot product of
columns `i` and `j` is 1 when `i = j` and 0 otherwise. -/
def OrthonormalColumns (M : Mat) : Prop :=
  ∀ i j, i < M.cols → j < M.cols →
    inner_product (M.get_column i) (M.get_column j) = if i = j then 1 else 0

/-- The empty `vnl_matrix`. -/
def Mat.empty : Mat := Mat.zero 0 0

/-- The identity matrix of order `n`. -/
def Mat.identity (n : Nat) : Mat :=
  { rows := n, cols := n, get := fun i j => if i = j then 1 else 0 }

/-- The filter as its constructor leaves it, for an image dimension `D`:
rotation invariance, mean centering and basis learning on, patch radius 3,
padding 2, no sample patches requested, target variance 0.95, no canonical
frame. -/
def Filter.new (D : Nat) : Filter :=
  { ImageDimension := D,
    m_RotationInvariant := true,
    m_MeanCenterPatches := true,
    m_LearnPatchBasis := true,
    m_PatchRadius := 3,
    m_PaddingVoxels := 2,
    m_NumberOfSamplePatches := 0,
    m_TargetVarianceExplained := 95 / 100,
    m_AchievedVarianceExplained := 0,
    m_numberOfVoxelsWithinMask := 0,
    m_patchSeedPoints := { rows := 0, cols := 0, get := fun _ _ => 0 },
    m_IndicesWithinSphere := [],
    m_weights := [],
    m_vectorizedSamplePatchMatrix := Mat.empty,
    m_PatchesForAllPointsWithinMask := Mat.empty,
    m_SignificantPatchEigenvectors := Mat.empty,
    m_EigenvectorCoefficients := Mat.empty,
    m_CanonicalFrame := none }

/-- A decomposition with singular values 3 and 1 (rank 2) and `V` the identity
of order 2: that of the sample matrix with rows `(3, 0)` and `(0, 1)`. -/
def svdThreeOne : SVD :=
  { W := fun i => if i = 0 then 3 else if i = 1 then 1 else 0, rank := 2, V := Mat.identity 2 }

/-- A filter holding the sample matrix with rows `(3, 0)`, `(0, 1)` and the
target variance 1/2. -/
def filterThreeOne : Filter :=
  { Filter.new 1 with
    m_TargetVarianceExplained := 1 / 2,
    m_vectorizedSamplePatchMatrix := Mat.ofRows 2 2 [[3, 0], [0, 1]] }

/-- A decomposition with singular values 2 and 1 (rank 2) whose `V` has the
columns `(3/5, 4/5)` and `(-4/5, 3/5)`: that of the sample matrix with rows
`(6/5, 8/5)` and `(-4/5, 3/5)`. -/
def svdTurned : SVD :=
  { W := fun i => if i = 0 then 2 else if i = 1 then 1 else 0,
    rank := 2,
    V := Mat.ofRows 2 2 [[3 / 5, -4 / 5], [4 / 5, 3 / 5]] }

/-- A filter holding the sample matrix with rows `(6/5, 8/5)`, `(-4/5, 3/5)` and
the target-variance parameter 2, a component count. -/
def filterTwoComponents : Filter :=
  { Filter.new 1 with
    m_TargetVarianceExplained := 2,
    m_vectorizedSamplePatchMatrix := Mat.ofRows 2 2 [[6 / 5, 8 / 5], [-4 / 5, 3 / 5]] }

/-- A decomposition of rank 1 with three columns: singular values 1, 0, 0 and
`V` the identity of order 3, that of the one-row sample matrix `(1, 0, 0)`. -/
def svdRankOne : SVD :=
  { W := fun i => if i = 0 then 1 else 0, rank := 1, V := Mat.identity 3 }

/-- A filter holding the one-row sample matrix `(1, 0, 0)` (one sample patch of
three sphere offsets) with the target-variance parameter 2, a component count. -/
def filterRankOne : Filter :=
  { Filter.new 1 with
    m_PatchRadius := 1,
    m_NumberOfSamplePatches := 1,
    m_TargetVarianceExplained := 2,
    m_vectorizedSamplePatchMatrix := Mat.ofRows 1 3 [[1, 0, 0]] }

/-! ## GetSamplePatchLocations -/

/-- Loop variables of the seed-sampling loop. -/
structure SeedLoop where
  m_patchSeedPoints : IntMat
  patchSeedIterator : Nat
  patchSeedAttemptIterator : Nat

/-- The coordinates drawn in attempt number `attempt`:
`rand() % inputSize[ i ]` for every dimension, `rand k` being the value the
`k`-th call of `rand()` returns. -/
def drawPatchSeed (D : Nat) (inputSize : List Nat) (rand : Nat → Nat) (attempt : Nat) :
    List Int :=
  (List.range D).map (fun i => ((rand (attempt * D + i) % inputSize.getD i 0 : Nat) : Int))

/-- One pass of the body of `while( patchSeedIterator < m_NumberOfSamplePatches )`:
a draw, stored as the next seed row when the mask there is at least 1, and the
attempt counter incremented either way. -/
def seedStep (D : Nat) (inp : Inputs) (rand : Nat → Nat) (st : SeedLoop) : SeedLoop :=
  let testPatchSeed := drawPatchSeed D inp.input.size rand st.patchSeedAttemptIterator
  if 1 ≤ inp.mask.pixel testPatchSeed then
    { m_patchSeedPoints := st.m_patchSeedPoints.set_row st.patchSeedIterator testPatchSeed,
      patchSeedIterator := st.patchSeedIterator + 1,
      patchSeedAttemptIterator := st.patchSeedAttemptIterator + 1 }
  else
    { st with patchSeedAttemptIterator := st.patchSeedAttemptIterator + 1 }

/-- The loop variables at entry of the seed-sampling loop: the seed matrix sized
`m_NumberOfSamplePatches × ImageDimension`, both counters 0. -/
def seedStart (f : Filter) : SeedLoop :=
  { m_patchSeedPoints :=
      { rows := f.m_NumberOfSamplePatches, cols := f.ImageDimension,
        get := f.m_patchSeedPoints.get },
    patchSeedIterator := 0,
    patchSeedAttemptIterator := 0 }

/-- The loop variables after `n` passes of the loop body. -/
def seedAfter (f : Filter) (inp : Inputs) (rand : Nat → Nat) : Nat → SeedLoop
  | 0 => seedStart f
  | n + 1 => seedStep f.ImageDimension inp rand (seedAfter f inp rand n)

/-- The seed-sampling loop run for at most `fuel` passes from state `st`:
`some` of the final loop variables when the loop condition fails within that
many passes, `none` when the loop is still running after them. The source has
no exit other than the loop condition. -/
def seedLoop (f : Filter) (inp : Inputs) (rand : Nat → Nat) : Nat → SeedLoop → Option SeedLoop
  | 0, st => if st.patchSeedIterator < f.m_NumberOfSamplePatches then none else some st
  | fuel + 1, st =>
    if st.patchSeedIterator < f.m_NumberOfSamplePatches then
      seedLoop f inp rand fuel (seedStep f.ImageDimension inp rand st)
    else some st

/-- `GetSamplePatchLocations` run for at most `fuel` attempts: the filter with
its seed points and the number of attempts made, or `none` when the sampling
loop has not ended by then. -/
def GetSamplePatchLocations (f : Filter) (inp : Inputs) (rand : Nat → Nat) (fuel : Nat) :
    Option (Filter × Nat) :=
  (seedLoop f inp rand fuel (seedStart f)).map
    (fun st => ({ f with m_patchSeedPoints := st.m_patchSeedPoints },
      st.patchSeedAttemptIterator))

/-- `GetSamplePatchLocations` never returns: whatever number of attempts is
allowed, the sampling loop is still running after them. -/
def SamplingNeverEnds (f : Filter) (inp : Inputs) (rand : Nat → Nat) : Prop :=
  ∀ fuel, GetSamplePatchLocations f inp rand fuel = none

/-! ## ExtractSamplePatches and ExtractAllPatches -/

/-- The patch read through a neighborhood iterator located at `location`:
`Iterator.GetPixel( m_IndicesWithinSphere[ j ] )` for every `j`. -/
def patchAt (r d : Nat) (image : Image) (sphere : List Nat) (location : List Int) : List ℚ :=
  sphere.map (fun n => image.pixel (GetIndex r d location n))

/-- The `j` loop filling row `i` of the sample matrix:
`M( i, j ) = Iterator.GetPixel( m_IndicesWithinSphere[ j ] )`. -/
def fillRow (r d : Nat) (image : Image) (sphere : List Nat) (location : List Int)
    (i : Nat) (M : Mat) : Mat :=
  (List.range sphere.length).foldl
    (fun M j => M.put i j (image.pixel (GetIndex r d location (sphere.getD j 0)))) M

/-- The `j` loop filling column `i` of the all-patches matrix:
`M( j, i ) = iterator.GetPixel( m_IndicesWithinSphere[ j ] )`. -/
def fillColumn (r d : Nat) (image : Image) (sphere : List Nat) (location : List Int)
    (i : Nat) (M : Mat) : Mat :=
  (List.range sphere.length).foldl
    (fun M j => M.put j i (image.pixel (GetIndex r d location (sphere.getD j 0)))) M

/-- Row `i` of the seed-point matrix as an index,
`patchCenterIndex[ j ] = m_patchSeedPoints( i, j )`. -/
def seedPoint (f : Filter) (i : Nat) : List Int :=
  (List.range f.ImageDimension).map (fun j => f.m_patchSeedPoints.get i j)

/-- One pass of the `i` loop of `ExtractSamplePatches`: row `i` is filled from
the patch at seed point `i` and, with mean centering on, replaced by itself
minus its mean. -/
def sampleRowStep (f : Filter) (image : Image) (sphere : List Nat) (M : Mat) (i : Nat) : Mat :=
  let M1 := fillRow f.m_PatchRadius f.ImageDimension image sphere (seedPoint f i) i M
  if f.m_MeanCenterPatches then
    M1.set_row i (subScalar (M1.get_row i) (mean (M1.get_row i)))
  else M1

/-- `ExtractSamplePatches`: the sphere-index loop appends to
`m_IndicesWithinSphere` and `m_weights`, then the sample matrix is sized
`m_NumberOfSamplePatches × m_IndicesWithinSphere.size()`, zero-filled and
filled row by row. The read of seed row 0 into `patchIndex` that opens the
method has no effect on the state; it is listed in `seedPointReads`. -/
def ExtractSamplePatches (inp : Inputs) (f : Filter) : Filter :=
  let sphere := sphereIndexLoop f.m_PatchRadius f.ImageDimension
    (f.m_IndicesWithinSphere, f.m_weights)
  let M := (List.range f.m_NumberOfSamplePatches).foldl
    (sampleRowStep f inp.input sphere.1)
    (Mat.zero f.m_NumberOfSamplePatches sphere.1.length)
  { f with
    m_IndicesWithinSphere := sphere.1,
    m_weights := sphere.2,
    m_vectorizedSamplePatchMatrix := M }

/-- The entries `(row, column)` of `m_patchSeedPoints` that `ExtractSamplePatches`
reads, in order: row `i = 0` before the sphere-index loop (lines 417-423), then
row `i` for every `i < m_NumberOfSamplePatches` in the patch loop. -/
def seedPointReads (f : Filter) : List (Nat × Nat) :=
  (List.range f.ImageDimension).map (fun j => (0, j)) ++
  (List.range f.m_NumberOfSamplePatches).flatMap
    (fun i => (List.range f.ImageDimension).map (fun j => (i, j)))

/-- The indices of a region in the order a region iterator visits them: raster
order, dimension 0 running fastest. The region is given per dimension by its
start index and size. -/
def regionIndices : List (Int × Nat) → List (List Int)
  | [] => [[]]
  | (s, n) :: rest =>
    (regionIndices rest).flatMap
      (fun tl => (List.range n).map (fun (x : Nat) => (s + (x : Int)) :: tl))

/-- The region of an image, start and size per dimension. -/
def Image.region (im : Image) : List (Int × Nat) := im.start.zip im.size

/-- The first loop of `ExtractAllPatches`: the indices of the mask voxels with
value at least 1, in scan order. -/
def nonZeroMaskIndices (mask : Image) : List (List Int) :=
  (regionIndices mask.region).filter (fun idx => decide (1 ≤ mask.pixel idx))

/-- One pass of the `i` loop of `ExtractAllPatches`: column `i` is filled from
the patch at the `i`-th masked voxel and, with mean centering on, replaced by
itself minus its mean. -/
def allColumnStep (f : Filter) (image : Image) (voxels : List (List Int)) (M : Mat) (i : Nat) :
    Mat :=
  let M1 := fillColumn f.m_PatchRadius f.ImageDimension image f.m_IndicesWithinSphere
    (voxels.getD i []) i M
  if f.m_MeanCenterPatches then
    M1.set_column i (subScalar (M1.get_column i) (mean (M1.get_column i)))
  else M1

/-- `ExtractAllPatches`. -/
def ExtractAllPatches (inp : Inputs) (f : Filter) : Filter :=
  let voxels := nonZeroMaskIndices inp.mask
  let M := (List.range voxels.length).foldl (allColumnStep f inp.input voxels)
    (Mat.zero f.m_IndicesWithinSphere.length voxels.length)
  { f with
    m_numberOfVoxelsWithinMask := voxels.length,
    m_PatchesForAllPointsWithinMask := M }

/-! ## ProjectOnEigenPatches -/

/-- `ProjectOnEigenPatches`, given the least-squares solver: `solve A b` stands
for `vnl_svd( A ).solve( b )`. The reconstruction error computed afterwards is
only printed. -/
def ProjectOnEigenPatches (solve : Mat → List ℚ → List ℚ) (f : Filter) : Filter :=
  let C := (List.range f.m_numberOfVoxelsWithinMask).foldl
    (fun C i => C.set_column i
      (solve f.m_SignificantPatchEigenvectors (f.m_PatchesForAllPointsWithinMask.get_column i)))
    (Mat.zero f.m_SignificantPatchEigenvectors.cols f.m_numberOfVoxelsWithinMask)
  { f with m_EigenvectorCoefficients := C }

/-- The squared residual `‖ A x - b ‖²`. -/
def residualSq (A : Mat) (x b : List ℚ) : ℚ :=
  ((List.range A.rows).map
    (fun i => ((A.mulVec x).getD i 0 - b.getD i 0) * ((A.mulVec x).getD i 0 - b.getD i 0))).sum

/-- The vector `x` is a least-squares solution of `A x = b`: it has one entry per
column of `A` and no such vector has a smaller residual. -/
def IsLeastSquares (A : Mat) (b x : List ℚ) : Prop :=
  x.length = A.cols ∧ ∀ y : List ℚ, y.length = A.cols → residualSq A x b ≤ residualSq A y b

/-- A patch vector as stored: minus its own mean when mean centering is on, as
read otherwise. -/
def storedPatch (meanCenter : Bool) (p : List ℚ) : List ℚ :=
  if meanCenter then subScalar p (mean p) else p

/-! ## ReorientPatchToReferenceFrame -/

/-- `IsInside( input, index )`: every component of the index is at least 0 and
at most `size[ i ] - 1`, the subtraction being that of the unsigned 64-bit size
type. The comparison is made on the index converted to `float`; the conversion
is taken as exact. -/
def IsInside (D : Nat) (size : List Nat) (index : List Int) : Bool :=
  (List.range D).foldl
    (fun isinside i =>
      if index.getD i 0 < 0 ∨
          ((((size.getD i 0 + (2 ^ 64 - 1)) % 2 ^ 64 : Nat) : Int) < index.getD i 0) then false
      else isinside)
    true

/-- What the method uses of a `ConstNeighborhoodIterator`: the pixel and the
image index of neighborhood element `n`. -/
structure NeighborhoodIterator where
  GetPixel : Nat → ℚ
  GetIndex : Nat → List Int

/-- What the method uses of a gradient image: the size of its largest possible
region, its pixels (gradient vectors) and its index-to-physical-point map. -/
structure GradientImage where
  size : List Nat
  GetPixel : List Int → List ℚ
  TransformIndexToPhysicalPoint : List Int → List ℚ

/-- The interpolator over the moving image. -/
structure Interpolator where
  IsInsideBuffer : List ℚ → Bool
  Evaluate : List ℚ → ℚ

/-- The decompositions the method asks of the linear-algebra library:
`get_eigenvector M k` is `vnl_symmetric_eigensystem( M ).get_eigenvector( k )`,
`svdU B` and `svdV B` are `vnl_svd( B ).U()` and `.V()`. -/
structure LinearAlgebra where
  get_eigenvector : Mat → Int → List ℚ
  svdU : Mat → Mat
  svdV : Mat → Mat

/-- The arguments of `ReorientPatchToReferenceFrame` (the mask image argument is
not used by the method) together with the linear-algebra collaborator. -/
structure ReorientArgs where
  GradientImageNeighborhood1 : NeighborhoodIterator
  GradientImageNeighborhood2 : NeighborhoodIterator
  GradientImage1 : GradientImage
  GradientImage2 : GradientImage
  Interp : Interpolator
  vnl : LinearAlgebra

/-- Variables filled by the first loop of the method. -/
structure PatchSamples where
  VectorizedImagePatch1 : List ℚ
  VectorizedImagePatch2 : List ℚ
  GradientMatrix1 : Mat
  GradientMatrix2 : Mat
  CenterPointOfImage1 : List ℚ
  CenterPointOfImage2 : List ℚ
  ImagePatch1 : List (List ℚ)
  ImagePatch2 : List (List ℚ)

/-- The variables at entry of the first loop. -/
def PatchSamples.start (D N : Nat) : PatchSamples :=
  { VectorizedImagePatch1 := List.replicate N 0,
    VectorizedImagePatch2 := List.replicate N 0,
    GradientMatrix1 := Mat.zero N D,
    GradientMatrix2 := Mat.zero N D,
    CenterPointOfImage1 := List.replicate D 0,
    CenterPointOfImage2 := List.replicate D 0,
    ImagePatch1 := [],
    ImagePatch2 := [] }

/-- The test of the first loop at sphere offset `ii`: both sampled indices lie
inside their gradient images. -/
def bothInside (f : Filter) (a : ReorientArgs) (ii : Nat) : Bool :=
  IsInside f.ImageDimension a.GradientImage1.size
      (a.GradientImageNeighborhood1.GetIndex (f.m_IndicesWithinSphere.getD ii 0)) &&
    IsInside f.ImageDimension a.GradientImage2.size
      (a.GradientImageNeighborhood2.GetIndex (f.m_IndicesWithinSphere.getD ii 0))

/-- The row assignment `GradientMatrix( ii, jj ) = GradientPixel[ jj ]` for all
`jj < ImageDimension`. -/
def putGradientRow (D ii : Nat) (G : Mat) (GradientPixel : List ℚ) : Mat :=
  (List.range D).foldl (fun G jj => G.put ii jj (GradientPixel.getD jj 0)) G

/-- One pass of the body of the first loop; `none` is the early
`return vnl_vector< RealValueType > (1, 0.0 )`. -/
def gatherStep (f : Filter) (a : ReorientArgs) (ii : Nat) (s : PatchSamples) :
    Option PatchSamples :=
  let n := f.m_IndicesWithinSphere.getD ii 0
  let GradientImageIndex1 := a.GradientImageNeighborhood1.GetIndex n
  let GradientImageIndex2 := a.GradientImageNeighborhood2.GetIndex n
  if bothInside f a ii then
    let MeanNormalizingConstant : ℚ := 1 / (f.m_IndicesWithinSphere.length : ℚ)
    let GradientPixel1 :=
      (a.GradientImage1.GetPixel GradientImageIndex1).map (fun g => g * f.m_weights.getD ii 0)
    let GradientPixel2 :=
      (a.GradientImage2.GetPixel GradientImageIndex2).map (fun g => g * f.m_weights.getD ii 0)
    let Point1 := a.GradientImage1.TransformIndexToPhysicalPoint GradientImageIndex1
    let Point2 := a.GradientImage2.TransformIndexToPhysicalPoint GradientImageIndex2
    some
      { VectorizedImagePatch1 :=
          s.VectorizedImagePatch1.set ii (a.GradientImageNeighborhood1.GetPixel n),
        VectorizedImagePatch2 :=
          s.VectorizedImagePatch2.set ii (a.GradientImageNeighborhood2.GetPixel n),
        GradientMatrix1 := putGradientRow f.ImageDimension ii s.GradientMatrix1 GradientPixel1,
        GradientMatrix2 := putGradientRow f.ImageDimension ii s.GradientMatrix2 GradientPixel2,
        CenterPointOfImage1 := (List.range f.ImageDimension).map
          (fun dd => s.CenterPointOfImage1.getD dd 0 + Point1.getD dd 0 * MeanNormalizingConstant),
        CenterPointOfImage2 := (List.range f.ImageDimension).map
          (fun dd => s.CenterPointOfImage2.getD dd 0 + Point2.getD dd 0 * MeanNormalizingConstant),
        ImagePatch1 := s.ImagePatch1 ++ [Point1],
        ImagePatch2 := s.ImagePatch2 ++ [Point2] }
  else none

/-- The first loop over the given sphere-offset positions. -/
def gatherLoop (f : Filter) (a : ReorientArgs) : List Nat → PatchSamples → Option PatchSamples
  | [], s => some s
  | ii :: rest, s =>
    match gatherStep f a ii s with
    | none => none
    | some s1 => gatherLoop f a rest s1

/-- One pass of the resampling loop: the physical point of sample `ii` is moved
to the patch center, rotated by `Q`, moved back and, when inside the
interpolator's buffer, evaluated into `VectorizedImagePatch2[ ii ]`; otherwise
the local flag `OK` is cleared. The loop state is the vector and the flag. -/
def resampleStep (D : Nat) (Q : Mat) (interp : Interpolator) (ImagePatch2 : List (List ℚ))
    (CenterPointOfImage2 : List ℚ) (st : List ℚ × Bool) (ii : Nat) : List ℚ × Bool :=
  let centered := (List.range D).map
    (fun dd => (ImagePatch2.getD ii []).getD dd 0 - CenterPointOfImage2.getD dd 0)
  let RotatedPointVector := Q.mulVec centered
  let RotatedPoint := (List.range D).map
    (fun dd => RotatedPointVector.getD dd 0 + CenterPointOfImage2.getD dd 0)
  if interp.IsInsideBuffer RotatedPoint then
    (st.1.set ii (interp.Evaluate RotatedPoint), st.2)
  else (st.1, false)

/-- The resampling loop over all sphere offsets. -/
def resampleLoop (D N : Nat) (Q : Mat) (interp : Interpolator) (ImagePatch2 : List (List ℚ))
    (CenterPointOfImage2 : List ℚ) (st : List ℚ × Bool) : List ℚ × Bool :=
  (List.range N).foldl (resampleStep D Q interp ImagePatch2 CenterPointOfImage2) st

/-- The fixed matrix of the sign-correction branch: `diag(-1, -1)` in two
dimensions, `diag(1, -1, -1)` in three; left unsized otherwise. -/
def rotationMat (D : Nat) : Mat :=
  if D = 2 then Mat.ofRows 2 2 [[-1, 0], [0, -1]]
  else if D = 3 then Mat.ofRows 3 3 [[1, 0, 0], [0, -1, 0], [0, 0, -1]]
  else Mat.empty

/-- The cross-covariance matrix `B` of the rotation solve: one outer product of
dominant eigenvectors, two summed in three dimensions. -/
def wahbaB (D : Nat) (vnl : LinearAlgebra) (Cov1 Cov2 : Mat) : Mat :=
  let NumberOfEigenvectors : Int := (Cov1.cols : Int)
  let Image1Eigvec1 := vnl.get_eigenvector Cov1 (NumberOfEigenvectors - 1)
  let Image1Eigvec2 := vnl.get_eigenvector Cov1 (NumberOfEigenvectors - 2)
  let Image2Eigvec1 := vnl.get_eigenvector Cov2 (NumberOfEigenvectors - 1)
  let Image2Eigvec2 := vnl.get_eigenvector Cov2 (NumberOfEigenvectors - 2)
  if D = 3 then
    (outer_product Image1Eigvec1 Image2Eigvec1).add (outer_product Image1Eigvec2 Image2Eigvec2)
  else outer_product Image1Eigvec1 Image2Eigvec1

/-- The method after its first loop has run to completion: the resampled vector
together with the final value of the local flag `OK`. -/
def reorientAfterGather (f : Filter) (a : ReorientArgs) (s : PatchSamples) : List ℚ × Bool :=
  let N := f.m_IndicesWithinSphere.length
  let D := f.ImageDimension
  let MeanOfImagePatch1 := mean s.VectorizedImagePatch1
  let CenteredVectorizedImagePatch1 := subScalar s.VectorizedImagePatch1 MeanOfImagePatch1
  let CovarianceMatrixOfImage1 := s.GradientMatrix1.transpose.mul s.GradientMatrix1
  let CovarianceMatrixOfImage2 := s.GradientMatrix2.transpose.mul s.GradientMatrix2
  let B := wahbaB D a.vnl CovarianceMatrixOfImage1 CovarianceMatrixOfImage2
  let Q_solution := (a.vnl.svdV B).mul (a.vnl.svdU B).transpose
  let first := resampleLoop D N Q_solution a.Interp s.ImagePatch2 s.CenterPointOfImage2
    (s.VectorizedImagePatch2, true)
  let MeanOfImagePatch2 := mean first.1
  let CenteredVectorizedImagePatch2 := subScalar first.1 MeanOfImagePatch2
  if inner_product CenteredVectorizedImagePatch1 CenteredVectorizedImagePatch2 < 0 then
    resampleLoop D N (Q_solution.mul (rotationMat D)) a.Interp s.ImagePatch2
      s.CenterPointOfImage2 first
  else first

/-- `ReorientPatchToReferenceFrame`: the vector of length 1 holding 0 when the
first loop returns early, the resampled vector otherwise. The flag `OK` is local
to the method and is not part of what it returns. -/
def ReorientPatchToReferenceFrame (f : Filter) (a : ReorientArgs) : List ℚ :=
  match gatherLoop f a (List.range f.m_IndicesWithinSphere.length)
      (PatchSamples.start f.ImageDimension f.m_IndicesWithinSphere.length) with
  | none => [0]
  | some s => (reorientAfterGather f a s).1

/-! ## GenerateData -/

/-- The member functions `GenerateData` calls, as (possibly non-returning)
transformers of a state; `SetCanonicalFrame k` is the assignment
`m_CanonicalFrame = GetCanonicalFrameK( k )`. -/
structure Stages (σ : Type) where
  GetSamplePatchLocations : σ → Option σ
  ExtractSamplePatches : σ → Option σ
  LearnEigenPatches : σ → Option σ
  SetCanonicalFrame : Nat → σ → Option σ
  ExtractAllPatches : σ → Option σ
  ReorientSamplePatches : σ → Option σ
  ReorientAllPatches : σ → Option σ
  ProjectOnEigenPatches : σ → Option σ
  SetNthOutput : σ → Option σ

/-- The learning step of `GenerateData`, taken only when `m_LearnPatchBasis`:
`LearnEigenPatches` followed by the canonical-frame assignment. -/
def learnAndFrame {σ : Type} (S : Stages σ) (learn : Bool) (canonicalEvecIndex : Nat) (s : σ) :
    Option σ :=
  if learn then (S.LearnEigenPatches s).bind (S.SetCanonicalFrame canonicalEvecIndex)
  else some s

/-- `GenerateData`, for the three flags it reads (`m_MeanCenterPatches`,
`m_LearnPatchBasis`, `m_RotationInvariant`). -/
def GenerateData {σ : Type} (S : Stages σ) (meanCenter learn rotInv : Bool) (s : σ) : Option σ :=
  let canonicalEvecIndex : Nat := if meanCenter then 0 else 1
  (S.GetSamplePatchLocations s).bind fun s1 =>
  (S.ExtractSamplePatches s1).bind fun s2 =>
  (learnAndFrame S learn canonicalEvecIndex s2).bind fun s3 =>
  (S.ExtractAllPatches s3).bind fun s4 =>
  (if rotInv then
    (S.ReorientSamplePatches s4).bind fun s5 =>
    (S.ReorientAllPatches s5).bind fun s6 =>
    learnAndFrame S learn canonicalEvecIndex s6
   else some s4).bind fun s7 =>
  (S.ProjectOnEigenPatches s7).bind S.SetNthOutput

/-- The calls `GenerateData` makes. -/
inductive Call where
  | GetSamplePatchLocations
  | ExtractSamplePatches
  | LearnEigenPatches
  | GetCanonicalFrameK (k : Nat)
  | ExtractAllPatches
  | ReorientSamplePatches
  | ReorientAllPatches
  | ProjectOnEigenPatches
  | SetNthOutput
  deriving DecidableEq

/-- Stages that only record that they were called. -/
def recordCalls : Stages (List Call) :=
  { GetSamplePatchLocations := fun t => some (t ++ [Call.GetSamplePatchLocations]),
    ExtractSamplePatches := fun t => some (t ++ [Call.ExtractSamplePatches]),
    LearnEigenPatches := fun t => some (t ++ [Call.LearnEigenPatches]),
    SetCanonicalFrame := fun k t => some (t ++ [Call.GetCanonicalFrameK k]),
    ExtractAllPatches := fun t => some (t ++ [Call.ExtractAllPatches]),
    ReorientSamplePatches := fun t => some (t ++ [Call.ReorientSamplePatches]),
    ReorientAllPatches := fun t => some (t ++ [Call.ReorientAllPatches]),
    ProjectOnEigenPatches := fun t => some (t ++ [Call.ProjectOnEigenPatches]),
    SetNthOutput := fun t => some (t ++ [Call.SetNthOutput]) }

/-- The sequence of calls `GenerateData` makes for given flags. -/
def GenerateDataCalls (meanCenter learn rotInv : Bool) : Option (List Call) :=
  GenerateData recordCalls meanCenter learn rotInv []

/-! ## Concrete inputs -/

/-- A one-dimensional image of the given size whose pixels are all 0. -/
def zeroImage (size : Nat) : Image := { start := [0], size := [size], pixel := fun _ => 0 }

/-- A one-voxel image of interest with a mask that is 0 everywhere. -/
def inputsEmptyMask : Inputs := { input := zeroImage 1, mask := zeroImage 1 }

/-- The filter as constructed for one dimension, asked for one sample patch. -/
def filterOneSample : Filter := { Filter.new 1 with m_NumberOfSamplePatches := 1 }

/-- A filter in two dimensions with patch radius 0 after its sphere offsets have
been computed: one sphere offset (the center, neighborhood element 0) of
weight 1. -/
def filterSingleOffset : Filter :=
  { Filter.new 2 with m_PatchRadius := 0, m_IndicesWithinSphere := [0], m_weights := [1] }

/-- A gradient image of size `1 × 1` with zero gradient, index `(i, j)` lying at
the physical point `(i, j)`. -/
def flatGradient : GradientImage :=
  { size := [1, 1],
    GetPixel := fun _ => [0, 0],
    TransformIndexToPhysicalPoint := fun idx => idx.map (fun (x : Int) => (x : ℚ)) }

/-- The decompositions of the matrices met on flat one-sample patches in two
dimensions: the zero covariance matrix has the unit vectors as eigenvectors, and
the matrix `B` with rows `(0, 0)`, `(0, 1)` has `U = V` with rows `(0, 1)`,
`(1, 0)` (singular values 1 and 0). -/
def flatDecompositions : LinearAlgebra :=
  { get_eigenvector := fun _ k => if k = 1 then [0, 1] else [1, 0],
    svdU := fun _ => Mat.ofRows 2 2 [[0, 1], [1, 0]],
    svdV := fun _ => Mat.ofRows 2 2 [[0, 1], [1, 0]] }

/-- A fixed neighborhood holding the value 7 at index `(0, 0)` and a moving
neighborhood holding the value 0 located at `movingIndex`, over flat `1 × 1`
gradient images, with an interpolator whose buffer holds the value 0. -/
def flatArgs (movingIndex : List Int) : ReorientArgs :=
  { GradientImageNeighborhood1 := { GetPixel := fun _ => 7, GetIndex := fun _ => [0, 0] },
    GradientImageNeighborhood2 := { GetPixel := fun _ => 0, GetIndex := fun _ => movingIndex },
    GradientImage1 := flatGradient,
    GradientImage2 := flatGradient,
    Interp := { IsInsideBuffer := fun _ => true, Evaluate := fun _ => 0 },
    vnl := flatDecompositions }

/-- A one-dimensional image of 5 voxels whose pixel at index `x` is `x`, also
past its ends. -/
def rampImage : Image :=
  { start := [0], size := [5], pixel := fun idx => ((idx.getD 0 0 : Int) : ℚ) }

/-- A one-dimensional mask of 5 voxels, all of value 1. -/
def fullMask : Image := { start := [0], size := [5], pixel := fun _ => 1 }

/-- The ramp image under the full mask. -/
def rampInputs : Inputs := { input := rampImage, mask := fullMask }

/-- A filter in one dimension with patch radius 1, mean centering on, and one
sample patch seeded at voxel 2. -/
def filterRamp : Filter :=
  { Filter.new 1 with
    m_PatchRadius := 1,
    m_NumberOfSamplePatches := 1,
    m_patchSeedPoints := { rows := 1, cols := 1, get := fun _ _ => 2 } }

/-- A one-dimensional mask of 2 voxels with values 1 and 0. -/
def halfMask : Image :=
  { start := [0], size := [2], pixel := fun idx => if idx = [0] then 1 else 0 }

/-- An image of 2 voxels of value 5 under the half mask. -/
def constantInputs : Inputs :=
  { input := { start := [0], size := [2], pixel := fun _ => 5 }, mask := halfMask }

/-- A filter in one dimension with patch radius 0 (one sphere offset), mean
centering off, and the one-column basis `(1)`. -/
def filterUnitBasis : Filter :=
  { Filter.new 1 with
    m_MeanCenterPatches := false,
    m_PatchRadius := 0,
    m_IndicesWithinSphere := [0],
    m_weights := [1],
    m_SignificantPatchEigenvectors := Mat.identity 1 }

/-- The least-squares solver for the basis `(1)`: the solution of `x = b`. -/
def solveUnit (_ : Mat) (b : List ℚ) : List ℚ := [b.getD 0 0]

/-! ## Synthetic patch images -/

/-- `SetPixel( index, value )` on an image. -/
def Image.SetPixel (im : Image) (index : List Int) (value : ℚ) : Image :=
  { im with pixel := fun x => if x = index then value else im.pixel x }

/-- The index `beginningOfSphereRegion`: every component is
`m_PaddingVoxels + m_PatchRadius`, the center of the synthetic patch image. A
neighborhood iterator constructed over `sphereRegion` is located there. -/
def beginningOfSphereRegion (f : Filter) : List Int :=
  List.replicate f.ImageDimension ((f.m_PaddingVoxels + f.m_PatchRadius : Nat) : Int)

/-- `GenerateMaskImageFromPatch`: an image of side
`2 * m_PatchRadius + 2 * m_PaddingVoxels + 1` with index 0 as start, filled with
0, in which the neighborhood elements listed in `m_IndicesWithinSphere` of the
iterator located at `beginningOfSphereRegion` are set to 1. -/
def GenerateMaskImageFromPatch (f : Filter) : Image :=
  let sizeOfImage := 2 * f.m_PatchRadius + 2 * f.m_PaddingVoxels + 1
  let maskImage : Image :=
    { start := List.replicate f.ImageDimension 0,
      size := List.replicate f.ImageDimension sizeOfImage,
      pixel := fun _ => 0 }
  f.m_IndicesWithinSphere.foldl
    (fun im n =>
      im.SetPixel (GetIndex f.m_PatchRadius f.ImageDimension (beginningOfSphereRegion f) n) 1)
    maskImage

/-- Loop variables of `ConvertVectorToSpatialImage`: the image being painted,
the mask (which the loop writes to) and the position in the vector. -/
structure PaintLoop where
  VectorAsSpatialImage : Image
  Mask : Image
  VectorIndex : Nat

/-- One pass of the mask scan of `ConvertVectorToSpatialImage`: where the mask
is at least 0.5 the next vector entry (0 once the vector is used up) is written
to the image and the position advances; elsewhere the mask itself is set
to 0. -/
def paintStep (Vector : List ℚ) (st : PaintLoop) (index : List Int) : PaintLoop :=
  if 1 / 2 ≤ st.Mask.pixel index then
    { st with
      VectorAsSpatialImage := st.VectorAsSpatialImage.SetPixel index
        (if st.VectorIndex < Vector.length then Vector.getD st.VectorIndex 0 else 0),
      VectorIndex := st.VectorIndex + 1 }
  else { st with Mask := st.Mask.SetPixel index 0 }

/-- The mask scan of `ConvertVectorToSpatialImage` over the mask's largest
possible region, from a zero-filled image with the mask's region. -/
def paintLoop (Vector : List ℚ) (Mask : Image) : PaintLoop :=
  (regionIndices Mask.region).foldl (paintStep Vector)
    { VectorAsSpatialImage := { start := Mask.start, size := Mask.size, pixel := fun _ => 0 },
      Mask := Mask,
      VectorIndex := 0 }

/-- `ConvertVectorToSpatialImage`: the image it returns. -/
def ConvertVectorToSpatialImage (Vector : List ℚ) (Mask : Image) : Image :=
  (paintLoop Vector Mask).VectorAsSpatialImage

/-- A neighborhood iterator of radius `r` over `image` located at `location`. -/
def neighborhoodAt (r D : Nat) (image : Image) (location : List Int) : NeighborhoodIterator :=
  { GetPixel := fun n => image.pixel (GetIndex r D location n),
    GetIndex := fun n => GetIndex r D location n }

/-! ## ReorientSamplePatches and ReorientAllPatches -/

/-- The collaborators of a pipeline run: the random number source, the
decompositions and the least-squares solver of the linear-algebra library, the
smoothing gradient filter (`sigma = 1`), the interpolator set on an image, and
`GetCanonicalFrameK`, which is declared outside the file modelled here. -/
structure Collaborators where
  rand : Nat → Nat
  vnl_svd : Mat → SVD
  solve : Mat → List ℚ → List ℚ
  vnl : LinearAlgebra
  GradientImageFilter : Image → GradientImage
  ScalarInterpolator : Image → Interpolator
  GetCanonicalFrameK : Filter → Nat → Image

/-- The body shared by the patch loops of `ReorientSamplePatches` and
`ReorientAllPatches`: the patch is painted on the mask image, and reoriented
against the canonical frame. Returns the rotated vector and the mask image as
the painting leaves it. -/
def reorientOne (c : Collaborators) (f : Filter) (frame : Image) (maskImage : Image)
    (vectorizedPatch : List ℚ) : List ℚ × Image :=
  let painted := paintLoop vectorizedPatch maskImage
  let movingImage := painted.VectorAsSpatialImage
  let rotatedPatchAsVector := ReorientPatchToReferenceFrame f
    { GradientImageNeighborhood1 :=
        neighborhoodAt f.m_PatchRadius f.ImageDimension frame (beginningOfSphereRegion f),
      GradientImageNeighborhood2 :=
        neighborhoodAt f.m_PatchRadius f.ImageDimension movingImage (beginningOfSphereRegion f),
      GradientImage1 := c.GradientImageFilter frame,
      GradientImage2 := c.GradientImageFilter movingImage,
      Interp := c.ScalarInterpolator movingImage,
      vnl := c.vnl }
  (rotatedPatchAsVector, painted.Mask)

/-- `ReorientSamplePatches`: every row of the sample matrix is replaced by its
reoriented patch. `none` when there is no canonical frame to iterate over. -/
def ReorientSamplePatches (c : Collaborators) (f : Filter) : Option Filter :=
  match f.m_CanonicalFrame with
  | none => none
  | some frame =>
    let fin := (List.range f.m_vectorizedSamplePatchMatrix.rows).foldl
      (fun (st : Mat × Image) ii =>
        let r := reorientOne c f frame st.2 (st.1.get_row ii)
        (st.1.set_row ii r.1, r.2))
      (f.m_vectorizedSamplePatchMatrix, GenerateMaskImageFromPatch f)
    some { f with m_vectorizedSamplePatchMatrix := fin.1 }

/-- `ReorientAllPatches`: every column of the all-patches matrix is replaced by
its reoriented patch. `none` when there is no canonical frame to iterate
over. -/
def ReorientAllPatches (c : Collaborators) (f : Filter) : Option Filter :=
  match f.m_CanonicalFrame with
  | none => none
  | some frame =>
    let fin := (List.range f.m_PatchesForAllPointsWithinMask.cols).foldl
      (fun (st : Mat × Image) ii =>
        let r := reorientOne c f frame st.2 (st.1.get_column ii)
        (st.1.set_column ii r.1, r.2))
      (f.m_PatchesForAllPointsWithinMask, GenerateMaskImageFromPatch f)
    some { f with m_PatchesForAllPointsWithinMask := fin.1 }

/-! ## The pipeline on the filter state -/

/-- The member functions called by `GenerateData` as transformers of the filter
state, for given inputs and collaborators; seed sampling is allowed `fuel`
attempts. `SetNthOutput` publishes the canonical frame and leaves the state as
it is. -/
def filterStages (c : Collaborators) (inp : Inputs) (fuel : Nat) : Stages Filter :=
  { GetSamplePatchLocations := fun f =>
      (GetSamplePatchLocations f inp c.rand fuel).map Prod.fst,
    ExtractSamplePatches := fun f => some (ExtractSamplePatches inp f),
    LearnEigenPatches := fun f => some (LearnEigenPatches c.vnl_svd f),
    SetCanonicalFrame := fun k f =>
      some { f with m_CanonicalFrame := some (c.GetCanonicalFrameK f k) },
    ExtractAllPatches := fun f => some (ExtractAllPatches inp f),
    ReorientSamplePatches := ReorientSamplePatches c,
    ReorientAllPatches := ReorientAllPatches c,
    ProjectOnEigenPatches := fun f => some (ProjectOnEigenPatches c.solve f),
    SetNthOutput := fun f => some f }

/-- The part of `GenerateData` that precedes the call of
`ProjectOnEigenPatches`: its result is the state that call starts from. -/
def beforeProjection {σ : Type} (S : Stages σ) (meanCenter learn rotInv : Bool) (s : σ) :
    Option σ :=
  let canonicalEvecIndex : Nat := if meanCenter then 0 else 1
  (S.GetSamplePatchLocations s).bind fun s1 =>
  (S.ExtractSamplePatches s1).bind fun s2 =>
  (learnAndFrame S learn canonicalEvecIndex s2).bind fun s3 =>
  (S.ExtractAllPatches s3).bind fun s4 =>
  if rotInv then
    (S.ReorientSamplePatches s4).bind fun s5 =>
    (S.ReorientAllPatches s5).bind fun s6 =>
    learnAndFrame S learn canonicalEvecIndex s6
  else some s4

/-- `GenerateData` run on a filter state, with the flags read from it. -/
def runGenerateData (c : Collaborators) (inp : Inputs) (fuel : Nat) (f : Filter) : Option Filter :=
  GenerateData (filterStages c inp fuel) f.m_MeanCenterPatches f.m_LearnPatchBasis
    f.m_RotationInvariant f

/-- The filter with its target-variance parameter set to the component
count `n`. -/
def withComponentCount (f : Filter) (n : Nat) : Filter :=
  { f with m_TargetVarianceExplained := (n : ℚ) }

/-- A matrix of order `n` as a `Matrix`, for determinants and products. -/
def Mat.toMatrix (n : Nat) (M : Mat) : Matrix (Fin n) (Fin n) ℚ :=
  Matrix.of (fun i j => M.get i.val j.val)

/-- A filter in two dimensions with patch radius 1 after its sphere offsets have
been computed: the five neighborhood elements 1, 3, 4, 5, 7 (offsets `(0, -1)`,
`(-1, 0)`, `(0, 0)`, `(1, 0)`, `(0, 1)`), each of weight 1. -/
def filterDisc : Filter :=
  { Filter.new 2 with
    m_PatchRadius := 1,
    m_IndicesWithinSphere := [1, 3, 4, 5, 7],
    m_weights := [1, 1, 1, 1, 1] }

/-- Collaborators for a run on the constant two-voxel image: every draw is 0,
the solver is that of the basis `(1)`; the remaining collaborators are not
reached when no basis is learned and no patch is reoriented. -/
def unitCollaborators : Collaborators :=
  { rand := fun _ => 0,
    vnl_svd := fun _ => svdRankOne,
    solve := solveUnit,
    vnl := flatDecompositions,
    GradientImageFilter := fun _ => flatGradient,
    ScalarInterpolator := fun _ => { IsInsideBuffer := fun _ => true, Evaluate := fun _ => 0 },
    GetCanonicalFrameK := fun _ _ => zeroImage 1 }

/-- A filter with a caller-supplied basis `(1)`: one dimension, radius 0, one
sample patch, no basis learning, no rotation invariance, no mean centering. -/
def filterSuppliedBasis : Filter :=
  { Filter.new 1 with
    m_RotationInvariant := false,
    m_MeanCenterPatches := false,
    m_LearnPatchBasis := false,
    m_PatchRadius := 0,
    m_NumberOfSamplePatches := 1,
    m_SignificantPatchEigenvectors := Mat.identity 1 }

/-- The filter with a supplied basis, rotation invariance on and a supplied
canonical frame. -/
def filterSuppliedBasisInvariant : Filter :=
  { filterSuppliedBasis with
    m_RotationInvariant := true,
    m_CanonicalFrame := some (zeroImage 1) }

/-- The image index of neighborhood element `n` of the iterator located at the
center of the synthetic patch image. -/
def sphereVoxel (f : Filter) (n : Nat) : List Int :=
  GetIndex f.m_PatchRadius f.ImageDimension (beginningOfSphereRegion f) n

/-- The position of an index of a cube of side `S` in its raster scan:
dimension 0 counts units, dimension 1 counts `S`, and so on. -/
def rasterKey (S : Nat) : List Int → Int
  | [] => 0
  | x :: tl => x + (S : Int) * rasterKey S tl

/-! # Theorems -/

/-! ## Sphere offsets -/

theorem foldl_sq_eq (f : Nat → Int) (l : List Nat) (a : Int) :
    l.foldl (fun acc jj => acc + f jj * f jj) a = a + (l.map (fun jj => f jj * f jj)).sum := by
  induction l generalizing a with
  | nil => simp
  | cons x l ih => simp [ih, add_assoc]

theorem getD_patchCenterFill (r d jj : Nat) (h : jj < d) :
    (patchCenterFill r d).getD jj 0 = (r : Int) := by
  simp [patchCenterFill, List.getD_eq_getElem?_getD, List.getElem?_replicate, h]

theorem getD_GetIndex (r d ii jj : Nat) (loc : List Int) (h : jj < d) :
    (GetIndex r d loc ii).getD jj 0 = loc.getD jj 0 + offsetComponent r ii jj := by
  simp [GetIndex, List.getD_eq_getElem?_getD, List.getElem?_map, List.getElem?_range h]

theorem squaredDistance_eq (r d ii : Nat) :
    squaredDistanceFromPatchCenter d (GetIndex r d (patchCenterFill r d) ii)
      (patchCenterFill r d) = sumSquares (GetOffset r d ii) := by
  unfold squaredDistanceFromPatchCenter
  rw [foldl_sq_eq (fun jj => (GetIndex r d (patchCenterFill r d) ii).getD jj 0
    - (patchCenterFill r d).getD jj 0)]
  simp only [zero_add, sumSquares, GetOffset, List.map_map]
  congr 1
  apply List.map_congr_left
  intro jj hjj
  have hlt : jj < d := List.mem_range.mp hjj
  simp only [Function.comp]
  rw [getD_GetIndex r d ii jj _ hlt, getD_patchCenterFill r d jj hlt]
  ring_nf

theorem foldl_sphereStep (r d : Nat) (l : List Nat) (st : List Nat × List ℚ) :
    l.foldl (sphereStep r d) st =
      (st.1 ++ l.filter (fun ii => withinSphere r (sumSquares (GetOffset r d ii))),
       st.2 ++ List.replicate
         (l.filter (fun ii => withinSphere r (sumSquares (GetOffset r d ii)))).length 1) := by
  induction l generalizing st with
  | nil => simp
  | cons x l ih =>
    rw [List.foldl_cons, ih]
    unfold sphereStep
    rw [squaredDistance_eq]
    by_cases hx : withinSphere r (sumSquares (GetOffset r d x)) = true
    · simp [hx, List.filter_cons, List.replicate_succ]
    · simp [hx, List.filter_cons]

theorem offsetComponent_succ (r ii jj : Nat) :
    offsetComponent r ii (jj + 1) = offsetComponent r (ii / (2 * r + 1)) jj := by
  unfold offsetComponent
  rw [pow_succ, mul_comm, Nat.div_div_eq_div_mul]

theorem GetOffset_succ (r d ii : Nat) :
    GetOffset r (d + 1) ii = offsetComponent r ii 0 :: GetOffset r d (ii / (2 * r + 1)) := by
  unfold GetOffset
  rw [List.range_succ_eq_map, List.map_cons, List.map_map]
  congr 1
  apply List.map_congr_left
  intro jj _
  exact offsetComponent_succ r ii jj

theorem length_GetOffset (r d ii : Nat) : (GetOffset r d ii).length = d := by
  simp [GetOffset]

theorem offsetComponent_zero (r ii : Nat) :
    offsetComponent r ii 0 = ((ii % (2 * r + 1) : Nat) : Int) - (r : Int) := by
  simp [offsetComponent]

theorem linearIndexOfOffset_GetOffset (r d ii : Nat) (h : ii < (2 * r + 1) ^ d) :
    linearIndexOfOffset r (GetOffset r d ii) = ii := by
  induction d generalizing ii with
  | zero =>
    have h0 : ii = 0 := by simpa using h
    simp [GetOffset, linearIndexOfOffset, h0]
  | succ d ih =>
    rw [GetOffset_succ, linearIndexOfOffset, offsetComponent_zero]
    have h2 : ii / (2 * r + 1) < (2 * r + 1) ^ d := by
      apply Nat.div_lt_of_lt_mul
      rw [pow_succ] at h
      rwa [mul_comm]
    rw [ih _ h2]
    simp only [sub_add_cancel, Int.toNat_ofNat]
    exact Nat.mod_add_div ii (2 * r + 1)

theorem GetOffset_linearIndexOfOffset (r : Nat) (v : List Int) (hv : inCube r v) :
    GetOffset r v.length (linearIndexOfOffset r v) = v ∧
      linearIndexOfOffset r v < (2 * r + 1) ^ v.length := by
  induction v with
  | nil => simp [GetOffset, linearIndexOfOffset]
  | cons x v ih =>
    have hx := hv x (List.mem_cons_self x v)
    have hv2 : inCube r v := fun y hy => hv y (List.mem_cons_of_mem x hy)
    obtain ⟨ih1, ih2⟩ := ih hv2
    have hnn : 0 ≤ x + (r : Int) := by omega
    have hlt : (x + (r : Int)).toNat < 2 * r + 1 := by omega
    have hdiv : ((x + (r : Int)).toNat + (2 * r + 1) * linearIndexOfOffset r v) / (2 * r + 1)
        = linearIndexOfOffset r v := by
      rw [Nat.add_mul_div_left _ _ (by omega : 0 < 2 * r + 1), Nat.div_eq_of_lt hlt, zero_add]
    have hmod : ((x + (r : Int)).toNat + (2 * r + 1) * linearIndexOfOffset r v) % (2 * r + 1)
        = (x + (r : Int)).toNat := by
      rw [Nat.add_mul_mod_self_left, Nat.mod_eq_of_lt hlt]
    constructor
    · rw [List.length_cons, GetOffset_succ, linearIndexOfOffset, hdiv, ih1, offsetComponent_zero,
        hmod, Int.toNat_of_nonneg hnn]
      simp
    · rw [List.length_cons, linearIndexOfOffset, pow_succ]
      calc (x + (r : Int)).toNat + (2 * r + 1) * linearIndexOfOffset r v
          < (2 * r + 1) + (2 * r + 1) * linearIndexOfOffset r v := by omega
        _ = (2 * r + 1) * (linearIndexOfOffset r v + 1) := by ring
        _ ≤ (2 * r + 1) * (2 * r + 1) ^ v.length := Nat.mul_le_mul_left _ ih2
        _ = (2 * r + 1) ^ v.length * (2 * r + 1) := by ring

theorem sumSquares_nonneg (v : List Int) : 0 ≤ sumSquares v := by
  induction v with
  | nil => simp [sumSquares]
  | cons x v ih =>
    have : sumSquares (x :: v) = x * x + sumSquares v := by simp [sumSquares]
    rw [this]
    nlinarith [mul_self_nonneg x]

theorem inCube_of_sumSquares_le (r : Nat) (v : List Int)
    (h : sumSquares v ≤ (r : Int) * (r : Int)) : inCube r v := by
  induction v with
  | nil => intro x hx; simp at hx
  | cons y v ih =>
    have hs : sumSquares (y :: v) = y * y + sumSquares v := by simp [sumSquares]
    rw [hs] at h
    have h0 := sumSquares_nonneg v
    intro x hx
    rcases List.mem_cons.mp hx with rfl | hx
    · have hr : (0 : Int) ≤ r := Int.ofNat_nonneg r
      constructor
      · by_contra hc
        push_neg at hc
        nlinarith
      · by_contra hc
        push_neg at hc
        nlinarith
    · exact ih (by nlinarith [mul_self_nonneg y]) x hx

theorem sumSquares_replicate_zero (d : Nat) : sumSquares (List.replicate d 0) = 0 := by
  induction d with
  | zero => simp [sumSquares]
  | succ d ih => simp [sumSquares, List.replicate_succ]

theorem two_mul_linearIndex_zero (r d : Nat) :
    2 * linearIndexOfOffset r (List.replicate d 0) + 1 = (2 * r + 1) ^ d := by
  induction d with
  | zero => simp [linearIndexOfOffset]
  | succ d ih =>
    rw [List.replicate_succ, linearIndexOfOffset, pow_succ, ← ih]
    simp only [zero_add, Int.toNat_ofNat]
    ring

theorem centerNeighborhoodIndex_eq (r d : Nat) :
    centerNeighborhoodIndex r d = linearIndexOfOffset r (List.replicate d 0) := by
  unfold centerNeighborhoodIndex neighborhoodSize
  rw [← two_mul_linearIndex_zero]
  omega

theorem mem_sphereIndexLoop (r d ii : Nat) :
    ii ∈ (sphereIndexLoop r d ([], [])).1 ↔
      ii < neighborhoodSize r d ∧ sumSquares (GetOffset r d ii) ≤ (r : Int) * (r : Int) := by
  unfold sphereIndexLoop
  rw [foldl_sphereStep]
  simp [withinSphere, List.mem_filter]

theorem sqrt_le_radius_iff (r : Nat) (s : Int) :
    Real.sqrt (s : ℝ) ≤ (r : ℝ) ↔ s ≤ (r : Int) * (r : Int) := by
  rw [Real.sqrt_le_iff]
  constructor
  · rintro ⟨_, h⟩
    have : ((s : Int) : ℝ) ≤ (((r : Int) * (r : Int) : Int) : ℝ) := by
      push_cast
      nlinarith
    exact_mod_cast this
  · intro h
    refine ⟨Nat.cast_nonneg r, ?_⟩
    have : ((s : Int) : ℝ) ≤ (((r : Int) * (r : Int) : Int) : ℝ) := by exact_mod_cast h
    push_cast at this
    nlinarith

/-- C1. Run from empty lists, the sphere-index loop of `ExtractSamplePatches`
stores exactly the neighborhood positions whose offset from the center has
Euclidean norm at most the radius (sum of squared components at most the squared
radius), in strictly increasing linear-index order, each once; every integer
offset vector within the sphere is the offset of exactly one stored position;
the weight list has the same length with every weight 1; and the center, whose
offset is the zero vector, is stored, so the list is not empty. -/
theorem C1_sphere_index_loop (r d : Nat) :
    (∀ ii, ii ∈ (sphereIndexLoop r d ([], [])).1 ↔
        ii < neighborhoodSize r d ∧ sumSquares (GetOffset r d ii) ≤ (r : Int) * (r : Int)) ∧
    (∀ ii, ii ∈ (sphereIndexLoop r d ([], [])).1 ↔
        ii < neighborhoodSize r d ∧
          Real.sqrt ((sumSquares (GetOffset r d ii) : Int) : ℝ) ≤ (r : ℝ)) ∧
    List.Sorted (fun a b => a < b) (sphereIndexLoop r d ([], [])).1 ∧
    (sphereIndexLoop r d ([], [])).1.Nodup ∧
    (∀ v : List Int, v.length = d → sumSquares v ≤ (r : Int) * (r : Int) →
        ∃! ii, ii ∈ (sphereIndexLoop r d ([], [])).1 ∧ GetOffset r d ii = v) ∧
    (sphereIndexLoop r d ([], [])).2 =
        List.replicate (sphereIndexLoop r d ([], [])).1.length 1 ∧
    (centerNeighborhoodIndex r d ∈ (sphereIndexLoop r d ([], [])).1 ∧
      GetOffset r d (centerNeighborhoodIndex r d) = List.replicate d 0) ∧
    (sphereIndexLoop r d ([], [])).1 ≠ [] := by
  have hmem := mem_sphereIndexLoop r d
  have huniq : ∀ v : List Int, v.length = d → sumSquares v ≤ (r : Int) * (r : Int) →
      ∃! ii, ii ∈ (sphereIndexLoop r d ([], [])).1 ∧ GetOffset r d ii = v := by
    intro v hlen hsq
    have hc := inCube_of_sumSquares_le r v hsq
    obtain ⟨h1, h2⟩ := GetOffset_linearIndexOfOffset r v hc
    rw [hlen] at h1 h2
    refine ⟨linearIndexOfOffset r v, ⟨?_, h1⟩, ?_⟩
    · rw [hmem, h1]
      exact ⟨h2, hsq⟩
    · rintro ii ⟨hii, hoff⟩
      rw [← hoff]
      exact (linearIndexOfOffset_GetOffset r d ii ((hmem ii).mp hii).1).symm
  have hcenter := huniq (List.replicate d 0) (by simp)
    (by rw [sumSquares_replicate_zero]; exact mul_self_nonneg _)
  have hc0 : centerNeighborhoodIndex r d ∈ (sphereIndexLoop r d ([], [])).1 ∧
      GetOffset r d (centerNeighborhoodIndex r d) = List.replicate d 0 := by
    obtain ⟨ii, ⟨hii, hoff⟩, _⟩ := hcenter
    have := linearIndexOfOffset_GetOffset r d ii ((hmem ii).mp hii).1
    rw [hoff] at this
    rw [centerNeighborhoodIndex_eq, this]
    exact ⟨hii, hoff⟩
  refine ⟨hmem, ?_, ?_, ?_, huniq, ?_, hc0, ?_⟩
  · intro ii
    rw [hmem, sqrt_le_radius_iff r _]
  · unfold sphereIndexLoop
    rw [foldl_sphereStep]
    simpa using (List.sorted_lt_range (neighborhoodSize r d)).filter _
  · unfold sphereIndexLoop
    rw [foldl_sphereStep]
    simpa using (List.nodup_range (neighborhoodSize r d)).filter _
  · unfold sphereIndexLoop
    rw [foldl_sphereStep]
    simp
  · intro he
    rw [he] at hc0
    exact absurd hc0.1 (List.not_mem_nil _)

/-! ## LearnEigenPatches -/

theorem foldl_add_range (W : Nat → ℚ) (n : Nat) (a : ℚ) :
    (List.range n).foldl (fun acc i => acc + W i) a = a + ∑ i in Finset.range n, W i := by
  induction n with
  | zero => simp
  | succ n ih =>
    rw [List.range_succ, List.foldl_append, ih, Finset.sum_range_succ]
    simp [add_assoc]

theorem sumOfEigenvalues_eq (svd : SVD) :
    sumOfEigenvalues svd = ∑ i in Finset.range svd.rank, svd.W i := by
  unfold sumOfEigenvalues
  rw [foldl_add_range, zero_add]

/-- What the fraction loop leaves behind, started in a state whose partial sum
is the sum of the first `st.i` singular values, with enough passes allowed. -/
theorem fractionLoop_spec (svd : SVD) (total target : ℚ) (n : Nat) (st : VarianceLoop)
    (hfuel : svd.rank ≤ st.i + n)
    (hp : st.partialSumOfEigenvalues = ∑ i in Finset.range st.i, svd.W i) :
    (fractionLoop svd total target n st).partialSumOfEigenvalues
        = ∑ i in Finset.range (fractionLoop svd total target n st).i, svd.W i ∧
    st.i ≤ (fractionLoop svd total target n st).i ∧
    ((fractionLoop svd total target n st).i ≤ svd.rank ∨
      (fractionLoop svd total target n st).i = st.i) ∧
    ¬ ((fractionLoop svd total target n st).percentVarianceExplained ≤ target ∧
        (fractionLoop svd total target n st).i < svd.rank) ∧
    ((fractionLoop svd total target n st).i = st.i →
        fractionLoop svd total target n st = st) ∧
    (st.i < (fractionLoop svd total target n st).i →
        st.percentVarianceExplained ≤ target ∧
        (fractionLoop svd total target n st).percentVarianceExplained
          = (∑ i in Finset.range (fractionLoop svd total target n st).i, svd.W i) / total ∧
        ∀ j, st.i < j → j < (fractionLoop svd total target n st).i →
          (∑ i in Finset.range j, svd.W i) / total ≤ target) := by
  induction n generalizing st with
  | zero =>
    have h0 : fractionLoop svd total target 0 st = st := rfl
    rw [h0]
    refine ⟨hp, le_refl _, Or.inr rfl, ?_, fun _ => rfl, fun h => absurd h (lt_irrefl _)⟩
    rintro ⟨_, h⟩
    omega
  | succ n ih =>
    by_cases hc : st.percentVarianceExplained ≤ target ∧ st.i < svd.rank
    · have hstep : fractionLoop svd total target (n + 1) st
          = fractionLoop svd total target n (VarianceLoop.step svd total st) := by
        simp only [fractionLoop, if_pos hc]
      rw [hstep]
      have hi : (VarianceLoop.step svd total st).i = st.i + 1 := rfl
      have hpv : (VarianceLoop.step svd total st).percentVarianceExplained
          = (∑ i in Finset.range (st.i + 1), svd.W i) / total := by
        simp only [VarianceLoop.step, Finset.sum_range_succ, hp]
      have hps : (VarianceLoop.step svd total st).partialSumOfEigenvalues
          = ∑ i in Finset.range (VarianceLoop.step svd total st).i, svd.W i := by
        simp only [VarianceLoop.step, Finset.sum_range_succ, hp]
      obtain ⟨h1, h2, h3, h4, h5, h6⟩ :=
        ih (VarianceLoop.step svd total st) (by rw [hi]; omega) hps
      rw [hi] at h2 h3 h5 h6
      refine ⟨h1, by omega, ?_, h4, fun h => by omega, fun _ => ⟨hc.1, ?_, ?_⟩⟩
      · rcases h3 with h3 | h3
        · exact Or.inl h3
        · left
          rw [h3]
          omega
      · rcases Nat.lt_or_ge (st.i + 1)
          (fractionLoop svd total target n (VarianceLoop.step svd total st)).i with hlt | hge
        · exact (h6 hlt).2.1
        · have he : (fractionLoop svd total target n (VarianceLoop.step svd total st)).i
              = st.i + 1 := by omega
          rw [h5 he, hpv, hi]
      · intro j hj1 hj2
        rcases Nat.lt_or_ge (st.i + 1) j with hlt | hge
        · exact (h6 (by omega)).2.2 j hlt hj2
        · have he : j = st.i + 1 := by omega
          have h7 := (h6 (by omega)).1
          rw [hpv] at h7
          rw [he]
          exact h7
    · have hstop : fractionLoop svd total target (n + 1) st = st := by
        simp only [fractionLoop, if_neg hc]
      rw [hstop]
      exact ⟨hp, le_refl _, Or.inr rfl, hc, fun _ => rfl, fun h => absurd h (lt_irrefl _)⟩

/-- What the count loop leaves behind: it stops at `min count rank` with the
partial sum of that many singular values. -/
theorem countLoop_spec (svd : SVD) (total : ℚ) (count n : Nat) (st : VarianceLoop)
    (hfuel : svd.rank ≤ st.i + n)
    (hp : st.partialSumOfEigenvalues = ∑ i in Finset.range st.i, svd.W i)
    (hle : st.i ≤ min count svd.rank) :
    (countLoop svd total count n st).i = min count svd.rank ∧
    (countLoop svd total count n st).partialSumOfEigenvalues
        = ∑ i in Finset.range (min count svd.rank), svd.W i ∧
    (st.i < min count svd.rank →
      (countLoop svd total count n st).percentVarianceExplained
        = (∑ i in Finset.range (min count svd.rank), svd.W i) / total) ∧
    (st.i = min count svd.rank → countLoop svd total count n st = st) := by
  induction n generalizing st with
  | zero =>
    have h0 : countLoop svd total count 0 st = st := rfl
    rw [h0]
    have : st.i = min count svd.rank := by omega
    refine ⟨this, by rw [hp, this], fun h => by omega, fun _ => rfl⟩
  | succ n ih =>
    by_cases hc : st.i < count ∧ st.i < svd.rank
    · have hstep : countLoop svd total count (n + 1) st
          = countLoop svd total count n (VarianceLoop.step svd total st) := by
        simp only [countLoop, if_pos hc]
      rw [hstep]
      have hi : (VarianceLoop.step svd total st).i = st.i + 1 := rfl
      have hpv : (VarianceLoop.step svd total st).percentVarianceExplained
          = (∑ i in Finset.range (st.i + 1), svd.W i) / total := by
        simp only [VarianceLoop.step, Finset.sum_range_succ, hp]
      have hps : (VarianceLoop.step svd total st).partialSumOfEigenvalues
          = ∑ i in Finset.range (VarianceLoop.step svd total st).i, svd.W i := by
        simp only [VarianceLoop.step, Finset.sum_range_succ, hp]
      obtain ⟨h1, h2, h3, h4⟩ :=
        ih (VarianceLoop.step svd total st) (by rw [hi]; omega) hps (by rw [hi]; omega)
      rw [hi] at h3 h4
      refine ⟨h1, h2, fun _ => ?_, fun h => by omega⟩
      rcases Nat.lt_or_ge (st.i + 1) (min count svd.rank) with hlt | hge
      · exact h3 hlt
      · have he : st.i + 1 = min count svd.rank := by omega
        rw [h4 he, hpv, he]
    · have hstop : countLoop svd total count (n + 1) st = st := by
        simp only [countLoop, if_neg hc]
      rw [hstop]
      have : st.i = min count svd.rank := by omega
      refine ⟨this, by rw [hp, this], fun h => by omega, fun _ => rfl⟩

theorem cumulativeFraction_rank (svd : SVD) (hrank : 1 ≤ svd.rank)
    (hpos : ∀ i, i < svd.rank → 0 < svd.W i) : cumulativeFraction svd svd.rank = 1 := by
  unfold cumulativeFraction
  apply div_self
  apply ne_of_gt
  apply Finset.sum_pos
  · intro i hi
    exact hpos i (Finset.mem_range.mp hi)
  · exact ⟨0, Finset.mem_range.mpr hrank⟩

theorem get_column_get_n_columns (V : Mat) (k i : Nat) :
    (V.get_n_columns 0 k).get_column i = V.get_column i := by
  simp [Mat.get_n_columns, Mat.get_column]

theorem orthonormal_get_n_columns (V : Mat) (k : Nat) (hk : k ≤ V.cols)
    (hV : OrthonormalColumns V) : OrthonormalColumns (V.get_n_columns 0 k) := by
  intro i j hi hj
  rw [get_column_get_n_columns, get_column_get_n_columns]
  have hi2 : i < k := hi
  have hj2 : j < k := hj
  exact hV i j (by omega) (by omega)

theorem LearnEigenPatches_fraction (vnl_svd : Mat → SVD) (f : Filter)
    (ht1 : f.m_TargetVarianceExplained < 1) :
    LearnEigenPatches vnl_svd f =
      { f with
        m_AchievedVarianceExplained :=
          (fractionLoop (vnl_svd f.m_vectorizedSamplePatchMatrix)
            (sumOfEigenvalues (vnl_svd f.m_vectorizedSamplePatchMatrix))
            f.m_TargetVarianceExplained (vnl_svd f.m_vectorizedSamplePatchMatrix).rank
            { partialSumOfEigenvalues := 0, percentVarianceExplained := 0, i := 0 }
            ).percentVarianceExplained,
        m_SignificantPatchEigenvectors :=
          (vnl_svd f.m_vectorizedSamplePatchMatrix).V.get_n_columns 0
            (fractionLoop (vnl_svd f.m_vectorizedSamplePatchMatrix)
              (sumOfEigenvalues (vnl_svd f.m_vectorizedSamplePatchMatrix))
              f.m_TargetVarianceExplained (vnl_svd f.m_vectorizedSamplePatchMatrix).rank
              { partialSumOfEigenvalues := 0, percentVarianceExplained := 0, i := 0 }).i } := by
  simp only [LearnEigenPatches, if_pos ht1]

theorem LearnEigenPatches_count (vnl_svd : Mat → SVD) (f : Filter)
    (ht1 : ¬ f.m_TargetVarianceExplained < 1) :
    LearnEigenPatches vnl_svd f =
      { f with
        m_AchievedVarianceExplained :=
          (countLoop (vnl_svd f.m_vectorizedSamplePatchMatrix)
            (sumOfEigenvalues (vnl_svd f.m_vectorizedSamplePatchMatrix))
            (castUnsignedInt f.m_TargetVarianceExplained)
            (vnl_svd f.m_vectorizedSamplePatchMatrix).rank
            { partialSumOfEigenvalues := 0, percentVarianceExplained := 0, i := 0 }
            ).percentVarianceExplained,
        m_SignificantPatchEigenvectors :=
          (vnl_svd f.m_vectorizedSamplePatchMatrix).V.get_n_columns 0
            (castUnsignedInt f.m_TargetVarianceExplained) } := by
  simp only [LearnEigenPatches, if_neg ht1]

/-- C2. With a target fraction `0 <= t < 1` and a sample matrix whose `R >= 1`
singular values are positive, `LearnEigenPatches` retains `k` components, where
`1 <= k <= R`, the cumulative fraction of the first `k` singular values exceeds
`t` and that of every smaller count `1 <= j < k` does not; the retained basis is
the first `k` columns of `V`, and the achieved variance is the cumulative
fraction for `k`. -/
theorem C2_fraction_branch (vnl_svd : Mat → SVD) (f : Filter)
    (hrank : 1 ≤ (vnl_svd f.m_vectorizedSamplePatchMatrix).rank)
    (hpos : ∀ i, i < (vnl_svd f.m_vectorizedSamplePatchMatrix).rank →
      0 < (vnl_svd f.m_vectorizedSamplePatchMatrix).W i)
    (ht0 : 0 ≤ f.m_TargetVarianceExplained) (ht1 : f.m_TargetVarianceExplained < 1) :
    1 ≤ (LearnEigenPatches vnl_svd f).m_SignificantPatchEigenvectors.cols ∧
    (LearnEigenPatches vnl_svd f).m_SignificantPatchEigenvectors.cols
      ≤ (vnl_svd f.m_vectorizedSamplePatchMatrix).rank ∧
    f.m_TargetVarianceExplained <
      cumulativeFraction (vnl_svd f.m_vectorizedSamplePatchMatrix)
        (LearnEigenPatches vnl_svd f).m_SignificantPatchEigenvectors.cols ∧
    (∀ j, 1 ≤ j → j < (LearnEigenPatches vnl_svd f).m_SignificantPatchEigenvectors.cols →
      cumulativeFraction (vnl_svd f.m_vectorizedSamplePatchMatrix) j
        ≤ f.m_TargetVarianceExplained) ∧
    (LearnEigenPatches vnl_svd f).m_SignificantPatchEigenvectors.rows
      = (vnl_svd f.m_vectorizedSamplePatchMatrix).V.rows ∧
    (∀ r c, (LearnEigenPatches vnl_svd f).m_SignificantPatchEigenvectors.get r c
      = (vnl_svd f.m_vectorizedSamplePatchMatrix).V.get r c) ∧
    (LearnEigenPatches vnl_svd f).m_AchievedVarianceExplained
      = cumulativeFraction (vnl_svd f.m_vectorizedSamplePatchMatrix)
          (LearnEigenPatches vnl_svd f).m_SignificantPatchEigenvectors.cols := by
  rw [LearnEigenPatches_fraction vnl_svd f ht1]
  obtain ⟨_, _, h3, h4, h5, h6⟩ :=
    fractionLoop_spec (vnl_svd f.m_vectorizedSamplePatchMatrix)
      (sumOfEigenvalues (vnl_svd f.m_vectorizedSamplePatchMatrix))
      f.m_TargetVarianceExplained (vnl_svd f.m_vectorizedSamplePatchMatrix).rank
      { partialSumOfEigenvalues := 0, percentVarianceExplained := 0, i := 0 }
      (by simp) (by simp)
  simp only [Mat.get_n_columns, zero_add]
  generalize hfin : fractionLoop (vnl_svd f.m_vectorizedSamplePatchMatrix)
      (sumOfEigenvalues (vnl_svd f.m_vectorizedSamplePatchMatrix))
      f.m_TargetVarianceExplained (vnl_svd f.m_vectorizedSamplePatchMatrix).rank
      { partialSumOfEigenvalues := 0, percentVarianceExplained := 0, i := 0 } = fin at *
  have hk : 0 < fin.i := by
    rcases Nat.eq_zero_or_pos fin.i with h0 | h0
    · exfalso
      have := h5 h0
      rw [this] at h4
      exact h4 ⟨ht0, hrank⟩
    · exact h0
  obtain ⟨_, h7, h8⟩ := h6 hk
  have hle : fin.i ≤ (vnl_svd f.m_vectorizedSamplePatchMatrix).rank := by
    rcases h3 with h3 | h3
    · exact h3
    · have : fin.i = 0 := h3
      omega
  have hcf : ∀ j, cumulativeFraction (vnl_svd f.m_vectorizedSamplePatchMatrix) j
      = (∑ i in Finset.range j, (vnl_svd f.m_vectorizedSamplePatchMatrix).W i)
          / sumOfEigenvalues (vnl_svd f.m_vectorizedSamplePatchMatrix) := by
    intro j
    rw [sumOfEigenvalues_eq, cumulativeFraction]
  refine ⟨hk, hle, ?_, fun j hj1 hj2 => ?_, trivial, fun _ _ => trivial, ?_⟩
  · rcases Nat.lt_or_ge fin.i (vnl_svd f.m_vectorizedSamplePatchMatrix).rank with hlt | hge
    · rw [hcf, ← h7]
      by_contra hc
      exact h4 ⟨not_lt.mp hc, hlt⟩
    · have : fin.i = (vnl_svd f.m_vectorizedSamplePatchMatrix).rank := by omega
      rw [this, cumulativeFraction_rank _ hrank hpos]
      exact ht1
  · rw [hcf]
    exact h8 j (show 0 < j by omega) hj2
  · rw [hcf, h7]

theorem LearnEigenPatches_threeOne_cols :
    (LearnEigenPatches (fun _ => svdThreeOne)
      filterThreeOne).m_SignificantPatchEigenvectors.cols = 1 := by
  norm_num [LearnEigenPatches, filterThreeOne, Filter.new, fractionLoop, VarianceLoop.step,
    sumOfEigenvalues, svdThreeOne, List.range_succ, Mat.get_n_columns]

/-- Witness for C2: singular values 3 and 1 with target 1/2 retain one
component, with achieved variance 3/4. -/
theorem C2_fraction_branch_witness :
    (LearnEigenPatches (fun _ => svdThreeOne)
      filterThreeOne).m_SignificantPatchEigenvectors.cols = 1 ∧
    (1 / 2 : ℚ) < cumulativeFraction svdThreeOne 1 ∧
    (LearnEigenPatches (fun _ => svdThreeOne) filterThreeOne).m_AchievedVarianceExplained
      = 3 / 4 := by
  have h := C2_fraction_branch (fun _ => svdThreeOne) filterThreeOne (by decide)
    (by
      intro i hi
      have hi2 : i < 2 := hi
      interval_cases i <;> simp [svdThreeOne])
    (by norm_num [filterThreeOne, Filter.new])
    (by norm_num [filterThreeOne, Filter.new])
  rw [LearnEigenPatches_threeOne_cols] at h
  refine ⟨LearnEigenPatches_threeOne_cols, ?_, ?_⟩
  · simpa [filterThreeOne, Filter.new] using h.2.2.1
  · rw [h.2.2.2.2.2.2]
    norm_num [cumulativeFraction, svdThreeOne, Finset.sum_range_succ]

/-- C3 (evaluation). In the count branch the basis is sized by the requested
count itself: with the parameter 2 and a sample matrix of rank 1 (three
columns), `LearnEigenPatches` keeps 2 columns of `V` although
`min 2 rank = 1`; only the achieved variance stops at the rank (here 1, the
fraction held by the single non-zero singular value). -/
theorem C3_count_branch_not_clamped :
    (LearnEigenPatches (fun _ => svdRankOne)
      filterRankOne).m_SignificantPatchEigenvectors.cols = 2 ∧
    min (castUnsignedInt filterRankOne.m_TargetVarianceExplained) svdRankOne.rank = 1 ∧
    (LearnEigenPatches (fun _ => svdRankOne) filterRankOne).m_AchievedVarianceExplained
      = cumulativeFraction svdRankOne 1 ∧
    (LearnEigenPatches (fun _ => svdRankOne)
      filterRankOne).m_SignificantPatchEigenvectors.get_column 1 = [0, 1, 0] := by
  have ht : filterRankOne.m_TargetVarianceExplained = 2 := rfl
  have hc : castUnsignedInt (2 : ℚ) = 2 := by
    unfold castUnsignedInt
    norm_num
  have hn : ¬ filterRankOne.m_TargetVarianceExplained < 1 := by
    rw [ht]
    norm_num
  rw [LearnEigenPatches_count _ _ hn, ht, hc]
  refine ⟨rfl, by decide, ?_, ?_⟩
  · norm_num [countLoop, VarianceLoop.step, sumOfEigenvalues, svdRankOne, cumulativeFraction,
      List.range_succ]
  · simp [Mat.get_n_columns, Mat.get_column, svdRankOne, Mat.identity, List.range_succ]

theorem orthonormal_identity (n : Nat) : OrthonormalColumns (Mat.identity n) := by
  intro i j hi hj
  have hi2 : i < n := hi
  have hj2 : j < n := hj
  simp only [Mat.get_column, Mat.identity, inner_product]
  rw [List.zipWith_map, List.zipWith_same]
  split_ifs with h
  · subst h
    rw [List.sum_map_eq_nsmul_single i]
    · simp only [if_true, mul_one, nsmul_eq_mul]
      rw [List.count_eq_one_of_mem (List.nodup_range n) (List.mem_range.mpr hi2)]
      norm_num
    · intro a ha _
      simp [ha]
  · apply List.sum_eq_zero
    intro x hx
    obtain ⟨a, _, rfl⟩ := List.mem_map.mp hx
    by_cases ha : a = i
    · subst ha
      simp [h]
    · simp [ha]

/-- C9. If the right-singular-vector matrix `V` returned by the decomposition
has orthonormal columns (and, as for every decomposition, its rank does not
exceed its number of columns), and the rank is at least the requested component
count when the target is a count, then the basis retained by `LearnEigenPatches`
is the leading columns of `V` and has pairwise orthonormal columns. Its number
of columns is the requested count in the count branch and the index at which
the accumulation loop stops in the fraction branch (at least 1 for a target
fraction `>= 0` and rank `>= 1`), which does not exceed the number of columns
of `V`; it has the rows of `V`; its entries and its columns are those of `V` at
the same position; and the dot product of its columns `i` and `j` is 1 if
`i = j` and 0 otherwise. -/
theorem C9_basis_orthonormal (vnl_svd : Mat → SVD) (f : Filter)
    (hV : OrthonormalColumns (vnl_svd f.m_vectorizedSamplePatchMatrix).V)
    (hrk : (vnl_svd f.m_vectorizedSamplePatchMatrix).rank
      ≤ (vnl_svd f.m_vectorizedSamplePatchMatrix).V.cols)
    (hcount : ¬ f.m_TargetVarianceExplained < 1 →
      castUnsignedInt f.m_TargetVarianceExplained
        ≤ (vnl_svd f.m_vectorizedSamplePatchMatrix).rank) :
    (LearnEigenPatches vnl_svd f).m_SignificantPatchEigenvectors.cols
      = (if f.m_TargetVarianceExplained < 1 then
          (fractionLoop (vnl_svd f.m_vectorizedSamplePatchMatrix)
            (sumOfEigenvalues (vnl_svd f.m_vectorizedSamplePatchMatrix))
            f.m_TargetVarianceExplained (vnl_svd f.m_vectorizedSamplePatchMatrix).rank
            { partialSumOfEigenvalues := 0, percentVarianceExplained := 0, i := 0 }).i
        else castUnsignedInt f.m_TargetVarianceExplained) ∧
    (f.m_TargetVarianceExplained < 1 → 0 ≤ f.m_TargetVarianceExplained →
      1 ≤ (vnl_svd f.m_vectorizedSamplePatchMatrix).rank →
      1 ≤ (LearnEigenPatches vnl_svd f).m_SignificantPatchEigenvectors.cols) ∧
    (LearnEigenPatches vnl_svd f).m_SignificantPatchEigenvectors.cols
      ≤ (vnl_svd f.m_vectorizedSamplePatchMatrix).V.cols ∧
    (LearnEigenPatches vnl_svd f).m_SignificantPatchEigenvectors.rows
      = (vnl_svd f.m_vectorizedSamplePatchMatrix).V.rows ∧
    (∀ r c, (LearnEigenPatches vnl_svd f).m_SignificantPatchEigenvectors.get r c
      = (vnl_svd f.m_vectorizedSamplePatchMatrix).V.get r c) ∧
    (∀ i, i < (LearnEigenPatches vnl_svd f).m_SignificantPatchEigenvectors.cols →
      (LearnEigenPatches vnl_svd f).m_SignificantPatchEigenvectors.get_column i
        = (vnl_svd f.m_vectorizedSamplePatchMatrix).V.get_column i) ∧
    (∀ i j, i < (LearnEigenPatches vnl_svd f).m_SignificantPatchEigenvectors.cols →
      j < (LearnEigenPatches vnl_svd f).m_SignificantPatchEigenvectors.cols →
      inner_product
          ((LearnEigenPatches vnl_svd f).m_SignificantPatchEigenvectors.get_column i)
          ((LearnEigenPatches vnl_svd f).m_SignificantPatchEigenvectors.get_column j)
        = if i = j then 1 else 0) ∧
    OrthonormalColumns (LearnEigenPatches vnl_svd f).m_SignificantPatchEigenvectors := by
  by_cases ht1 : f.m_TargetVarianceExplained < 1
  · rw [LearnEigenPatches_fraction vnl_svd f ht1, if_pos ht1]
    obtain ⟨_, _, h3, h4, h5, _⟩ :=
      fractionLoop_spec (vnl_svd f.m_vectorizedSamplePatchMatrix)
        (sumOfEigenvalues (vnl_svd f.m_vectorizedSamplePatchMatrix))
        f.m_TargetVarianceExplained (vnl_svd f.m_vectorizedSamplePatchMatrix).rank
        { partialSumOfEigenvalues := 0, percentVarianceExplained := 0, i := 0 }
        (by simp) (by simp)
    have hle : (fractionLoop (vnl_svd f.m_vectorizedSamplePatchMatrix)
        (sumOfEigenvalues (vnl_svd f.m_vectorizedSamplePatchMatrix))
        f.m_TargetVarianceExplained (vnl_svd f.m_vectorizedSamplePatchMatrix).rank
        { partialSumOfEigenvalues := 0, percentVarianceExplained := 0, i := 0 }).i
          ≤ (vnl_svd f.m_vectorizedSamplePatchMatrix).V.cols := by
      rcases h3 with h3 | h3
      · omega
      · rw [h3]
        exact Nat.zero_le _
    have horth := orthonormal_get_n_columns _ _ hle hV
    refine ⟨rfl, fun _ h0 hr => ?_, hle, rfl, fun r c => ?_, fun i _ => ?_, horth, horth⟩
    · rcases Nat.eq_zero_or_pos (fractionLoop (vnl_svd f.m_vectorizedSamplePatchMatrix)
        (sumOfEigenvalues (vnl_svd f.m_vectorizedSamplePatchMatrix))
        f.m_TargetVarianceExplained (vnl_svd f.m_vectorizedSamplePatchMatrix).rank
        { partialSumOfEigenvalues := 0, percentVarianceExplained := 0, i := 0 }).i
        with hz | hpos
      · exfalso
        apply h4
        rw [h5 hz]
        exact ⟨h0, hr⟩
      · exact hpos
    · show (vnl_svd f.m_vectorizedSamplePatchMatrix).V.get r (0 + c) = _
      rw [Nat.zero_add]
    · exact get_column_get_n_columns _ _ _
  · rw [LearnEigenPatches_count vnl_svd f ht1, if_neg ht1]
    have hle : castUnsignedInt f.m_TargetVarianceExplained
        ≤ (vnl_svd f.m_vectorizedSamplePatchMatrix).V.cols := le_trans (hcount ht1) hrk
    have horth := orthonormal_get_n_columns _ _ hle hV
    refine ⟨rfl, fun h => absurd h ht1, hle, rfl, fun r c => ?_, fun i _ => ?_, horth, horth⟩
    · show (vnl_svd f.m_vectorizedSamplePatchMatrix).V.get r (0 + c) = _
      rw [Nat.zero_add]
    · exact get_column_get_n_columns _ _ _

theorem orthonormal_svdTurned : OrthonormalColumns svdTurned.V := by
  intro i j hi hj
  have hi2 : i < 2 := hi
  have hj2 : j < 2 := hj
  interval_cases i <;> interval_cases j <;>
    norm_num [Mat.get_column, Mat.ofRows, svdTurned, inner_product, List.range_succ]

theorem castUnsignedInt_twoComponents :
    castUnsignedInt filterTwoComponents.m_TargetVarianceExplained = 2 := by
  have ht : filterTwoComponents.m_TargetVarianceExplained = 2 := rfl
  rw [ht]
  unfold castUnsignedInt
  norm_num

/-- Witness for C9. Count branch: the parameter 2 on a sample matrix of rank 2
whose `V` has the columns `(3/5, 4/5)` and `(-4/5, 3/5)` retains exactly these
two columns; their dot product is 0 and each has dot product 1 with itself.
Fraction branch: singular values 3 and 1 with target 1/2 and `V` the identity
retain the one column `(1, 0)`, of dot product 1 with itself. -/
theorem C9_basis_orthonormal_witness :
    (OrthonormalColumns svdTurned.V ∧
      svdTurned.rank ≤ svdTurned.V.cols ∧
      ¬ filterTwoComponents.m_TargetVarianceExplained < 1 ∧
      castUnsignedInt filterTwoComponents.m_TargetVarianceExplained ≤ svdTurned.rank ∧
      (LearnEigenPatches (fun _ => svdTurned)
        filterTwoComponents).m_SignificantPatchEigenvectors.cols = 2 ∧
      (LearnEigenPatches (fun _ => svdTurned)
        filterTwoComponents).m_SignificantPatchEigenvectors.get_column 0 = [3 / 5, 4 / 5] ∧
      (LearnEigenPatches (fun _ => svdTurned)
        filterTwoComponents).m_SignificantPatchEigenvectors.get_column 1 = [-4 / 5, 3 / 5] ∧
      inner_product
        ((LearnEigenPatches (fun _ => svdTurned)
          filterTwoComponents).m_SignificantPatchEigenvectors.get_column 0)
        ((LearnEigenPatches (fun _ => svdTurned)
          filterTwoComponents).m_SignificantPatchEigenvectors.get_column 1) = 0 ∧
      inner_product
        ((LearnEigenPatches (fun _ => svdTurned)
          filterTwoComponents).m_SignificantPatchEigenvectors.get_column 0)
        ((LearnEigenPatches (fun _ => svdTurned)
          filterTwoComponents).m_SignificantPatchEigenvectors.get_column 0) = 1 ∧
      inner_product
        ((LearnEigenPatches (fun _ => svdTurned)
          filterTwoComponents).m_SignificantPatchEigenvectors.get_column 1)
        ((LearnEigenPatches (fun _ => svdTurned)
          filterTwoComponents).m_SignificantPatchEigenvectors.get_column 1) = 1) ∧
    (OrthonormalColumns svdThreeOne.V ∧
      filterThreeOne.m_TargetVarianceExplained < 1 ∧
      (LearnEigenPatches (fun _ => svdThreeOne)
        filterThreeOne).m_SignificantPatchEigenvectors.cols = 1 ∧
      (LearnEigenPatches (fun _ => svdThreeOne)
        filterThreeOne).m_SignificantPatchEigenvectors.get_column 0 = [1, 0] ∧
      inner_product
        ((LearnEigenPatches (fun _ => svdThreeOne)
          filterThreeOne).m_SignificantPatchEigenvectors.get_column 0)
        ((LearnEigenPatches (fun _ => svdThreeOne)
          filterThreeOne).m_SignificantPatchEigenvectors.get_column 0) = 1) := by
  have hc := castUnsignedInt_twoComponents
  have ht : ¬ filterTwoComponents.m_TargetVarianceExplained < 1 := by
    norm_num [filterTwoComponents, Filter.new]
  have hr : castUnsignedInt filterTwoComponents.m_TargetVarianceExplained ≤ svdTurned.rank := by
    rw [hc]
    decide
  have h := C9_basis_orthonormal (fun _ => svdTurned) filterTwoComponents
    orthonormal_svdTurned (by decide) (fun _ => hr)
  have hcols : (LearnEigenPatches (fun _ => svdTurned)
      filterTwoComponents).m_SignificantPatchEigenvectors.cols = 2 := by
    rw [h.1, if_neg ht, hc]
  have ht3 : filterThreeOne.m_TargetVarianceExplained < 1 := by
    norm_num [filterThreeOne, Filter.new]
  have g := C9_basis_orthonormal (fun _ => svdThreeOne) filterThreeOne
    (orthonormal_identity 2) (by decide) (fun hn => absurd ht3 hn)
  have gcols := LearnEigenPatches_threeOne_cols
  refine ⟨⟨orthonormal_svdTurned, by decide, ht, hr, hcols, ?_, ?_,
    h.2.2.2.2.2.2.1 0 1 (by rw [hcols]; decide) (by rw [hcols]; decide),
    h.2.2.2.2.2.2.1 0 0 (by rw [hcols]; decide) (by rw [hcols]; decide),
    h.2.2.2.2.2.2.1 1 1 (by rw [hcols]; decide) (by rw [hcols]; decide)⟩,
    orthonormal_identity 2, ht3, gcols, ?_,
    g.2.2.2.2.2.2.1 0 0 (by rw [gcols]; decide) (by rw [gcols]; decide)⟩
  · rw [h.2.2.2.2.2.1 0 (by rw [hcols]; decide)]
    norm_num [Mat.get_column, Mat.ofRows, svdTurned, List.range_succ]
  · rw [h.2.2.2.2.2.1 1 (by rw [hcols]; decide)]
    norm_num [Mat.get_column, Mat.ofRows, svdTurned, List.range_succ]
  · rw [g.2.2.2.2.2.1 0 (by rw [gcols]; decide)]
    simp [Mat.get_column, Mat.identity, svdThreeOne, List.range_succ]

/-- In the count branch (target parameter at least 1, truncated to the count
`n`) the achieved variance reported by `LearnEigenPatches` is the cumulative
singular-value fraction of the `min n R` leading components, `R` the rank. -/
theorem count_branch_achieved_variance (vnl_svd : Mat → SVD) (f : Filter)
    (ht1 : ¬ f.m_TargetVarianceExplained < 1) :
    (LearnEigenPatches vnl_svd f).m_AchievedVarianceExplained
      = cumulativeFraction (vnl_svd f.m_vectorizedSamplePatchMatrix)
          (min (castUnsignedInt f.m_TargetVarianceExplained)
            (vnl_svd f.m_vectorizedSamplePatchMatrix).rank) := by
  rw [LearnEigenPatches_count vnl_svd f ht1]
  obtain ⟨_, _, h3, h4⟩ :=
    countLoop_spec (vnl_svd f.m_vectorizedSamplePatchMatrix)
      (sumOfEigenvalues (vnl_svd f.m_vectorizedSamplePatchMatrix))
      (castUnsignedInt f.m_TargetVarianceExplained)
      (vnl_svd f.m_vectorizedSamplePatchMatrix).rank
      { partialSumOfEigenvalues := 0, percentVarianceExplained := 0, i := 0 }
      (by simp) (by simp) (Nat.zero_le _)
  simp only
  rcases Nat.eq_zero_or_pos (min (castUnsignedInt f.m_TargetVarianceExplained)
      (vnl_svd f.m_vectorizedSamplePatchMatrix).rank) with h0 | hpos
  · rw [h4 h0.symm, h0]
    simp [cumulativeFraction]
  · rw [h3 hpos, cumulativeFraction, sumOfEigenvalues_eq]

/-- Instance of `count_branch_achieved_variance`: the parameter 2 on a sample
matrix of rank 1 reports the fraction held by one component, which is 1. -/
theorem count_branch_achieved_variance_witness :
    ¬ filterRankOne.m_TargetVarianceExplained < 1 ∧
    (LearnEigenPatches (fun _ => svdRankOne) filterRankOne).m_AchievedVarianceExplained = 1 := by
  have ht : ¬ filterRankOne.m_TargetVarianceExplained < 1 := by
    norm_num [filterRankOne, Filter.new]
  refine ⟨ht, ?_⟩
  rw [count_branch_achieved_variance (fun _ => svdRankOne) filterRankOne ht]
  have hc : castUnsignedInt filterRankOne.m_TargetVarianceExplained = 2 := by
    unfold castUnsignedInt
    norm_num [filterRankOne, Filter.new]
  rw [hc]
  norm_num [cumulativeFraction, svdRankOne, Finset.sum_range_succ]

/-! ## GetSamplePatchLocations -/

theorem seedStep_reject (D : Nat) (inp : Inputs) (rand : Nat → Nat) (st : SeedLoop)
    (hmask : ∀ idx, ¬ 1 ≤ inp.mask.pixel idx) :
    seedStep D inp rand st =
      { st with patchSeedAttemptIterator := st.patchSeedAttemptIterator + 1 } := by
  simp only [seedStep, if_neg (hmask _)]

theorem seedLoop_none_of_empty_mask (f : Filter) (inp : Inputs) (rand : Nat → Nat)
    (hmask : ∀ idx, ¬ 1 ≤ inp.mask.pixel idx) (hcount : 0 < f.m_NumberOfSamplePatches)
    (fuel : Nat) (st : SeedLoop) (hst : st.patchSeedIterator = 0) :
    seedLoop f inp rand fuel st = none := by
  induction fuel generalizing st with
  | zero => simp [seedLoop, hst, hcount]
  | succ n ih =>
    have hlt : st.patchSeedIterator < f.m_NumberOfSamplePatches := by omega
    simp only [seedLoop, if_pos hlt]
    apply ih
    rw [seedStep_reject _ _ _ _ hmask]
    exact hst

theorem samplingNeverEnds_of_empty_mask (f : Filter) (inp : Inputs) (rand : Nat → Nat)
    (hmask : ∀ idx, ¬ 1 ≤ inp.mask.pixel idx) (hcount : 0 < f.m_NumberOfSamplePatches) :
    SamplingNeverEnds f inp rand := by
  intro fuel
  simp [GetSamplePatchLocations,
    seedLoop_none_of_empty_mask f inp rand hmask hcount fuel (seedStart f) rfl]

theorem seedAfter_of_empty_mask (f : Filter) (inp : Inputs) (rand : Nat → Nat)
    (hmask : ∀ idx, ¬ 1 ≤ inp.mask.pixel idx) (n : Nat) :
    (seedAfter f inp rand n).patchSeedIterator = 0 ∧
      (seedAfter f inp rand n).patchSeedAttemptIterator = n := by
  induction n with
  | zero => exact ⟨rfl, rfl⟩
  | succ n ih =>
    simp only [seedAfter]
    rw [seedStep_reject _ _ _ _ hmask]
    exact ⟨ih.1, by simp [ih.2]⟩

/-- C5, as amended. For a mask with no voxel of value at least 1 and a positive
sample count, whatever the random draws, the seed-sampling loop of
`GetSamplePatchLocations` has no attempt cap and raises no error: after every
number `n` of attempts no seed has been accepted, `n` attempts are counted and
the loop condition still holds, so the method never returns. -/
theorem C5_sampling_has_no_attempt_cap (f : Filter) (inp : Inputs) (rand : Nat → Nat)
    (hmask : ∀ idx, ¬ 1 ≤ inp.mask.pixel idx) (hcount : 0 < f.m_NumberOfSamplePatches) :
    SamplingNeverEnds f inp rand ∧
    ∀ n, (seedAfter f inp rand n).patchSeedIterator = 0 ∧
      (seedAfter f inp rand n).patchSeedAttemptIterator = n ∧
      (seedAfter f inp rand n).patchSeedIterator < f.m_NumberOfSamplePatches := by
  refine ⟨samplingNeverEnds_of_empty_mask f inp rand hmask hcount, fun n => ?_⟩
  obtain ⟨h1, h2⟩ := seedAfter_of_empty_mask f inp rand hmask n
  exact ⟨h1, h2, by omega⟩

theorem inputsEmptyMask_mask (idx : List Int) : ¬ 1 ≤ inputsEmptyMask.mask.pixel idx := by
  simp [inputsEmptyMask, zeroImage]

/-- Witness for C5: a one-voxel image whose mask is 0, one sample requested. -/
theorem C5_sampling_has_no_attempt_cap_witness :
    0 < filterOneSample.m_NumberOfSamplePatches ∧
    SamplingNeverEnds filterOneSample inputsEmptyMask (fun _ => 0) ∧
    (seedAfter filterOneSample inputsEmptyMask (fun _ => 0) 1000).patchSeedAttemptIterator
      = 1000 :=
  ⟨by decide,
   (C5_sampling_has_no_attempt_cap filterOneSample inputsEmptyMask (fun _ => 0)
      inputsEmptyMask_mask (by decide)).1,
   ((C5_sampling_has_no_attempt_cap filterOneSample inputsEmptyMask (fun _ => 0)
      inputsEmptyMask_mask (by decide)).2 1000).2.1⟩

/-- Counterexample to C5 as stated: on a one-voxel image whose mask is 0, with
one sample requested and every draw 0, `GetSamplePatchLocations` is still
sampling after any number of attempts; it neither stops nor fails. -/
theorem C5_counterexample :
    SamplingNeverEnds filterOneSample inputsEmptyMask (fun _ => 0) :=
  samplingNeverEnds_of_empty_mask filterOneSample inputsEmptyMask (fun _ => 0)
    inputsEmptyMask_mask (by decide)

/-! ## GenerateData -/

/-- C4, as amended. When basis learning is requested, the canonical frame is
built, after the first learning pass and after the relearning pass (which runs
when rotation invariance is on), from eigenbasis column index 0 if mean
centering is enabled and from column index 1 if it is disabled. -/
theorem C4_canonical_frame_index (meanCenter rotInv : Bool) :
    GenerateDataCalls meanCenter true rotInv =
      some ([Call.GetSamplePatchLocations, Call.ExtractSamplePatches, Call.LearnEigenPatches,
          Call.GetCanonicalFrameK (if meanCenter then 0 else 1), Call.ExtractAllPatches] ++
        (if rotInv then
          [Call.ReorientSamplePatches, Call.ReorientAllPatches, Call.LearnEigenPatches,
            Call.GetCanonicalFrameK (if meanCenter then 0 else 1)]
         else []) ++
        [Call.ProjectOnEigenPatches, Call.SetNthOutput]) := by
  cases meanCenter <;> cases rotInv <;> rfl

/-- Counterexample to C4 as stated: with mean centering enabled (learning and
rotation invariance on) both canonical frames are built from column index 0,
and none from column index 1. -/
theorem C4_counterexample :
    GenerateDataCalls true true true =
      some [Call.GetSamplePatchLocations, Call.ExtractSamplePatches, Call.LearnEigenPatches,
        Call.GetCanonicalFrameK 0, Call.ExtractAllPatches, Call.ReorientSamplePatches,
        Call.ReorientAllPatches, Call.LearnEigenPatches, Call.GetCanonicalFrameK 0,
        Call.ProjectOnEigenPatches, Call.SetNthOutput] ∧
    GenerateDataCalls false true true =
      some [Call.GetSamplePatchLocations, Call.ExtractSamplePatches, Call.LearnEigenPatches,
        Call.GetCanonicalFrameK 1, Call.ExtractAllPatches, Call.ReorientSamplePatches,
        Call.ReorientAllPatches, Call.LearnEigenPatches, Call.GetCanonicalFrameK 1,
        Call.ProjectOnEigenPatches, Call.SetNthOutput] := by
  constructor <;> rfl

theorem seedLoop_zero_samples (f : Filter) (inp : Inputs) (rand : Nat → Nat) (fuel : Nat)
    (st : SeedLoop) (h0 : f.m_NumberOfSamplePatches = 0) :
    seedLoop f inp rand fuel st = some st := by
  cases fuel <;> simp [seedLoop, h0]

theorem generateDataCalls_head (meanCenter learn rotInv : Bool) :
    ∃ rest, GenerateDataCalls meanCenter learn rotInv =
      some (Call.GetSamplePatchLocations :: Call.ExtractSamplePatches :: rest) := by
  cases meanCenter <;> cases learn <;> cases rotInv <;> exact ⟨_, rfl⟩

/-- C7, as amended. When the requested sample count is 0, no configuration
error is raised: `GetSamplePatchLocations` returns without a single draw,
leaving a seed-point matrix of 0 rows, and `GenerateData` goes on to call
`ExtractSamplePatches` next, whatever its flags. -/
theorem C7_zero_sample_count (f : Filter) (inp : Inputs) (rand : Nat → Nat) (fuel : Nat)
    (h0 : f.m_NumberOfSamplePatches = 0) :
    GetSamplePatchLocations f inp rand fuel =
      some ({ f with m_patchSeedPoints :=
                { rows := 0, cols := f.ImageDimension, get := f.m_patchSeedPoints.get } }, 0) ∧
    ∀ meanCenter learn rotInv, ∃ rest, GenerateDataCalls meanCenter learn rotInv =
      some (Call.GetSamplePatchLocations :: Call.ExtractSamplePatches :: rest) := by
  refine ⟨?_, generateDataCalls_head⟩
  simp [GetSamplePatchLocations, seedLoop_zero_samples f inp rand fuel _ h0, seedStart, h0]

/-- Witness for C7: the filter as constructed (sample count 0) in one
dimension. -/
theorem C7_zero_sample_count_witness :
    (Filter.new 1).m_NumberOfSamplePatches = 0 ∧
    GetSamplePatchLocations (Filter.new 1) inputsEmptyMask (fun _ => 0) 0 =
      some ({ Filter.new 1 with m_patchSeedPoints :=
                { rows := 0, cols := 1, get := (Filter.new 1).m_patchSeedPoints.get } }, 0) :=
  ⟨rfl, (C7_zero_sample_count (Filter.new 1) inputsEmptyMask (fun _ => 0) 0 rfl).1⟩

/-- Counterexample to C7 as stated: for the filter as constructed (sample count
0) `GetSamplePatchLocations` returns normally after 0 attempts with a 0-row
seed-point matrix, `GenerateData` calls `ExtractSamplePatches` next, and that
method's first read of the seed-point matrix is of row 0, which the matrix does
not have. -/
theorem C7_counterexample :
    (GetSamplePatchLocations (Filter.new 1) inputsEmptyMask (fun _ => 0) 0).map
        (fun r => (r.1.m_patchSeedPoints.rows, r.2, (seedPointReads r.1).head?))
      = some (0, 0, some (0, 0)) ∧
    GenerateDataCalls true true true =
      some [Call.GetSamplePatchLocations, Call.ExtractSamplePatches, Call.LearnEigenPatches,
        Call.GetCanonicalFrameK 0, Call.ExtractAllPatches, Call.ReorientSamplePatches,
        Call.ReorientAllPatches, Call.LearnEigenPatches, Call.GetCanonicalFrameK 0,
        Call.ProjectOnEigenPatches, Call.SetNthOutput] := by
  constructor <;> rfl

/-! ## ReorientPatchToReferenceFrame -/

theorem gatherStep_length (f : Filter) (a : ReorientArgs) (ii : Nat) (s s1 : PatchSamples)
    (h : gatherStep f a ii s = some s1) :
    s1.VectorizedImagePatch2.length = s.VectorizedImagePatch2.length := by
  unfold gatherStep at h
  by_cases hb : bothInside f a ii = true
  · simp only [hb, if_true, Option.some.injEq] at h
    rw [← h]
    simp
  · simp [hb] at h

theorem gatherLoop_none (f : Filter) (a : ReorientArgs) (l : List Nat) (s : PatchSamples)
    (h : ∃ ii ∈ l, bothInside f a ii = false) : gatherLoop f a l s = none := by
  induction l generalizing s with
  | nil => simp at h
  | cons x l ih =>
    unfold gatherLoop
    cases hx : gatherStep f a x s with
    | none => rfl
    | some s1 =>
      simp only
      apply ih
      obtain ⟨ii, hmem, hii⟩ := h
      rcases List.mem_cons.mp hmem with rfl | hmem
      · exfalso
        simp [gatherStep, hii] at hx
      · exact ⟨ii, hmem, hii⟩

theorem gatherLoop_some (f : Filter) (a : ReorientArgs) (l : List Nat) (s : PatchSamples)
    (h : ∀ ii ∈ l, bothInside f a ii = true) :
    ∃ s1, gatherLoop f a l s = some s1 ∧
      s1.VectorizedImagePatch2.length = s.VectorizedImagePatch2.length := by
  induction l generalizing s with
  | nil => exact ⟨s, rfl, rfl⟩
  | cons x l ih =>
    unfold gatherLoop
    cases hx : gatherStep f a x s with
    | none =>
      exfalso
      simp [gatherStep, h x (List.mem_cons_self x l)] at hx
    | some s1 =>
      simp only
      obtain ⟨s2, h1, h2⟩ := ih s1 (fun ii hii => h ii (List.mem_cons_of_mem x hii))
      exact ⟨s2, h1, by rw [h2, gatherStep_length f a x s s1 hx]⟩

theorem resampleLoop_length (D N : Nat) (Q : Mat) (interp : Interpolator)
    (P : List (List ℚ)) (C : List ℚ) (st : List ℚ × Bool) :
    (resampleLoop D N Q interp P C st).1.length = st.1.length := by
  unfold resampleLoop
  generalize List.range N = l
  induction l generalizing st with
  | nil => rfl
  | cons x l ih =>
    rw [List.foldl_cons, ih]
    unfold resampleStep
    simp only
    split_ifs <;> simp

theorem reorientAfterGather_length (f : Filter) (a : ReorientArgs) (s : PatchSamples) :
    (reorientAfterGather f a s).1.length = s.VectorizedImagePatch2.length := by
  unfold reorientAfterGather
  simp only
  split_ifs
  · rw [resampleLoop_length, resampleLoop_length]
  · rw [resampleLoop_length]

/-- C6, as amended. When some sphere-offset sample location of the fixed or of
the moving neighborhood falls outside its gradient field,
`ReorientPatchToReferenceFrame` returns the vector of length 1 holding 0, with
no partial result; when none does, it returns a vector with one entry per sphere
offset. The two are therefore told apart by length only when the sphere-offset
list does not have length 1. -/
theorem C6_abort_returns_sentinel (f : Filter) (a : ReorientArgs) :
    ((∃ ii, ii < f.m_IndicesWithinSphere.length ∧ bothInside f a ii = false) →
      ReorientPatchToReferenceFrame f a = [0]) ∧
    ((∀ ii, ii < f.m_IndicesWithinSphere.length → bothInside f a ii = true) →
      (ReorientPatchToReferenceFrame f a).length = f.m_IndicesWithinSphere.length) := by
  constructor
  · rintro ⟨ii, hlt, hii⟩
    unfold ReorientPatchToReferenceFrame
    rw [gatherLoop_none f a _ _ ⟨ii, List.mem_range.mpr hlt, hii⟩]
  · intro h
    unfold ReorientPatchToReferenceFrame
    obtain ⟨s1, h1, h2⟩ := gatherLoop_some f a (List.range f.m_IndicesWithinSphere.length)
      (PatchSamples.start f.ImageDimension f.m_IndicesWithinSphere.length)
      (fun ii hii => h ii (List.mem_range.mp hii))
    rw [h1]
    simp only
    rw [reorientAfterGather_length, h2]
    simp [PatchSamples.start]

theorem bothInside_flat_outside : bothInside filterSingleOffset (flatArgs [5, 5]) 0 = false := by
  decide

theorem bothInside_flat_inside : bothInside filterSingleOffset (flatArgs [0, 0]) 0 = true := by
  decide

/-- Witness for C6: a one-offset patch whose moving sample lies at index
`(5, 5)` of a `1 × 1` gradient image aborts with the vector `(0)`, and the same
patch located at `(0, 0)` succeeds with a vector of length 1. -/
theorem C6_abort_returns_sentinel_witness :
    ReorientPatchToReferenceFrame filterSingleOffset (flatArgs [5, 5]) = [0] ∧
    (ReorientPatchToReferenceFrame filterSingleOffset (flatArgs [0, 0])).length = 1 :=
  ⟨(C6_abort_returns_sentinel filterSingleOffset (flatArgs [5, 5])).1
      ⟨0, by decide, bothInside_flat_outside⟩,
   (C6_abort_returns_sentinel filterSingleOffset (flatArgs [0, 0])).2
      (fun ii hii => by
        have h1 : ii < 1 := hii
        have h0 : ii = 0 := by omega
        rw [h0]
        exact bothInside_flat_inside)⟩

theorem reorient_flat_outside :
    ReorientPatchToReferenceFrame filterSingleOffset (flatArgs [5, 5]) = [0] := by
  unfold ReorientPatchToReferenceFrame
  rw [gatherLoop_none _ _ _ _ ⟨0, by decide, bothInside_flat_outside⟩]

theorem gatherLoop_flat_inside :
    gatherLoop filterSingleOffset (flatArgs [0, 0]) [0] (PatchSamples.start 2 1) =
      some
        { VectorizedImagePatch1 := [7],
          VectorizedImagePatch2 := [0],
          GradientMatrix1 := putGradientRow 2 0 (Mat.zero 1 2) [0, 0],
          GradientMatrix2 := putGradientRow 2 0 (Mat.zero 1 2) [0, 0],
          CenterPointOfImage1 := [0, 0],
          CenterPointOfImage2 := [0, 0],
          ImagePatch1 := [[0, 0]],
          ImagePatch2 := [[0, 0]] } := by
  simp only [gatherLoop, gatherStep, bothInside_flat_inside, if_true]
  simp [PatchSamples.start, filterSingleOffset, Filter.new, flatArgs, flatGradient,
    List.range_succ]

theorem reorient_flat_inside :
    ReorientPatchToReferenceFrame filterSingleOffset (flatArgs [0, 0]) = [0] := by
  unfold ReorientPatchToReferenceFrame
  have hN : filterSingleOffset.m_IndicesWithinSphere.length = 1 := rfl
  have hD : filterSingleOffset.ImageDimension = 2 := rfl
  rw [hN, hD, show List.range 1 = [0] from rfl, gatherLoop_flat_inside]
  simp [reorientAfterGather, resampleLoop, resampleStep, flatArgs, hN, hD, List.range_succ,
    mean, subScalar, inner_product]

/-- Counterexample to C6 as stated: the abort result is a length-1 vector, and
it equals the result of a successful reorientation of a single-sample patch. On
a one-offset patch whose moving sample lies outside its gradient image the
method returns `(0)`; on the same patch lying inside, whose resampled value is
0, it returns `(0)` as well. -/
theorem C6_counterexample :
    bothInside filterSingleOffset (flatArgs [5, 5]) 0 = false ∧
    ReorientPatchToReferenceFrame filterSingleOffset (flatArgs [5, 5]) = [0] ∧
    bothInside filterSingleOffset (flatArgs [0, 0]) 0 = true ∧
    ReorientPatchToReferenceFrame filterSingleOffset (flatArgs [0, 0]) = [0] :=
  ⟨bothInside_flat_outside, reorient_flat_outside, bothInside_flat_inside, reorient_flat_inside⟩

/-! ## ExtractSamplePatches, ExtractAllPatches, ProjectOnEigenPatches -/

theorem sphereIndexLoop_fst (r d : Nat) (st : List Nat × List ℚ) :
    (sphereIndexLoop r d st).1 = st.1 ++ (sphereIndexLoop r d ([], [])).1 := by
  unfold sphereIndexLoop
  rw [foldl_sphereStep, foldl_sphereStep]
  simp

theorem sphereIndexLoop_ne_nil (r d : Nat) (st : List Nat × List ℚ) :
    (sphereIndexLoop r d st).1 ≠ [] := by
  rw [sphereIndexLoop_fst]
  have hc := inCube_of_sumSquares_le r (List.replicate d 0)
    (by rw [sumSquares_replicate_zero]; exact mul_self_nonneg _)
  obtain ⟨h1, h2⟩ := GetOffset_linearIndexOfOffset r (List.replicate d 0) hc
  rw [List.length_replicate] at h1 h2
  have hmem : linearIndexOfOffset r (List.replicate d 0) ∈ (sphereIndexLoop r d ([], [])).1 := by
    rw [mem_sphereIndexLoop, h1, sumSquares_replicate_zero]
    exact ⟨h2, mul_self_nonneg _⟩
  intro he
  have h3 := List.append_eq_nil.mp he
  rw [h3.2] at hmem
  exact absurd hmem (List.not_mem_nil _)

theorem map_range_getD {α β : Type} (l : List α) (g : α → β) (a : α) :
    (List.range l.length).map (fun b => g (l.getD b a)) = l.map g := by
  apply List.ext_getElem
  · simp
  · intro n h1 h2
    simp only [List.length_map, List.length_range] at h1
    simp [List.getD_eq_getElem?_getD, List.getElem?_eq_getElem h1]

theorem map_range_getD_self (l : List ℚ) :
    (List.range l.length).map (fun b => l.getD b 0) = l := by
  have := map_range_getD l id 0
  simpa using this

theorem mean_subScalar_mean (v : List ℚ) (hv : v ≠ []) : mean (subScalar v (mean v)) = 0 := by
  have hlen : (v.length : ℚ) ≠ 0 := by
    have : v.length ≠ 0 := fun h => hv (List.length_eq_zero.mp h)
    exact_mod_cast this
  have hsum : ∀ (l : List ℚ) (c : ℚ), (l.map (fun x => x - c)).sum = l.sum - l.length * c := by
    intro l c
    induction l with
    | nil => simp
    | cons x l ih =>
      simp only [List.map_cons, List.sum_cons, List.length_cons, ih]
      push_cast
      ring
  unfold mean subScalar
  rw [hsum, List.length_map]
  field_simp

theorem put_get (M : Mat) (i j : Nat) (x : ℚ) (a b : Nat) :
    (M.put i j x).get a b = if a = i ∧ b = j then x else M.get a b := rfl

/-- The `j` loop over `n` columns writes row `i` and nothing else. -/
theorem foldl_put_row (g : Nat → ℚ) (i n : Nat) (M : Mat) :
    ((List.range n).foldl (fun M j => M.put i j (g j)) M).rows = M.rows ∧
    ((List.range n).foldl (fun M j => M.put i j (g j)) M).cols = M.cols ∧
    ∀ a b, ((List.range n).foldl (fun M j => M.put i j (g j)) M).get a b
      = if a = i ∧ b < n then g b else M.get a b := by
  induction n with
  | zero => simp
  | succ n ih =>
    rw [List.range_succ, List.foldl_append]
    obtain ⟨h1, h2, h3⟩ := ih
    refine ⟨h1, h2, fun a b => ?_⟩
    simp only [List.foldl_cons, List.foldl_nil]
    rw [put_get, h3]
    by_cases ha : a = i
    · by_cases hb : b = n
      · simp [ha, hb]
      · have : (b < n + 1) ↔ (b < n) := by omega
        simp [ha, hb, this]
    · simp [ha]

/-- The `j` loop over `n` rows writes column `i` and nothing else. -/
theorem foldl_put_column (g : Nat → ℚ) (i n : Nat) (M : Mat) :
    ((List.range n).foldl (fun M j => M.put j i (g j)) M).rows = M.rows ∧
    ((List.range n).foldl (fun M j => M.put j i (g j)) M).cols = M.cols ∧
    ∀ a b, ((List.range n).foldl (fun M j => M.put j i (g j)) M).get a b
      = if b = i ∧ a < n then g a else M.get a b := by
  induction n with
  | zero => simp
  | succ n ih =>
    rw [List.range_succ, List.foldl_append]
    obtain ⟨h1, h2, h3⟩ := ih
    refine ⟨h1, h2, fun a b => ?_⟩
    simp only [List.foldl_cons, List.foldl_nil]
    rw [put_get, h3]
    by_cases hb : b = i
    · by_cases ha : a = n
      · simp [ha, hb]
      · have : (a < n + 1) ↔ (a < n) := by omega
        simp [ha, hb, this]
    · simp [hb]

/-- A loop over `i < n` whose pass `i` rewrites row `i` with values that do not
depend on the matrix leaves exactly those rows rewritten. -/
theorem foldl_rows (step : Mat → Nat → Mat) (val : Nat → Nat → ℚ) (c : Nat)
    (hstep : ∀ M i, M.cols = c →
      (step M i).rows = M.rows ∧ (step M i).cols = c ∧
      ∀ a b, (step M i).get a b = if a = i ∧ b < c then val i b else M.get a b)
    (n : Nat) (M : Mat) (hM : M.cols = c) :
    ((List.range n).foldl step M).rows = M.rows ∧
    ((List.range n).foldl step M).cols = c ∧
    ∀ a b, ((List.range n).foldl step M).get a b
      = if a < n ∧ b < c then val a b else M.get a b := by
  induction n with
  | zero => simp [hM]
  | succ n ih =>
    rw [List.range_succ, List.foldl_append]
    obtain ⟨h1, h2, h3⟩ := ih
    obtain ⟨k1, k2, k3⟩ := hstep ((List.range n).foldl step M) n h2
    simp only [List.foldl_cons, List.foldl_nil]
    refine ⟨by rw [k1, h1], k2, fun a b => ?_⟩
    rw [k3, h3]
    by_cases ha : a = n
    · by_cases hb : b < c
      · simp [ha, hb]
      · simp [ha, hb]
    · have : (a < n + 1) ↔ (a < n) := by omega
      simp [ha, this]

/-- The column counterpart of `foldl_rows`. -/
theorem foldl_columns (step : Mat → Nat → Mat) (val : Nat → Nat → ℚ) (c : Nat)
    (hstep : ∀ M i, M.rows = c →
      (step M i).rows = c ∧ (step M i).cols = M.cols ∧
      ∀ a b, (step M i).get a b = if b = i ∧ a < c then val i a else M.get a b)
    (n : Nat) (M : Mat) (hM : M.rows = c) :
    ((List.range n).foldl step M).rows = c ∧
    ((List.range n).foldl step M).cols = M.cols ∧
    ∀ a b, ((List.range n).foldl step M).get a b
      = if b < n ∧ a < c then val b a else M.get a b := by
  induction n with
  | zero => simp [hM]
  | succ n ih =>
    rw [List.range_succ, List.foldl_append]
    obtain ⟨h1, h2, h3⟩ := ih
    obtain ⟨k1, k2, k3⟩ := hstep ((List.range n).foldl step M) n h1
    simp only [List.foldl_cons, List.foldl_nil]
    refine ⟨k1, by rw [k2, h2], fun a b => ?_⟩
    rw [k3, h3]
    by_cases hb : b = n
    · by_cases ha : a < c
      · simp [ha, hb]
      · simp [ha, hb]
    · have : (b < n + 1) ↔ (b < n) := by omega
      simp [hb, this]

theorem getD_patchAt (r d : Nat) (image : Image) (sphere : List Nat) (loc : List Int) (b : Nat)
    (hb : b < sphere.length) :
    (patchAt r d image sphere loc).getD b 0
      = image.pixel (GetIndex r d loc (sphere.getD b 0)) := by
  simp [patchAt, List.getD_eq_getElem?_getD, List.getElem?_eq_getElem hb]

theorem length_storedPatch (mc : Bool) (p : List ℚ) : (storedPatch mc p).length = p.length := by
  cases mc <;> simp [storedPatch, subScalar]

theorem length_patchAt (r d : Nat) (image : Image) (sphere : List Nat) (loc : List Int) :
    (patchAt r d image sphere loc).length = sphere.length := by
  simp [patchAt]

theorem fillRow_spec (r d : Nat) (image : Image) (sphere : List Nat) (loc : List Int)
    (i : Nat) (M : Mat) :
    (fillRow r d image sphere loc i M).rows = M.rows ∧
    (fillRow r d image sphere loc i M).cols = M.cols ∧
    ∀ a b, (fillRow r d image sphere loc i M).get a b
      = if a = i ∧ b < sphere.length then (patchAt r d image sphere loc).getD b 0
        else M.get a b := by
  obtain ⟨h1, h2, h3⟩ := foldl_put_row
    (fun j => image.pixel (GetIndex r d loc (sphere.getD j 0))) i sphere.length M
  refine ⟨h1, h2, fun a b => ?_⟩
  unfold fillRow
  rw [h3]
  by_cases hc : a = i ∧ b < sphere.length
  · rw [if_pos hc, if_pos hc, getD_patchAt _ _ _ _ _ _ hc.2]
  · rw [if_neg hc, if_neg hc]

theorem fillColumn_spec (r d : Nat) (image : Image) (sphere : List Nat) (loc : List Int)
    (i : Nat) (M : Mat) :
    (fillColumn r d image sphere loc i M).rows = M.rows ∧
    (fillColumn r d image sphere loc i M).cols = M.cols ∧
    ∀ a b, (fillColumn r d image sphere loc i M).get a b
      = if b = i ∧ a < sphere.length then (patchAt r d image sphere loc).getD a 0
        else M.get a b := by
  obtain ⟨h1, h2, h3⟩ := foldl_put_column
    (fun j => image.pixel (GetIndex r d loc (sphere.getD j 0))) i sphere.length M
  refine ⟨h1, h2, fun a b => ?_⟩
  unfold fillColumn
  rw [h3]
  by_cases hc : b = i ∧ a < sphere.length
  · rw [if_pos hc, if_pos hc, getD_patchAt _ _ _ _ _ _ hc.2]
  · rw [if_neg hc, if_neg hc]

theorem map_range_congr_getD (n : Nat) (g : Nat → ℚ) (p : List ℚ) (hp : p.length = n)
    (h : ∀ b, b < n → g b = p.getD b 0) : (List.range n).map g = p := by
  rw [← map_range_getD_self p, hp]
  apply List.map_congr_left
  intro b hb
  exact h b (List.mem_range.mp hb)

theorem sampleRowStep_spec (f : Filter) (image : Image) (sphere : List Nat) (M : Mat) (i : Nat)
    (hM : M.cols = sphere.length) :
    (sampleRowStep f image sphere M i).rows = M.rows ∧
    (sampleRowStep f image sphere M i).cols = sphere.length ∧
    ∀ a b, (sampleRowStep f image sphere M i).get a b
      = if a = i ∧ b < sphere.length then
          (storedPatch f.m_MeanCenterPatches
            (patchAt f.m_PatchRadius f.ImageDimension image sphere (seedPoint f i))).getD b 0
        else M.get a b := by
  obtain ⟨h1, h2, h3⟩ :=
    fillRow_spec f.m_PatchRadius f.ImageDimension image sphere (seedPoint f i) i M
  have hrow : (fillRow f.m_PatchRadius f.ImageDimension image sphere (seedPoint f i) i M).get_row i
      = patchAt f.m_PatchRadius f.ImageDimension image sphere (seedPoint f i) := by
    unfold Mat.get_row
    rw [h2, hM]
    apply map_range_congr_getD _ _ _ (length_patchAt _ _ _ _ _)
    intro b hb
    rw [h3, if_pos ⟨rfl, hb⟩]
  unfold sampleRowStep
  cases hmc : f.m_MeanCenterPatches
  · simp only [Bool.false_eq_true, if_false, storedPatch]
    exact ⟨h1, by rw [h2, hM], h3⟩
  · simp only [if_true, storedPatch]
    refine ⟨h1, by rw [← hM, ← h2]; rfl, fun a b => ?_⟩
    simp only [Mat.set_row]
    rw [hrow, h2, hM, h3]
    by_cases hc : a = i ∧ b < sphere.length
    · rw [if_pos hc, if_pos hc]
    · rw [if_neg hc, if_neg hc, if_neg hc]

theorem allColumnStep_spec (f : Filter) (image : Image) (voxels : List (List Int)) (M : Mat)
    (i : Nat) (hM : M.rows = f.m_IndicesWithinSphere.length) :
    (allColumnStep f image voxels M i).rows = f.m_IndicesWithinSphere.length ∧
    (allColumnStep f image voxels M i).cols = M.cols ∧
    ∀ a b, (allColumnStep f image voxels M i).get a b
      = if b = i ∧ a < f.m_IndicesWithinSphere.length then
          (storedPatch f.m_MeanCenterPatches
            (patchAt f.m_PatchRadius f.ImageDimension image f.m_IndicesWithinSphere
              (voxels.getD i []))).getD a 0
        else M.get a b := by
  obtain ⟨h1, h2, h3⟩ :=
    fillColumn_spec f.m_PatchRadius f.ImageDimension image f.m_IndicesWithinSphere
      (voxels.getD i []) i M
  have hcol : (fillColumn f.m_PatchRadius f.ImageDimension image f.m_IndicesWithinSphere
        (voxels.getD i []) i M).get_column i
      = patchAt f.m_PatchRadius f.ImageDimension image f.m_IndicesWithinSphere
          (voxels.getD i []) := by
    unfold Mat.get_column
    rw [h1, hM]
    apply map_range_congr_getD _ _ _ (length_patchAt _ _ _ _ _)
    intro b hb
    rw [h3, if_pos ⟨rfl, hb⟩]
  unfold allColumnStep
  cases hmc : f.m_MeanCenterPatches
  · simp only [Bool.false_eq_true, if_false, storedPatch]
    exact ⟨by rw [h1, hM], h2, h3⟩
  · simp only [if_true, storedPatch]
    refine ⟨by rw [← hM, ← h1]; rfl, h2, fun a b => ?_⟩
    simp only [Mat.set_column]
    rw [hcol, h1, hM, h3]
    by_cases hc : b = i ∧ a < f.m_IndicesWithinSphere.length
    · rw [if_pos hc, if_pos hc]
    · rw [if_neg hc, if_neg hc, if_neg hc]

/-- The sample matrix left by `ExtractSamplePatches`: its shape and its rows. -/
theorem ExtractSamplePatches_matrix (inp : Inputs) (f : Filter) :
    (ExtractSamplePatches inp f).m_vectorizedSamplePatchMatrix.rows
      = f.m_NumberOfSamplePatches ∧
    (ExtractSamplePatches inp f).m_vectorizedSamplePatchMatrix.cols
      = (ExtractSamplePatches inp f).m_IndicesWithinSphere.length ∧
    ∀ i, i < f.m_NumberOfSamplePatches →
      (ExtractSamplePatches inp f).m_vectorizedSamplePatchMatrix.get_row i
        = storedPatch f.m_MeanCenterPatches
            (patchAt f.m_PatchRadius f.ImageDimension inp.input
              (ExtractSamplePatches inp f).m_IndicesWithinSphere (seedPoint f i)) := by
  simp only [ExtractSamplePatches]
  generalize hs : (sphereIndexLoop f.m_PatchRadius f.ImageDimension
    (f.m_IndicesWithinSphere, f.m_weights)).1 = sphere
  obtain ⟨h1, h2, h3⟩ := foldl_rows (sampleRowStep f inp.input sphere)
    (fun i b => (storedPatch f.m_MeanCenterPatches
      (patchAt f.m_PatchRadius f.ImageDimension inp.input sphere (seedPoint f i))).getD b 0)
    sphere.length (fun M i hM => sampleRowStep_spec f inp.input sphere M i hM)
    f.m_NumberOfSamplePatches (Mat.zero f.m_NumberOfSamplePatches sphere.length) rfl
  refine ⟨h1, h2, fun i hi => ?_⟩
  unfold Mat.get_row
  rw [h2]
  apply map_range_congr_getD _ _ _ (by rw [length_storedPatch, length_patchAt])
  intro b hb
  rw [h3, if_pos ⟨hi, hb⟩]

/-- The all-patches matrix left by `ExtractAllPatches`: its shape and its
columns. -/
theorem ExtractAllPatches_matrix (inp : Inputs) (f : Filter) :
    (ExtractAllPatches inp f).m_PatchesForAllPointsWithinMask.rows
      = f.m_IndicesWithinSphere.length ∧
    (ExtractAllPatches inp f).m_PatchesForAllPointsWithinMask.cols
      = (nonZeroMaskIndices inp.mask).length ∧
    (ExtractAllPatches inp f).m_numberOfVoxelsWithinMask = (nonZeroMaskIndices inp.mask).length ∧
    ∀ i, i < (nonZeroMaskIndices inp.mask).length →
      (ExtractAllPatches inp f).m_PatchesForAllPointsWithinMask.get_column i
        = storedPatch f.m_MeanCenterPatches
            (patchAt f.m_PatchRadius f.ImageDimension inp.input f.m_IndicesWithinSphere
              ((nonZeroMaskIndices inp.mask).getD i [])) := by
  simp only [ExtractAllPatches]
  obtain ⟨h1, h2, h3⟩ := foldl_columns (allColumnStep f inp.input (nonZeroMaskIndices inp.mask))
    (fun i a => (storedPatch f.m_MeanCenterPatches
      (patchAt f.m_PatchRadius f.ImageDimension inp.input f.m_IndicesWithinSphere
        ((nonZeroMaskIndices inp.mask).getD i []))).getD a 0)
    f.m_IndicesWithinSphere.length
    (fun M i hM => allColumnStep_spec f inp.input (nonZeroMaskIndices inp.mask) M i hM)
    (nonZeroMaskIndices inp.mask).length
    (Mat.zero f.m_IndicesWithinSphere.length (nonZeroMaskIndices inp.mask).length) rfl
  refine ⟨h1, h2, trivial, fun i hi => ?_⟩
  unfold Mat.get_column
  rw [h1]
  apply map_range_congr_getD _ _ _ (by rw [length_storedPatch, length_patchAt])
  intro b hb
  rw [h3, if_pos ⟨hi, hb⟩]

/-- A region scan visits as many indices as the region has voxels. -/
theorem regionIndices_length (reg : List (Int × Nat)) :
    (regionIndices reg).length = (reg.map Prod.snd).prod := by
  induction reg with
  | nil => rfl
  | cons p rest ih =>
    obtain ⟨s, n⟩ := p
    simp only [regionIndices, List.map_cons, List.prod_cons]
    rw [← ih]
    generalize regionIndices rest = l
    induction l with
    | nil => simp
    | cons x l ihl =>
      rw [List.flatMap_cons, List.length_append, ihl]
      simp
      ring

/-- A region scan visits no index twice. -/
theorem regionIndices_nodup (reg : List (Int × Nat)) : (regionIndices reg).Nodup := by
  induction reg with
  | nil => simp [regionIndices]
  | cons p rest ih =>
    obtain ⟨s, n⟩ := p
    simp only [regionIndices]
    rw [List.nodup_flatMap]
    constructor
    · intro tl _
      apply List.Nodup.map _ (List.nodup_range n)
      intro a b hab
      simpa using hab
    · apply List.Pairwise.imp_of_mem _ ih
      intro a b _ _ hab
      intro x hxa hxb
      obtain ⟨i, _, rfl⟩ := List.mem_map.mp hxa
      obtain ⟨j, _, hj⟩ := List.mem_map.mp hxb
      simp at hj
      exact hab hj.2.symm

/-- C10. With mean centering enabled, every row of the sample matrix built by
`ExtractSamplePatches` is the patch read at its seed point minus the mean of
that patch, and has mean exactly 0; and, for a non-empty sphere-offset list,
every column of the all-patches matrix built by `ExtractAllPatches` is the patch
read at its masked voxel minus the mean of that patch, and has mean exactly 0. -/
theorem C10_mean_centered_patches (inp : Inputs) (f : Filter)
    (hmc : f.m_MeanCenterPatches = true) :
    (∀ i, i < f.m_NumberOfSamplePatches →
      (ExtractSamplePatches inp f).m_vectorizedSamplePatchMatrix.get_row i
        = subScalar
            (patchAt f.m_PatchRadius f.ImageDimension inp.input
              (ExtractSamplePatches inp f).m_IndicesWithinSphere (seedPoint f i))
            (mean (patchAt f.m_PatchRadius f.ImageDimension inp.input
              (ExtractSamplePatches inp f).m_IndicesWithinSphere (seedPoint f i))) ∧
      mean ((ExtractSamplePatches inp f).m_vectorizedSamplePatchMatrix.get_row i) = 0) ∧
    (f.m_IndicesWithinSphere ≠ [] →
      ∀ i, i < (ExtractAllPatches inp f).m_PatchesForAllPointsWithinMask.cols →
        (ExtractAllPatches inp f).m_PatchesForAllPointsWithinMask.get_column i
          = subScalar
              (patchAt f.m_PatchRadius f.ImageDimension inp.input f.m_IndicesWithinSphere
                ((nonZeroMaskIndices inp.mask).getD i []))
              (mean (patchAt f.m_PatchRadius f.ImageDimension inp.input f.m_IndicesWithinSphere
                ((nonZeroMaskIndices inp.mask).getD i []))) ∧
        mean ((ExtractAllPatches inp f).m_PatchesForAllPointsWithinMask.get_column i) = 0) := by
  constructor
  · intro i hi
    obtain ⟨_, _, h3⟩ := ExtractSamplePatches_matrix inp f
    have hrow := h3 i hi
    rw [hmc] at hrow
    simp only [storedPatch, if_true] at hrow
    refine ⟨hrow, ?_⟩
    rw [hrow]
    apply mean_subScalar_mean
    intro he
    have hlen := length_patchAt f.m_PatchRadius f.ImageDimension inp.input
      (ExtractSamplePatches inp f).m_IndicesWithinSphere (seedPoint f i)
    rw [he] at hlen
    have hne := sphereIndexLoop_ne_nil f.m_PatchRadius f.ImageDimension
      (f.m_IndicesWithinSphere, f.m_weights)
    exact hne (List.length_eq_zero.mp hlen.symm)
  · intro hne i hi
    obtain ⟨_, h2, _, h4⟩ := ExtractAllPatches_matrix inp f
    rw [h2] at hi
    have hcol := h4 i hi
    rw [hmc] at hcol
    simp only [storedPatch, if_true] at hcol
    refine ⟨hcol, ?_⟩
    rw [hcol]
    apply mean_subScalar_mean
    intro he
    have hlen := length_patchAt f.m_PatchRadius f.ImageDimension inp.input
      f.m_IndicesWithinSphere ((nonZeroMaskIndices inp.mask).getD i [])
    rw [he] at hlen
    exact hne (List.length_eq_zero.mp hlen.symm)

theorem sphere_filterRamp :
    (ExtractSamplePatches rampInputs filterRamp).m_IndicesWithinSphere = [0, 1, 2] := by
  decide

/-- Witness for C10: on the ramp image the patch seeded at voxel 2 with radius 1
reads `(1, 2, 3)` and is stored as `(-1, 0, 1)`, of mean 0. -/
theorem C10_mean_centered_patches_witness :
    filterRamp.m_MeanCenterPatches = true ∧
    (ExtractSamplePatches rampInputs filterRamp).m_vectorizedSamplePatchMatrix.get_row 0
      = [-1, 0, 1] ∧
    mean ((ExtractSamplePatches rampInputs filterRamp).m_vectorizedSamplePatchMatrix.get_row 0)
      = 0 ∧
    (ExtractAllPatches rampInputs
      (ExtractSamplePatches rampInputs filterRamp)).m_PatchesForAllPointsWithinMask.cols = 5 ∧
    mean ((ExtractAllPatches rampInputs
      (ExtractSamplePatches rampInputs filterRamp)).m_PatchesForAllPointsWithinMask.get_column 4)
      = 0 := by
  have h := (C10_mean_centered_patches rampInputs filterRamp rfl).1 0 (by decide)
  have hcols : (ExtractAllPatches rampInputs
      (ExtractSamplePatches rampInputs filterRamp)).m_PatchesForAllPointsWithinMask.cols = 5 := by
    rw [(ExtractAllPatches_matrix rampInputs (ExtractSamplePatches rampInputs filterRamp)).2.1]
    simp [nonZeroMaskIndices, rampInputs, fullMask, regionIndices, Image.region,
      List.range_succ]
  have h2 := (C10_mean_centered_patches rampInputs
    (ExtractSamplePatches rampInputs filterRamp) rfl).2
    (by rw [sphere_filterRamp]; simp) 4 (by rw [hcols]; decide)
  refine ⟨rfl, ?_, h.2, hcols, h2.2⟩
  rw [h.1, sphere_filterRamp]
  norm_num [patchAt, GetIndex, seedPoint, filterRamp, Filter.new, rampInputs, rampImage,
    offsetComponent, subScalar, mean, List.range_succ]

/-- The coefficient matrix left by `ProjectOnEigenPatches`: its shape and its
entries. -/
theorem ProjectOnEigenPatches_matrix (solve : Mat → List ℚ → List ℚ) (f : Filter) :
    (ProjectOnEigenPatches solve f).m_EigenvectorCoefficients.rows
      = f.m_SignificantPatchEigenvectors.cols ∧
    (ProjectOnEigenPatches solve f).m_EigenvectorCoefficients.cols
      = f.m_numberOfVoxelsWithinMask ∧
    ∀ a b, (ProjectOnEigenPatches solve f).m_EigenvectorCoefficients.get a b
      = if b < f.m_numberOfVoxelsWithinMask ∧ a < f.m_SignificantPatchEigenvectors.cols then
          (solve f.m_SignificantPatchEigenvectors
            (f.m_PatchesForAllPointsWithinMask.get_column b)).getD a 0
        else 0 := by
  simp only [ProjectOnEigenPatches]
  exact foldl_columns
    (fun C i => C.set_column i
      (solve f.m_SignificantPatchEigenvectors (f.m_PatchesForAllPointsWithinMask.get_column i)))
    (fun i a => (solve f.m_SignificantPatchEigenvectors
      (f.m_PatchesForAllPointsWithinMask.get_column i)).getD a 0)
    f.m_SignificantPatchEigenvectors.cols
    (fun M i hM => by
      refine ⟨hM, rfl, fun a b => ?_⟩
      simp only [Mat.set_column, hM])
    f.m_numberOfVoxelsWithinMask
    (Mat.zero f.m_SignificantPatchEigenvectors.cols f.m_numberOfVoxelsWithinMask) rfl

/-- C8. After `ExtractAllPatches` followed by `ProjectOnEigenPatches`, given a
solver that returns least-squares solutions for the retained eigenbasis, the
coefficient matrix has as many rows as the eigenbasis has columns and as many
columns as the mask has voxels of value at least 1, and its column `i` is the
solver's least-squares solution for column `i` of the all-patches matrix. -/
theorem C8_coefficient_matrix (solve : Mat → List ℚ → List ℚ) (inp : Inputs) (f : Filter)
    (hLS : ∀ b, IsLeastSquares f.m_SignificantPatchEigenvectors b
      (solve f.m_SignificantPatchEigenvectors b)) :
    (ProjectOnEigenPatches solve (ExtractAllPatches inp f)).m_EigenvectorCoefficients.rows
      = f.m_SignificantPatchEigenvectors.cols ∧
    (ProjectOnEigenPatches solve (ExtractAllPatches inp f)).m_EigenvectorCoefficients.cols
      = (regionIndices inp.mask.region).countP (fun idx => decide (1 ≤ inp.mask.pixel idx)) ∧
    ∀ i, i < (ProjectOnEigenPatches solve
        (ExtractAllPatches inp f)).m_EigenvectorCoefficients.cols →
      (ProjectOnEigenPatches solve
          (ExtractAllPatches inp f)).m_EigenvectorCoefficients.get_column i
        = solve f.m_SignificantPatchEigenvectors
            ((ExtractAllPatches inp f).m_PatchesForAllPointsWithinMask.get_column i) ∧
      IsLeastSquares f.m_SignificantPatchEigenvectors
        ((ExtractAllPatches inp f).m_PatchesForAllPointsWithinMask.get_column i)
        ((ProjectOnEigenPatches solve
          (ExtractAllPatches inp f)).m_EigenvectorCoefficients.get_column i) := by
  obtain ⟨h1, h2, h3⟩ := ProjectOnEigenPatches_matrix solve (ExtractAllPatches inp f)
  have hB : (ExtractAllPatches inp f).m_SignificantPatchEigenvectors
      = f.m_SignificantPatchEigenvectors := rfl
  have hM : (ExtractAllPatches inp f).m_numberOfVoxelsWithinMask
      = (regionIndices inp.mask.region).countP (fun idx => decide (1 ≤ inp.mask.pixel idx)) := by
    rw [(ExtractAllPatches_matrix inp f).2.2.1, nonZeroMaskIndices, List.countP_eq_length_filter]
  rw [hB] at h1 h3
  have hcol : ∀ i, i < (ProjectOnEigenPatches solve
        (ExtractAllPatches inp f)).m_EigenvectorCoefficients.cols →
      (ProjectOnEigenPatches solve
          (ExtractAllPatches inp f)).m_EigenvectorCoefficients.get_column i
        = solve f.m_SignificantPatchEigenvectors
            ((ExtractAllPatches inp f).m_PatchesForAllPointsWithinMask.get_column i) := by
    intro i hi
    rw [h2] at hi
    unfold Mat.get_column
    rw [h1]
    apply map_range_congr_getD _ _ _ (hLS _).1
    intro a ha
    rw [h3, if_pos ⟨hi, ha⟩]
    rfl
  refine ⟨h1, by rw [h2, hM], fun i hi => ⟨hcol i hi, ?_⟩⟩
  rw [hcol i hi]
  exact hLS _

theorem residualSq_nonneg (A : Mat) (x b : List ℚ) : 0 ≤ residualSq A x b := by
  unfold residualSq
  apply List.sum_nonneg
  intro y hy
  obtain ⟨i, _, rfl⟩ := List.mem_map.mp hy
  exact mul_self_nonneg _

theorem solveUnit_leastSquares (b : List ℚ) :
    IsLeastSquares (Mat.identity 1) b (solveUnit (Mat.identity 1) b) := by
  refine ⟨rfl, fun y _ => ?_⟩
  have h0 : residualSq (Mat.identity 1) (solveUnit (Mat.identity 1) b) b = 0 := by
    simp [residualSq, solveUnit, Mat.identity, Mat.mulVec, List.range_succ]
  rw [h0]
  exact residualSq_nonneg _ _ _

/-- Witness for C8: a two-voxel image of value 5 whose mask holds one voxel of
value 1, radius 0 and the basis `(1)`: the coefficient matrix is `1 × 1` and
holds 5. -/
theorem C8_coefficient_matrix_witness :
    (ProjectOnEigenPatches solveUnit
      (ExtractAllPatches constantInputs filterUnitBasis)).m_EigenvectorCoefficients.rows = 1 ∧
    (ProjectOnEigenPatches solveUnit
      (ExtractAllPatches constantInputs filterUnitBasis)).m_EigenvectorCoefficients.cols = 1 ∧
    (ProjectOnEigenPatches solveUnit
      (ExtractAllPatches constantInputs filterUnitBasis)).m_EigenvectorCoefficients.get_column 0
      = [5] := by
  have h := C8_coefficient_matrix solveUnit constantInputs filterUnitBasis
    solveUnit_leastSquares
  have hc : (regionIndices constantInputs.mask.region).countP
      (fun idx => decide (1 ≤ constantInputs.mask.pixel idx)) = 1 := by
    simp [constantInputs, halfMask, regionIndices, Image.region, List.range_succ,
      List.countP_cons]
  rw [hc] at h
  refine ⟨h.1, h.2.1, ?_⟩
  rw [(h.2.2 0 (by rw [h.2.1]; decide)).1,
    (ExtractAllPatches_matrix constantInputs filterUnitBasis).2.2.2 0 (by
      simp [nonZeroMaskIndices, constantInputs, halfMask, regionIndices, Image.region,
        List.range_succ])]
  simp [solveUnit, storedPatch, filterUnitBasis, Filter.new, patchAt, constantInputs]

/-! ## Achieved variance as a function of the component count -/

theorem castUnsignedInt_natCast (n : Nat) (hn : n < 4294967296) :
    castUnsignedInt (n : ℚ) = n := by
  unfold castUnsignedInt
  rw [Nat.floor_natCast, Nat.mod_eq_of_lt hn]

theorem natCast_not_lt_one (n : Nat) (hn : 1 ≤ n) : ¬ ((n : ℚ) < 1) := by
  have : (1 : ℚ) ≤ (n : ℚ) := by exact_mod_cast hn
  exact not_lt.mpr this

/-- The achieved variance for a component count `n`: the cumulative fraction of
`min n R` singular values. -/
theorem achieved_of_count (vnl_svd : Mat → SVD) (f : Filter) (n : Nat) (h1 : 1 ≤ n)
    (hn : n < 4294967296) :
    (LearnEigenPatches vnl_svd (withComponentCount f n)).m_AchievedVarianceExplained
      = cumulativeFraction (vnl_svd f.m_vectorizedSamplePatchMatrix)
          (min n (vnl_svd f.m_vectorizedSamplePatchMatrix).rank) := by
  have ht : ¬ (withComponentCount f n).m_TargetVarianceExplained < 1 := natCast_not_lt_one n h1
  rw [LearnEigenPatches_count vnl_svd _ ht]
  have hs : (withComponentCount f n).m_vectorizedSamplePatchMatrix
      = f.m_vectorizedSamplePatchMatrix := rfl
  have hc : castUnsignedInt (withComponentCount f n).m_TargetVarianceExplained = n :=
    castUnsignedInt_natCast n hn
  rw [hs, hc]
  obtain ⟨_, _, h3, h4⟩ :=
    countLoop_spec (vnl_svd f.m_vectorizedSamplePatchMatrix)
      (sumOfEigenvalues (vnl_svd f.m_vectorizedSamplePatchMatrix)) n
      (vnl_svd f.m_vectorizedSamplePatchMatrix).rank
      { partialSumOfEigenvalues := 0, percentVarianceExplained := 0, i := 0 }
      (by simp) (by simp) (Nat.zero_le _)
  simp only
  rcases Nat.eq_zero_or_pos (min n (vnl_svd f.m_vectorizedSamplePatchMatrix).rank) with h0 | hpos
  · rw [h4 h0.symm, h0]
    simp [cumulativeFraction]
  · rw [h3 hpos, cumulativeFraction, sumOfEigenvalues_eq]

theorem cumulativeFraction_mono (svd : SVD) (hnonneg : ∀ i, i < svd.rank → 0 ≤ svd.W i)
    (htotal : 0 < ∑ i in Finset.range svd.rank, svd.W i) (k1 k2 : Nat) (h12 : k1 ≤ k2)
    (h2 : k2 ≤ svd.rank) :
    0 ≤ cumulativeFraction svd k1 ∧ cumulativeFraction svd k1 ≤ cumulativeFraction svd k2 ∧
      cumulativeFraction svd k2 ≤ 1 := by
  have hsub : ∀ a b, a ≤ b → b ≤ svd.rank →
      ∑ i in Finset.range a, svd.W i ≤ ∑ i in Finset.range b, svd.W i := by
    intro a b hab hb
    apply Finset.sum_le_sum_of_subset_of_nonneg
    · intro x hx
      exact Finset.mem_range.mpr (lt_of_lt_of_le (Finset.mem_range.mp hx) hab)
    · intro i hi _
      exact hnonneg i (lt_of_lt_of_le (Finset.mem_range.mp hi) hb)
  have h0 : 0 ≤ ∑ i in Finset.range k1, svd.W i := by
    apply Finset.sum_nonneg
    intro i hi
    exact hnonneg i (by have := Finset.mem_range.mp hi; omega)
  unfold cumulativeFraction
  refine ⟨div_nonneg h0 (le_of_lt htotal), ?_, ?_⟩
  · exact div_le_div_of_nonneg_right (hsub k1 k2 h12 h2) (le_of_lt htotal)
  · rw [div_le_one htotal]
    exact hsub k2 svd.rank h2 (le_refl _)

/-- C11. For a fixed sample matrix whose singular values up to the rank are
non-negative with positive sum (rank at least 1), the achieved variance reported
by `LearnEigenPatches` for a component count `n1` is at most that for a count
`n2 >= n1 >= 1`, and both lie between 0 and 1. -/
theorem C11_achieved_variance_monotone (vnl_svd : Mat → SVD) (f : Filter) (n1 n2 : Nat)
    (h1 : 1 ≤ n1) (h12 : n1 ≤ n2) (h2 : n2 < 4294967296)
    (hnonneg : ∀ i, i < (vnl_svd f.m_vectorizedSamplePatchMatrix).rank →
      0 ≤ (vnl_svd f.m_vectorizedSamplePatchMatrix).W i)
    (htotal : 0 < ∑ i in Finset.range (vnl_svd f.m_vectorizedSamplePatchMatrix).rank,
      (vnl_svd f.m_vectorizedSamplePatchMatrix).W i) :
    (LearnEigenPatches vnl_svd (withComponentCount f n1)).m_AchievedVarianceExplained
      ≤ (LearnEigenPatches vnl_svd (withComponentCount f n2)).m_AchievedVarianceExplained ∧
    0 ≤ (LearnEigenPatches vnl_svd (withComponentCount f n1)).m_AchievedVarianceExplained ∧
    (LearnEigenPatches vnl_svd (withComponentCount f n1)).m_AchievedVarianceExplained ≤ 1 ∧
    0 ≤ (LearnEigenPatches vnl_svd (withComponentCount f n2)).m_AchievedVarianceExplained ∧
    (LearnEigenPatches vnl_svd (withComponentCount f n2)).m_AchievedVarianceExplained ≤ 1 := by
  rw [achieved_of_count vnl_svd f n1 h1 (by omega),
    achieved_of_count vnl_svd f n2 (by omega) h2]
  have hm := cumulativeFraction_mono (vnl_svd f.m_vectorizedSamplePatchMatrix) hnonneg htotal
    (min n1 (vnl_svd f.m_vectorizedSamplePatchMatrix).rank)
    (min n2 (vnl_svd f.m_vectorizedSamplePatchMatrix).rank) (by omega) (by omega)
  exact ⟨hm.2.1, hm.1, le_trans hm.2.1 hm.2.2, le_trans hm.1 hm.2.1, hm.2.2⟩

/-- Witness for C11: singular values 3 and 1, counts 1 and 2: the achieved
variances are 3/4 and 1. -/
theorem C11_achieved_variance_monotone_witness :
    (LearnEigenPatches (fun _ => svdThreeOne)
        (withComponentCount filterThreeOne 1)).m_AchievedVarianceExplained
      ≤ (LearnEigenPatches (fun _ => svdThreeOne)
        (withComponentCount filterThreeOne 2)).m_AchievedVarianceExplained ∧
    (LearnEigenPatches (fun _ => svdThreeOne)
        (withComponentCount filterThreeOne 1)).m_AchievedVarianceExplained = 3 / 4 ∧
    (LearnEigenPatches (fun _ => svdThreeOne)
        (withComponentCount filterThreeOne 2)).m_AchievedVarianceExplained = 1 := by
  have h := C11_achieved_variance_monotone (fun _ => svdThreeOne) filterThreeOne 1 2
    (by decide) (by decide) (by decide)
    (by
      intro i hi
      have hi2 : i < 2 := hi
      interval_cases i <;> simp [svdThreeOne])
    (by norm_num [svdThreeOne, Finset.sum_range_succ])
  refine ⟨h.1, ?_, ?_⟩
  · rw [achieved_of_count _ _ 1 (by decide) (by decide)]
    norm_num [cumulativeFraction, svdThreeOne, Finset.sum_range_succ]
  · rw [achieved_of_count _ _ 2 (by decide) (by decide)]
    norm_num [cumulativeFraction, svdThreeOne, Finset.sum_range_succ]

/-! ## Running ExtractSamplePatches again -/

theorem sphereIndexLoop_snd (r d : Nat) (st : List Nat × List ℚ) :
    (sphereIndexLoop r d st).2 = st.2 ++ (sphereIndexLoop r d ([], [])).2 := by
  unfold sphereIndexLoop
  rw [foldl_sphereStep, foldl_sphereStep]
  simp

/-- A second run of `ExtractSamplePatches` appends the sphere offsets and their
weights once more to the lists the first run left. -/
theorem ExtractSamplePatches_twice (inp : Inputs) (f : Filter) :
    (ExtractSamplePatches inp (ExtractSamplePatches inp f)).m_IndicesWithinSphere
      = (ExtractSamplePatches inp f).m_IndicesWithinSphere
          ++ (sphereIndexLoop f.m_PatchRadius f.ImageDimension ([], [])).1 ∧
    (ExtractSamplePatches inp (ExtractSamplePatches inp f)).m_weights
      = (ExtractSamplePatches inp f).m_weights
          ++ (sphereIndexLoop f.m_PatchRadius f.ImageDimension ([], [])).2 ∧
    (ExtractSamplePatches inp (ExtractSamplePatches inp f)).m_IndicesWithinSphere
      ≠ (ExtractSamplePatches inp f).m_IndicesWithinSphere := by
  have h1 : (ExtractSamplePatches inp (ExtractSamplePatches inp f)).m_IndicesWithinSphere
      = (ExtractSamplePatches inp f).m_IndicesWithinSphere
          ++ (sphereIndexLoop f.m_PatchRadius f.ImageDimension ([], [])).1 :=
    sphereIndexLoop_fst f.m_PatchRadius f.ImageDimension _
  refine ⟨h1, sphereIndexLoop_snd f.m_PatchRadius f.ImageDimension _, ?_⟩
  rw [h1]
  intro he
  have hlen := congrArg List.length he
  rw [List.length_append] at hlen
  have hne := sphereIndexLoop_ne_nil f.m_PatchRadius f.ImageDimension ([], [])
  have : (sphereIndexLoop f.m_PatchRadius f.ImageDimension ([], [])).1.length ≠ 0 :=
    fun h0 => hne (List.length_eq_zero.mp h0)
  omega

/-- C12 (evaluation). On the ramp image with radius 1 in one dimension the first
run of `ExtractSamplePatches` leaves the sphere-offset list `(0, 1, 2)` with
three weights; a second run on that state leaves `(0, 1, 2, 0, 1, 2)` with six
weights: the lists are appended to, not recomputed. -/
theorem C12_second_run_appends :
    (ExtractSamplePatches rampInputs filterRamp).m_IndicesWithinSphere = [0, 1, 2] ∧
    (ExtractSamplePatches rampInputs filterRamp).m_weights = [1, 1, 1] ∧
    (ExtractSamplePatches rampInputs
      (ExtractSamplePatches rampInputs filterRamp)).m_IndicesWithinSphere
      = [0, 1, 2, 0, 1, 2] ∧
    (ExtractSamplePatches rampInputs
      (ExtractSamplePatches rampInputs filterRamp)).m_weights = [1, 1, 1, 1, 1, 1] := by
  refine ⟨by decide, by rfl, by decide, by rfl⟩

/-! ## Entries of the all-patches matrix -/

theorem getD_get_column (M : Mat) (i j : Nat) (hj : j < M.rows) :
    (M.get_column i).getD j 0 = M.get j i := by
  simp [Mat.get_column, List.getD_eq_getElem?_getD, List.getElem?_map, List.getElem?_range hj]

theorem mem_nonZeroMaskIndices (mask : Image) (idx : List Int) :
    idx ∈ nonZeroMaskIndices mask ↔ idx ∈ regionIndices mask.region ∧ 1 ≤ mask.pixel idx := by
  simp [nonZeroMaskIndices, List.mem_filter]

theorem getD_mem_of_lt {α : Type} (l : List α) (i : Nat) (a : α) (hi : i < l.length) :
    l.getD i a ∈ l := by
  rw [List.getD_eq_getElem?_getD, List.getElem?_eq_getElem hi]
  exact List.getElem_mem hi

/-- C17. `ExtractAllPatches` produces a matrix with one row per sphere offset
and one column per mask voxel of value at least 1; the voxels of the columns are
the mask voxels of value at least 1 in the order of the mask's region scan (a
sublist of the scan: voxels of smaller value contribute no column); and, with
mean centering disabled, entry `(j, i)` is the input image's value at the `i`-th
such voxel displaced by the `j`-th sphere offset. -/
theorem C17_all_patches_matrix (inp : Inputs) (f : Filter)
    (hmc : f.m_MeanCenterPatches = false) :
    (ExtractAllPatches inp f).m_PatchesForAllPointsWithinMask.rows
      = f.m_IndicesWithinSphere.length ∧
    (ExtractAllPatches inp f).m_PatchesForAllPointsWithinMask.cols
      = (regionIndices inp.mask.region).countP (fun idx => decide (1 ≤ inp.mask.pixel idx)) ∧
    (ExtractAllPatches inp f).m_PatchesForAllPointsWithinMask.cols
      = (nonZeroMaskIndices inp.mask).length ∧
    List.Sublist (nonZeroMaskIndices inp.mask) (regionIndices inp.mask.region) ∧
    (∀ idx, idx ∈ nonZeroMaskIndices inp.mask ↔
      idx ∈ regionIndices inp.mask.region ∧ 1 ≤ inp.mask.pixel idx) ∧
    (nonZeroMaskIndices inp.mask).Nodup ∧
    ∀ i, i < (nonZeroMaskIndices inp.mask).length →
      1 ≤ inp.mask.pixel ((nonZeroMaskIndices inp.mask).getD i []) ∧
      ∀ j, j < f.m_IndicesWithinSphere.length →
        (ExtractAllPatches inp f).m_PatchesForAllPointsWithinMask.get j i
          = inp.input.pixel
              (GetIndex f.m_PatchRadius f.ImageDimension
                ((nonZeroMaskIndices inp.mask).getD i [])
                (f.m_IndicesWithinSphere.getD j 0)) := by
  obtain ⟨h1, h2, _, h4⟩ := ExtractAllPatches_matrix inp f
  refine ⟨h1, ?_, h2, ?_, mem_nonZeroMaskIndices inp.mask, ?_, fun i hi => ⟨?_, fun j hj => ?_⟩⟩
  · rw [h2, nonZeroMaskIndices, List.countP_eq_length_filter]
  · exact List.filter_sublist _
  · exact (regionIndices_nodup _).filter _
  · exact ((mem_nonZeroMaskIndices inp.mask _).mp (getD_mem_of_lt _ i [] hi)).2
  · rw [← getD_get_column _ i j (by rw [h1]; exact hj), h4 i hi, hmc]
    simp only [storedPatch, Bool.false_eq_true, if_false]
    exact getD_patchAt _ _ _ _ _ j hj

/-- Witness for C17: a two-voxel image of value 5 whose mask holds one voxel of
value 1, radius 0, mean centering off: the matrix is `1 × 1` and holds 5. -/
theorem C17_all_patches_matrix_witness :
    filterUnitBasis.m_MeanCenterPatches = false ∧
    (ExtractAllPatches constantInputs filterUnitBasis).m_PatchesForAllPointsWithinMask.rows
      = 1 ∧
    (ExtractAllPatches constantInputs filterUnitBasis).m_PatchesForAllPointsWithinMask.cols
      = 1 ∧
    (ExtractAllPatches constantInputs filterUnitBasis).m_PatchesForAllPointsWithinMask.get 0 0
      = 5 := by
  have h := C17_all_patches_matrix constantInputs filterUnitBasis rfl
  have hc : (nonZeroMaskIndices constantInputs.mask).length = 1 := by
    simp [nonZeroMaskIndices, constantInputs, halfMask, regionIndices, Image.region,
      List.range_succ]
  refine ⟨rfl, h.1, by rw [h.2.2.1, hc], ?_⟩
  rw [(h.2.2.2.2.2.2 0 (by rw [hc]; decide)).2 0 (by decide)]
  rfl

/-! ## The fixed matrix of the sign-correction branch -/

theorem sum_map_range (g : Nat → ℚ) (n : Nat) :
    ((List.range n).map g).sum = ∑ i in Finset.range n, g i := by
  induction n with
  | zero => simp
  | succ n ih => rw [List.range_succ, List.map_append, List.sum_append, ih,
      Finset.sum_range_succ]; simp

theorem toMatrix_mul (n : Nat) (A B : Mat) (hA : A.cols = n) :
    (A.mul B).toMatrix n = A.toMatrix n * B.toMatrix n := by
  ext i j
  simp only [Mat.toMatrix, Mat.mul, Matrix.of_apply, Matrix.mul_apply, hA]
  rw [sum_map_range, Finset.sum_range]

theorem det_rotationMat_two : ((rotationMat 2).toMatrix 2).det = 1 := by
  simp [Matrix.det_fin_two, rotationMat, Mat.toMatrix, Mat.ofRows]

theorem det_rotationMat_three : ((rotationMat 3).toMatrix 3).det = 1 := by
  simp [Matrix.det_fin_three, rotationMat, Mat.toMatrix, Mat.ofRows]

theorem orthogonal_rotationMat_two :
    (rotationMat 2).toMatrix 2 * ((rotationMat 2).toMatrix 2).transpose = 1 := by
  ext i j
  fin_cases i <;> fin_cases j <;>
    simp [Matrix.mul_apply, Fin.sum_univ_two, rotationMat, Mat.toMatrix, Mat.ofRows]

theorem orthogonal_rotationMat_three :
    (rotationMat 3).toMatrix 3 * ((rotationMat 3).toMatrix 3).transpose = 1 := by
  ext i j
  fin_cases i <;> fin_cases j <;>
    simp [Matrix.mul_apply, Fin.sum_univ_three, rotationMat, Mat.toMatrix, Mat.ofRows]

/-- C16, as amended. The fixed matrix by which the sign-correction branch
post-multiplies `Q`, `diag(-1, -1)` in two dimensions and `diag(1, -1, -1)` in
three, is a proper rotation (a half turn): it is orthogonal and has determinant
`+1`, so that the corrected `Q` has the same determinant as the uncorrected
`Q`. -/
theorem C16_rotationMat_is_half_turn :
    (rotationMat 2).toMatrix 2 * ((rotationMat 2).toMatrix 2).transpose = 1 ∧
    ((rotationMat 2).toMatrix 2).det = 1 ∧
    (∀ Q : Mat, Q.cols = 2 →
      ((Q.mul (rotationMat 2)).toMatrix 2).det = (Q.toMatrix 2).det) ∧
    (rotationMat 3).toMatrix 3 * ((rotationMat 3).toMatrix 3).transpose = 1 ∧
    ((rotationMat 3).toMatrix 3).det = 1 ∧
    (∀ Q : Mat, Q.cols = 3 →
      ((Q.mul (rotationMat 3)).toMatrix 3).det = (Q.toMatrix 3).det) := by
  refine ⟨orthogonal_rotationMat_two, det_rotationMat_two, fun Q hQ => ?_,
    orthogonal_rotationMat_three, det_rotationMat_three, fun Q hQ => ?_⟩
  · rw [toMatrix_mul 2 Q _ hQ, Matrix.det_mul, det_rotationMat_two, mul_one]
  · rw [toMatrix_mul 3 Q _ hQ, Matrix.det_mul, det_rotationMat_three, mul_one]

/-- Counterexample to C16 as stated: both fixed matrices have determinant `+1`,
not `-1`, and multiplying the identity by either leaves the determinant at
`+1`. -/
theorem C16_counterexample :
    ((rotationMat 2).toMatrix 2).det = 1 ∧
    ((rotationMat 3).toMatrix 3).det = 1 ∧
    ((rotationMat 2).toMatrix 2).det ≠ -1 ∧
    ((rotationMat 3).toMatrix 3).det ≠ -1 ∧
    (((Mat.identity 2).mul (rotationMat 2)).toMatrix 2).det = ((Mat.identity 2).toMatrix 2).det ∧
    (((Mat.identity 3).mul (rotationMat 3)).toMatrix 3).det
      = ((Mat.identity 3).toMatrix 3).det := by
  refine ⟨det_rotationMat_two, det_rotationMat_three, ?_, ?_, ?_, ?_⟩
  · rw [det_rotationMat_two]
    norm_num
  · rw [det_rotationMat_three]
    norm_num
  · rw [toMatrix_mul 2 _ _ rfl, Matrix.det_mul, det_rotationMat_two, mul_one]
  · rw [toMatrix_mul 3 _ _ rfl, Matrix.det_mul, det_rotationMat_three, mul_one]

/-! ## The resampling passes of ReorientPatchToReferenceFrame -/

/-- Without learning, a quantity that every stage other than `LearnEigenPatches`
leaves as it is reaches `ProjectOnEigenPatches`, and the end of `GenerateData`,
unchanged. -/
theorem GenerateData_frame {σ β : Type} (S : Stages σ) (proj : σ → β)
    (h1 : ∀ s t, S.GetSamplePatchLocations s = some t → proj t = proj s)
    (h2 : ∀ s t, S.ExtractSamplePatches s = some t → proj t = proj s)
    (h3 : ∀ s t, S.ExtractAllPatches s = some t → proj t = proj s)
    (h4 : ∀ s t, S.ReorientSamplePatches s = some t → proj t = proj s)
    (h5 : ∀ s t, S.ReorientAllPatches s = some t → proj t = proj s)
    (h6 : ∀ s t, S.ProjectOnEigenPatches s = some t → proj t = proj s)
    (h7 : ∀ s t, S.SetNthOutput s = some t → proj t = proj s)
    (meanCenter rotInv : Bool) (s : σ) :
    (∀ s7, beforeProjection S meanCenter false rotInv s = some s7 → proj s7 = proj s) ∧
    (∀ g, GenerateData S meanCenter false rotInv s = some g → proj g = proj s) := by
  have hbefore : ∀ s7, beforeProjection S meanCenter false rotInv s = some s7 →
      proj s7 = proj s := by
    intro s7 h
    simp only [beforeProjection, learnAndFrame, Bool.false_eq_true, if_false,
      Option.bind_eq_some, Option.some_bind] at h
    obtain ⟨s1, e1, s2, e2, s4, e4, h⟩ := h
    have p4 : proj s4 = proj s := by
      rw [h3 _ _ e4, h2 _ _ e2, h1 _ _ e1]
    cases rotInv with
    | false =>
      simp only [Bool.false_eq_true, if_false, Option.some.injEq] at h
      rw [← h, p4]
    | true =>
      simp only [if_true, Option.bind_eq_some] at h
      obtain ⟨s5, e5, s6, e6, h⟩ := h
      simp only [Option.some.injEq] at h
      rw [← h, h5 _ _ e6, h4 _ _ e5, p4]
  refine ⟨hbefore, fun g hg => ?_⟩
  have hsplit : GenerateData S meanCenter false rotInv s
      = (beforeProjection S meanCenter false rotInv s).bind
          (fun s7 => (S.ProjectOnEigenPatches s7).bind S.SetNthOutput) := by
    simp only [GenerateData, beforeProjection, Option.bind_assoc]
  rw [hsplit] at hg
  simp only [Option.bind_eq_some] at hg
  obtain ⟨s7, e7, s8, e8, e9⟩ := hg
  rw [h7 _ _ e9, h6 _ _ e8, hbefore s7 e7]

theorem filterStages_basis (c : Collaborators) (inp : Inputs) (fuel : Nat) :
    (∀ s t, (filterStages c inp fuel).GetSamplePatchLocations s = some t →
      t.m_SignificantPatchEigenvectors = s.m_SignificantPatchEigenvectors) ∧
    (∀ s t, (filterStages c inp fuel).ExtractSamplePatches s = some t →
      t.m_SignificantPatchEigenvectors = s.m_SignificantPatchEigenvectors) ∧
    (∀ s t, (filterStages c inp fuel).ExtractAllPatches s = some t →
      t.m_SignificantPatchEigenvectors = s.m_SignificantPatchEigenvectors) ∧
    (∀ s t, (filterStages c inp fuel).ReorientSamplePatches s = some t →
      t.m_SignificantPatchEigenvectors = s.m_SignificantPatchEigenvectors) ∧
    (∀ s t, (filterStages c inp fuel).ReorientAllPatches s = some t →
      t.m_SignificantPatchEigenvectors = s.m_SignificantPatchEigenvectors) ∧
    (∀ s t, (filterStages c inp fuel).ProjectOnEigenPatches s = some t →
      t.m_SignificantPatchEigenvectors = s.m_SignificantPatchEigenvectors) ∧
    (∀ s t, (filterStages c inp fuel).SetNthOutput s = some t →
      t.m_SignificantPatchEigenvectors = s.m_SignificantPatchEigenvectors) := by
  refine ⟨?_, ?_, ?_, ?_, ?_, ?_, ?_⟩
  · intro s t h
    simp only [filterStages, GetSamplePatchLocations, Option.map_map, Option.map_eq_some'] at h
    obtain ⟨st, _, rfl⟩ := h
    rfl
  · intro s t h
    simp only [filterStages, Option.some.injEq] at h
    rw [← h]
    rfl
  · intro s t h
    simp only [filterStages, Option.some.injEq] at h
    rw [← h]
    rfl
  · intro s t h
    simp only [filterStages, ReorientSamplePatches] at h
    cases hf : s.m_CanonicalFrame with
    | none => simp [hf] at h
    | some frame =>
      simp only [hf, Option.some.injEq] at h
      rw [← h]
  · intro s t h
    simp only [filterStages, ReorientAllPatches] at h
    cases hf : s.m_CanonicalFrame with
    | none => simp [hf] at h
    | some frame =>
      simp only [hf, Option.some.injEq] at h
      rw [← h]
  · intro s t h
    simp only [filterStages, Option.some.injEq] at h
    rw [← h]
    rfl
  · intro s t h
    simp only [filterStages, Option.some.injEq] at h
    rw [← h]

theorem calls_without_learning (meanCenter rotInv : Bool) (calls : List Call)
    (h : GenerateDataCalls meanCenter false rotInv = some calls) :
    Call.LearnEigenPatches ∉ calls := by
  cases meanCenter <;> cases rotInv <;>
    (simp only [GenerateDataCalls, GenerateData, learnAndFrame, recordCalls] at h
     simp at h
     rw [← h]
     decide)

/-- C14. When basis learning is not requested, for either setting of the
rotation-invariance flag, `GenerateData` never invokes `LearnEigenPatches` (no run
depends on the decomposition it would use, and it is absent from the calls
made), the eigenbasis matrix in the state `ProjectOnEigenPatches` starts from is
the matrix the caller supplied, and so is the one exposed when `GenerateData`
returns. -/
theorem C14_supplied_basis_used (c : Collaborators) (inp : Inputs) (fuel : Nat) (f : Filter)
    (hlearn : f.m_LearnPatchBasis = false) :
    (∀ s7, beforeProjection (filterStages c inp fuel) f.m_MeanCenterPatches
        f.m_LearnPatchBasis f.m_RotationInvariant f = some s7 →
      s7.m_SignificantPatchEigenvectors = f.m_SignificantPatchEigenvectors) ∧
    runGenerateData c inp fuel f
      = (beforeProjection (filterStages c inp fuel) f.m_MeanCenterPatches
          f.m_LearnPatchBasis f.m_RotationInvariant f).bind
          (fun s7 => some (ProjectOnEigenPatches c.solve s7)) ∧
    (∀ g, runGenerateData c inp fuel f = some g →
      g.m_SignificantPatchEigenvectors = f.m_SignificantPatchEigenvectors) ∧
    (∀ vnl_svd2 : Mat → SVD,
      runGenerateData { c with vnl_svd := vnl_svd2 } inp fuel f = runGenerateData c inp fuel f) ∧
    (∀ meanCenter rotInv calls, GenerateDataCalls meanCenter false rotInv = some calls →
      Call.LearnEigenPatches ∉ calls) := by
  obtain ⟨h1, h2, h3, h4, h5, h6, h7⟩ := filterStages_basis c inp fuel
  have hframe := GenerateData_frame (filterStages c inp fuel)
    (fun s => s.m_SignificantPatchEigenvectors) h1 h2 h3 h4 h5 h6 h7
    f.m_MeanCenterPatches f.m_RotationInvariant f
  refine ⟨?_, ?_, ?_, ?_, calls_without_learning⟩
  · rw [hlearn]
    exact hframe.1
  · simp only [runGenerateData, GenerateData, beforeProjection, Option.bind_assoc]
    rfl
  · unfold runGenerateData
    rw [hlearn]
    exact hframe.2
  · intro vnl_svd2
    unfold runGenerateData
    rw [hlearn]
    rfl

theorem run_suppliedBasis_isSome :
    (runGenerateData unitCollaborators constantInputs 1 filterSuppliedBasis).isSome = true := by
  simp [runGenerateData, GenerateData, filterStages, learnAndFrame, GetSamplePatchLocations,
    seedLoop, seedStart, seedStep, drawPatchSeed, filterSuppliedBasis, Filter.new,
    constantInputs, halfMask, unitCollaborators, List.range_succ]

theorem run_suppliedBasisInvariant_isSome :
    (runGenerateData unitCollaborators constantInputs 1
      filterSuppliedBasisInvariant).isSome = true := by
  simp [runGenerateData, GenerateData, filterStages, learnAndFrame, GetSamplePatchLocations,
    seedLoop, seedStart, seedStep, drawPatchSeed, filterSuppliedBasisInvariant,
    filterSuppliedBasis, Filter.new, constantInputs, halfMask, unitCollaborators,
    List.range_succ, ReorientSamplePatches, ReorientAllPatches, ExtractSamplePatches,
    ExtractAllPatches]

/-- Witness for C14: with the basis `(1)` supplied and learning off, the run on
the constant two-voxel image returns, with rotation invariance off and on, and
the eigenbasis it exposes is the supplied one. -/
theorem C14_supplied_basis_used_witness :
    filterSuppliedBasis.m_LearnPatchBasis = false ∧
    (∃ g, runGenerateData unitCollaborators constantInputs 1 filterSuppliedBasis = some g ∧
      g.m_SignificantPatchEigenvectors = filterSuppliedBasis.m_SignificantPatchEigenvectors) ∧
    (∃ g, runGenerateData unitCollaborators constantInputs 1 filterSuppliedBasisInvariant
        = some g ∧
      g.m_SignificantPatchEigenvectors
        = filterSuppliedBasisInvariant.m_SignificantPatchEigenvectors) := by
  obtain ⟨g, hg⟩ := Option.isSome_iff_exists.mp run_suppliedBasis_isSome
  obtain ⟨k, hk⟩ := Option.isSome_iff_exists.mp run_suppliedBasisInvariant_isSome
  exact ⟨rfl,
    ⟨g, hg, (C14_supplied_basis_used unitCollaborators constantInputs 1 filterSuppliedBasis
      rfl).2.2.1 g hg⟩,
    ⟨k, hk, (C14_supplied_basis_used unitCollaborators constantInputs 1
      filterSuppliedBasisInvariant rfl).2.2.1 k hk⟩⟩

/-! ## Painting a vector on the synthetic patch image -/

theorem foldl_SetPixel (g : Nat → List Int) (l : List Nat) (im : Image) :
    (l.foldl (fun im n => im.SetPixel (g n) 1) im).start = im.start ∧
    (l.foldl (fun im n => im.SetPixel (g n) 1) im).size = im.size ∧
    ∀ idx, (l.foldl (fun im n => im.SetPixel (g n) 1) im).pixel idx
      = if idx ∈ l.map g then 1 else im.pixel idx := by
  induction l generalizing im with
  | nil => simp
  | cons x l ih =>
    obtain ⟨h1, h2, h3⟩ := ih (im.SetPixel (g x) 1)
    rw [List.foldl_cons]
    refine ⟨h1, h2, fun idx => ?_⟩
    rw [h3]
    by_cases hm : idx ∈ l.map g
    · simp [hm]
    · by_cases he : idx = g x
      · simp [he, Image.SetPixel]
      · simp [hm, he, Image.SetPixel]

/-- The mask image built by `GenerateMaskImageFromPatch`: a cube of side
`2 r + 2 p + 1` starting at index 0, of value 1 exactly at the voxels
`center + offset` of the listed sphere offsets and 0 elsewhere. -/
theorem GenerateMaskImageFromPatch_spec (f : Filter) :
    (GenerateMaskImageFromPatch f).start = List.replicate f.ImageDimension 0 ∧
    (GenerateMaskImageFromPatch f).size
      = List.replicate f.ImageDimension (2 * f.m_PatchRadius + 2 * f.m_PaddingVoxels + 1) ∧
    ∀ idx, (GenerateMaskImageFromPatch f).pixel idx
      = if idx ∈ f.m_IndicesWithinSphere.map (sphereVoxel f) then 1 else 0 := by
  obtain ⟨h1, h2, h3⟩ := foldl_SetPixel (sphereVoxel f) f.m_IndicesWithinSphere
    { start := List.replicate f.ImageDimension 0,
      size := List.replicate f.ImageDimension (2 * f.m_PatchRadius + 2 * f.m_PaddingVoxels + 1),
      pixel := fun _ => 0 }
  exact ⟨h1, h2, h3⟩

/-- The mask scan of `ConvertVectorToSpatialImage` over a list of distinct
indices: the voxels where the mask is at least 0.5 receive the vector entries in
scan order; every other voxel is left as it was. -/
theorem foldl_paintStep (Vector : List ℚ) (m0 : Image) (L : List (List Int)) (hL : L.Nodup)
    (st : PaintLoop)
    (hinv : ∀ x, (1 / 2 ≤ st.Mask.pixel x) ↔ (1 / 2 ≤ m0.pixel x)) :
    (∀ k (hk : k < (L.filter (fun x => decide (1 / 2 ≤ m0.pixel x))).length),
      (L.foldl (paintStep Vector) st).VectorAsSpatialImage.pixel
          ((L.filter (fun x => decide (1 / 2 ≤ m0.pixel x)))[k])
        = Vector.getD (st.VectorIndex + k) 0) ∧
    ∀ x, x ∉ L.filter (fun x => decide (1 / 2 ≤ m0.pixel x)) →
      (L.foldl (paintStep Vector) st).VectorAsSpatialImage.pixel x
        = st.VectorAsSpatialImage.pixel x := by
  induction L generalizing st with
  | nil =>
    constructor
    · intro k hk
      simp at hk
    · intro x _
      rfl
  | cons y L ih =>
    have hy : y ∉ L := (List.nodup_cons.mp hL).1
    have hL2 : L.Nodup := (List.nodup_cons.mp hL).2
    rw [List.foldl_cons]
    by_cases hp : 1 / 2 ≤ m0.pixel y
    · have hp2 : 1 / 2 ≤ st.Mask.pixel y := (hinv y).mpr hp
      have hstep : paintStep Vector st y =
          { st with
            VectorAsSpatialImage := st.VectorAsSpatialImage.SetPixel y
              (if st.VectorIndex < Vector.length then Vector.getD st.VectorIndex 0 else 0),
            VectorIndex := st.VectorIndex + 1 } := by
        simp only [paintStep, if_pos hp2]
      obtain ⟨h1, h2⟩ := ih hL2 (paintStep Vector st y) (by rw [hstep]; exact hinv)
      have hfilter : (y :: L).filter (fun x => decide (1 / 2 ≤ m0.pixel x))
          = y :: L.filter (fun x => decide (1 / 2 ≤ m0.pixel x)) :=
        List.filter_cons_of_pos (decide_eq_true hp)
      have hnot : y ∉ L.filter (fun x => decide (1 / 2 ≤ m0.pixel x)) :=
        fun hm => hy (List.mem_filter.mp hm).1
      have hval : (if st.VectorIndex < Vector.length then Vector.getD st.VectorIndex 0 else 0)
          = Vector.getD st.VectorIndex 0 := by
        by_cases hlt : st.VectorIndex < Vector.length
        · rw [if_pos hlt]
        · rw [if_neg hlt, List.getD_eq_getElem?_getD, List.getElem?_eq_none (by omega)]
          rfl
      constructor
      · intro k hk
        simp only [hfilter] at hk ⊢
        cases k with
        | zero =>
          simp only [List.getElem_cons_zero, add_zero]
          rw [h2 y hnot, hstep]
          simp only [Image.SetPixel, if_true]
          exact hval
        | succ k =>
          simp only [List.getElem_cons_succ]
          rw [h1 k (by simpa using hk), hstep]
          simp only
          congr 1
          omega
      · intro x hx
        rw [hfilter] at hx
        have hxy : x ≠ y := fun e => hx (e ▸ List.mem_cons_self _ _)
        have hx2 : x ∉ L.filter (fun x => decide (1 / 2 ≤ m0.pixel x)) :=
          fun hm => hx (List.mem_cons_of_mem _ hm)
        rw [h2 x hx2, hstep]
        simp [Image.SetPixel, hxy]
    · have hp2 : ¬ 1 / 2 ≤ st.Mask.pixel y := fun h => hp ((hinv y).mp h)
      have hstep : paintStep Vector st y = { st with Mask := st.Mask.SetPixel y 0 } := by
        simp only [paintStep, if_neg hp2]
      obtain ⟨h1, h2⟩ := ih hL2 (paintStep Vector st y) (by
        rw [hstep]
        intro x
        simp only [Image.SetPixel]
        by_cases hx : x = y
        · subst hx
          simp only [if_true]
          constructor
          · intro h
            norm_num at h
          · intro h
            exact absurd h hp
        · simp only [hx, if_false]
          exact hinv x)
      have hfilter : (y :: L).filter (fun x => decide (1 / 2 ≤ m0.pixel x))
          = L.filter (fun x => decide (1 / 2 ≤ m0.pixel x)) :=
        List.filter_cons_of_neg (by simp only [decide_eq_true_eq]; exact hp)
      constructor
      · intro k hk
        simp only [hfilter] at hk ⊢
        rw [h1 k hk, hstep]
      · intro x hx
        rw [hfilter] at hx
        rw [h2 x hx, hstep]

/-! ## The raster scan of the synthetic patch image -/

theorem mem_regionIndices_cube (S d : Nat) (idx : List Int) :
    idx ∈ regionIndices (List.replicate d ((0 : Int), S)) ↔
      idx.length = d ∧ ∀ x ∈ idx, 0 ≤ x ∧ x < (S : Int) := by
  induction d generalizing idx with
  | zero =>
    simp only [List.replicate_zero, regionIndices, List.mem_singleton]
    constructor
    · rintro rfl
      simp
    · rintro ⟨h, _⟩
      exact List.length_eq_zero.mp h
  | succ d ih =>
    simp only [List.replicate_succ, regionIndices, List.mem_flatMap, List.mem_map,
      List.mem_range, zero_add]
    constructor
    · rintro ⟨tl, htl, x, hx, rfl⟩
      obtain ⟨h1, h2⟩ := (ih tl).mp htl
      refine ⟨by simp [h1], fun y hy => ?_⟩
      rcases List.mem_cons.mp hy with rfl | hy
      · exact ⟨Int.ofNat_nonneg x, by exact_mod_cast hx⟩
      · exact h2 y hy
    · rintro ⟨hlen, hall⟩
      cases idx with
      | nil => simp at hlen
      | cons y tl =>
        have hy := hall y (List.mem_cons_self _ _)
        refine ⟨tl, (ih tl).mpr ⟨by simpa using hlen, fun z hz =>
          hall z (List.mem_cons_of_mem _ hz)⟩, y.toNat, ?_, ?_⟩
        · have : (y.toNat : Int) = y := Int.toNat_of_nonneg hy.1
          omega
        · rw [Int.toNat_of_nonneg hy.1]

theorem pairwise_rasterKey_cube (S d : Nat) :
    List.Pairwise (fun a b => rasterKey S a < rasterKey S b)
      (regionIndices (List.replicate d ((0 : Int), S))) := by
  induction d with
  | zero => simp [regionIndices]
  | succ d ih =>
    simp only [List.replicate_succ, regionIndices, zero_add]
    rw [List.pairwise_flatMap]
    constructor
    · intro tl _
      rw [List.pairwise_map]
      apply List.Pairwise.imp _ (List.pairwise_lt_range S)
      intro a b hab
      simp only [rasterKey]
      have : (a : Int) < (b : Int) := by exact_mod_cast hab
      omega
    · apply List.Pairwise.imp _ ih
      intro tl tl2 hlt x hx y hy
      obtain ⟨a, ha, rfl⟩ := List.mem_map.mp hx
      obtain ⟨b, _, rfl⟩ := List.mem_map.mp hy
      simp only [rasterKey]
      have ha2 : (a : Int) < (S : Int) := by exact_mod_cast List.mem_range.mp ha
      have hb2 : (0 : Int) ≤ (b : Int) := Int.ofNat_nonneg b
      have hS : (0 : Int) ≤ (S : Int) := Int.ofNat_nonneg S
      nlinarith

theorem getD_replicate_succ (c0 : Int) (d jj : Nat) :
    (List.replicate (d + 1) c0).getD (jj + 1) 0 = (List.replicate d c0).getD jj 0 := by
  simp [List.replicate_succ]

theorem GetIndex_replicate_succ (r d n : Nat) (c0 : Int) :
    GetIndex r (d + 1) (List.replicate (d + 1) c0) n
      = (c0 + offsetComponent r n 0)
          :: GetIndex r d (List.replicate d c0) (n / (2 * r + 1)) := by
  unfold GetIndex
  rw [List.range_succ_eq_map, List.map_cons, List.map_map]
  congr 1
  apply List.map_congr_left
  intro jj _
  simp only [Function.comp, Nat.succ_eq_add_one]
  rw [getD_replicate_succ, offsetComponent_succ]

theorem GetIndex_replicate_mem_cube (r p d n : Nat) :
    GetIndex r d (List.replicate d ((p + r : Nat) : Int)) n
      ∈ regionIndices (List.replicate d ((0 : Int), 2 * r + 2 * p + 1)) := by
  induction d generalizing n with
  | zero => simp [GetIndex, regionIndices]
  | succ d ih =>
    rw [GetIndex_replicate_succ, mem_regionIndices_cube]
    have h := (mem_regionIndices_cube (2 * r + 2 * p + 1) d _).mp (ih (n / (2 * r + 1)))
    refine ⟨by rw [List.length_cons, h.1], fun x hx => ?_⟩
    rcases List.mem_cons.mp hx with rfl | hx
    · rw [offsetComponent_zero]
      have hm : n % (2 * r + 1) < 2 * r + 1 := Nat.mod_lt _ (by omega)
      generalize n % (2 * r + 1) = m at hm
      omega
    · exact h.2 x hx

theorem rasterKey_GetIndex_lt (r p d : Nat) (n n2 : Nat) (hlt : n < n2)
    (hn2 : n2 < (2 * r + 1) ^ d) :
    rasterKey (2 * r + 2 * p + 1) (GetIndex r d (List.replicate d ((p + r : Nat) : Int)) n)
      < rasterKey (2 * r + 2 * p + 1)
          (GetIndex r d (List.replicate d ((p + r : Nat) : Int)) n2) := by
  induction d generalizing n n2 with
  | zero =>
    simp only [pow_zero, Nat.lt_one_iff] at hn2
    omega
  | succ d ih =>
    rw [GetIndex_replicate_succ, GetIndex_replicate_succ]
    simp only [rasterKey, offsetComponent_zero]
    have hB : 0 < 2 * r + 1 := by omega
    have hm1 : n % (2 * r + 1) < 2 * r + 1 := Nat.mod_lt _ hB
    have hm2 : n2 % (2 * r + 1) < 2 * r + 1 := Nat.mod_lt _ hB
    have hd1 := Nat.mod_add_div n (2 * r + 1)
    have hd2 := Nat.mod_add_div n2 (2 * r + 1)
    have hle : n / (2 * r + 1) ≤ n2 / (2 * r + 1) := Nat.div_le_div_right (le_of_lt hlt)
    rcases Nat.lt_or_ge (n / (2 * r + 1)) (n2 / (2 * r + 1)) with hq | hq
    · have hq2 : n2 / (2 * r + 1) < (2 * r + 1) ^ d := by
        apply Nat.div_lt_of_lt_mul
        rw [pow_succ] at hn2
        rwa [mul_comm]
      have hk := ih (n / (2 * r + 1)) (n2 / (2 * r + 1)) hq hq2
      generalize rasterKey (2 * r + 2 * p + 1)
        (GetIndex r d (List.replicate d ((p + r : Nat) : Int)) (n / (2 * r + 1))) = K1 at hk
      generalize rasterKey (2 * r + 2 * p + 1)
        (GetIndex r d (List.replicate d ((p + r : Nat) : Int)) (n2 / (2 * r + 1))) = K2 at hk
      generalize n % (2 * r + 1) = m1 at hm1
      generalize n2 % (2 * r + 1) = m2 at hm2
      have h1 : (m1 : Int) < 2 * (r : Int) + 1 := by exact_mod_cast hm1
      have h2 : (0 : Int) ≤ (m2 : Int) := Int.ofNat_nonneg _
      have hp : (0 : Int) ≤ (p : Int) := Int.ofNat_nonneg p
      have hr : (0 : Int) ≤ (r : Int) := Int.ofNat_nonneg r
      have hS : (0 : Int) ≤ 2 * (r : Int) + 2 * (p : Int) + 1 := by linarith
      have hK : (0 : Int) ≤ K2 - (K1 + 1) := by linarith
      push_cast
      nlinarith [mul_nonneg hS hK]
    · have heq : n / (2 * r + 1) = n2 / (2 * r + 1) := by omega
      rw [heq]
      have hmod : n % (2 * r + 1) < n2 % (2 * r + 1) := by
        rw [heq] at hd1
        omega
      generalize n % (2 * r + 1) = m1 at hmod
      generalize n2 % (2 * r + 1) = m2 at hmod
      omega

theorem sphereIndexLoop_empty_fst (r d : Nat) :
    (sphereIndexLoop r d ([], [])).1
      = (List.range (neighborhoodSize r d)).filter
          (fun ii => withinSphere r (sumSquares (GetOffset r d ii))) := by
  unfold sphereIndexLoop
  rw [foldl_sphereStep]
  simp

theorem pairwise_rasterKey_sphere (r p d : Nat) :
    List.Pairwise
      (fun a b => rasterKey (2 * r + 2 * p + 1) a < rasterKey (2 * r + 2 * p + 1) b)
      (((sphereIndexLoop r d ([], [])).1).map
        (fun n => GetIndex r d (List.replicate d ((p + r : Nat) : Int)) n)) := by
  rw [sphereIndexLoop_empty_fst, List.pairwise_map]
  apply List.Pairwise.filter
  have hrange : List.Pairwise (fun a b : Nat => a < b ∧ b < (2 * r + 1) ^ d)
      (List.range (neighborhoodSize r d)) := by
    have h1 : List.Pairwise (fun a b : Nat => a < b) (List.range (neighborhoodSize r d)) :=
      List.pairwise_lt_range _
    rw [List.pairwise_iff_getElem] at h1 ⊢
    intro i j hi hj hij
    refine ⟨h1 i j hi hj hij, ?_⟩
    rw [List.getElem_range]
    rw [List.length_range] at hj
    exact hj
  exact hrange.imp (fun h => rasterKey_GetIndex_lt r p d _ _ h.1 h.2)

/-- The raster scan of the cube of side `2r + 2p + 1`, kept where an index is one
of the sphere voxels around the center, is the list of sphere voxels in the order
of the sphere-offset list. -/
theorem scan_filter_sphere (r p d : Nat) (P : List Int → Bool)
    (hP : ∀ x, P x = true ↔
      x ∈ ((sphereIndexLoop r d ([], [])).1).map
        (fun n => GetIndex r d (List.replicate d ((p + r : Nat) : Int)) n)) :
    (regionIndices (List.replicate d ((0 : Int), 2 * r + 2 * p + 1))).filter P
      = ((sphereIndexLoop r d ([], [])).1).map
        (fun n => GetIndex r d (List.replicate d ((p + r : Nat) : Int)) n) := by
  have hM := pairwise_rasterKey_sphere r p d
  have hL : List.Pairwise
      (fun a b => rasterKey (2 * r + 2 * p + 1) a < rasterKey (2 * r + 2 * p + 1) b)
      ((regionIndices (List.replicate d ((0 : Int), 2 * r + 2 * p + 1))).filter P) :=
    (pairwise_rasterKey_cube (2 * r + 2 * p + 1) d).filter P
  haveI : IsAntisymm (List Int)
      (fun a b => rasterKey (2 * r + 2 * p + 1) a < rasterKey (2 * r + 2 * p + 1) b) :=
    ⟨fun a b h1 h2 => absurd h1 (not_lt_of_gt h2)⟩
  apply List.eq_of_perm_of_sorted ?_ hL hM
  rw [List.perm_ext_iff_of_nodup]
  · intro x
    rw [List.mem_filter, hP]
    constructor
    · exact fun h => h.2
    · intro h
      refine ⟨?_, h⟩
      obtain ⟨n, _, rfl⟩ := List.mem_map.mp h
      exact GetIndex_replicate_mem_cube r p d n
  · exact hL.imp (fun h => fun he => by rw [he] at h; exact lt_irrefl _ h)
  · exact hM.imp (fun h => fun he => by rw [he] at h; exact lt_irrefl _ h)

theorem mask_scan_eq (f : Filter)
    (hsph : f.m_IndicesWithinSphere
      = (sphereIndexLoop f.m_PatchRadius f.ImageDimension ([], [])).1) :
    (regionIndices (GenerateMaskImageFromPatch f).region).filter
        (fun x => decide (1 / 2 ≤ (GenerateMaskImageFromPatch f).pixel x))
      = f.m_IndicesWithinSphere.map (sphereVoxel f) := by
  obtain ⟨h1, h2, h3⟩ := GenerateMaskImageFromPatch_spec f
  have hreg : (GenerateMaskImageFromPatch f).region
      = List.replicate f.ImageDimension
          ((0 : Int), 2 * f.m_PatchRadius + 2 * f.m_PaddingVoxels + 1) := by
    unfold Image.region
    rw [h1, h2, List.zip_replicate, min_self]
  rw [hreg]
  have hmap : f.m_IndicesWithinSphere.map (sphereVoxel f)
      = ((sphereIndexLoop f.m_PatchRadius f.ImageDimension ([], [])).1).map
        (fun n => GetIndex f.m_PatchRadius f.ImageDimension
          (List.replicate f.ImageDimension
            ((f.m_PaddingVoxels + f.m_PatchRadius : Nat) : Int)) n) := by
    rw [← hsph]
    rfl
  rw [hmap]
  apply scan_filter_sphere
  intro x
  rw [← hmap, decide_eq_true_eq, h3]
  by_cases hx : x ∈ f.m_IndicesWithinSphere.map (sphereVoxel f)
  · simp only [if_pos hx, hx, iff_true]
    norm_num
  · simp only [if_neg hx, hx, iff_false]
    norm_num

/-- C18: round trip through the synthetic patch image. With the sphere-offset
list as the sphere computation leaves it, the mask built by
`GenerateMaskImageFromPatch` is a cube of side `2r + 2p + 1` starting at index 0
that holds 1 exactly at the sphere voxels around its center and 0 elsewhere; the
raster scan of the mask meets the voxels of value at least 0.5 in the order of
the sphere-offset list; and for a vector `v` with one entry per sphere offset,
reading the image painted by `ConvertVectorToSpatialImage` through a
neighborhood located at the center gives `v[j]` at the `j`-th sphere offset,
every voxel that is not a sphere voxel holding 0. -/
theorem C18_round_trip (f : Filter) (v : List ℚ)
    (hsph : f.m_IndicesWithinSphere
      = (sphereIndexLoop f.m_PatchRadius f.ImageDimension ([], [])).1)
    (hv : v.length = f.m_IndicesWithinSphere.length) :
    ((GenerateMaskImageFromPatch f).start = List.replicate f.ImageDimension 0 ∧
      (GenerateMaskImageFromPatch f).size
        = List.replicate f.ImageDimension (2 * f.m_PatchRadius + 2 * f.m_PaddingVoxels + 1) ∧
      ∀ idx, (GenerateMaskImageFromPatch f).pixel idx
        = if idx ∈ f.m_IndicesWithinSphere.map (sphereVoxel f) then 1 else 0) ∧
    (regionIndices (GenerateMaskImageFromPatch f).region).filter
        (fun x => decide (1 / 2 ≤ (GenerateMaskImageFromPatch f).pixel x))
      = f.m_IndicesWithinSphere.map (sphereVoxel f) ∧
    (∀ j, j < f.m_IndicesWithinSphere.length →
      (neighborhoodAt f.m_PatchRadius f.ImageDimension
          (ConvertVectorToSpatialImage v (GenerateMaskImageFromPatch f))
          (beginningOfSphereRegion f)).GetPixel (f.m_IndicesWithinSphere.getD j 0)
        = v.getD j 0) ∧
    patchAt f.m_PatchRadius f.ImageDimension
        (ConvertVectorToSpatialImage v (GenerateMaskImageFromPatch f))
        f.m_IndicesWithinSphere (beginningOfSphereRegion f) = v ∧
    ∀ idx, idx ∉ f.m_IndicesWithinSphere.map (sphereVoxel f) →
      (ConvertVectorToSpatialImage v (GenerateMaskImageFromPatch f)).pixel idx = 0 := by
  have hscan := mask_scan_eq f hsph
  obtain ⟨hp1, hp2⟩ := foldl_paintStep v (GenerateMaskImageFromPatch f)
    (regionIndices (GenerateMaskImageFromPatch f).region) (regionIndices_nodup _)
    { VectorAsSpatialImage :=
        { start := (GenerateMaskImageFromPatch f).start,
          size := (GenerateMaskImageFromPatch f).size, pixel := fun _ => 0 },
      Mask := GenerateMaskImageFromPatch f,
      VectorIndex := 0 }
    (fun _ => Iff.rfl)
  have hread : ∀ j, j < f.m_IndicesWithinSphere.length →
      (ConvertVectorToSpatialImage v (GenerateMaskImageFromPatch f)).pixel
          (sphereVoxel f (f.m_IndicesWithinSphere.getD j 0)) = v.getD j 0 := by
    intro j hj
    have hk : j < ((regionIndices (GenerateMaskImageFromPatch f).region).filter
        (fun x => decide (1 / 2 ≤ (GenerateMaskImageFromPatch f).pixel x))).length := by
      rw [hscan, List.length_map]
      exact hj
    have h := hp1 j hk
    simp only [hscan, List.getElem_map, zero_add] at h
    rw [List.getD_eq_getElem _ _ hj]
    exact h
  refine ⟨GenerateMaskImageFromPatch_spec f, hscan, hread, ?_, ?_⟩
  · unfold patchAt
    apply List.ext_getElem
    · rw [List.length_map, hv]
    · intro j h1 h2
      rw [List.length_map] at h1
      rw [List.getElem_map]
      have h := hread j h1
      rw [List.getD_eq_getElem _ _ h1, List.getD_eq_getElem _ _ h2] at h
      exact h
  · intro idx hidx
    rw [← hscan] at hidx
    exact hp2 idx hidx

/-- Witness for C18: in two dimensions with radius 1 the five sphere offsets
1, 3, 4, 5, 7 read the painted vector `(10, 20, 30, 40, 50)` back in order. -/
theorem C18_round_trip_witness :
    filterDisc.m_IndicesWithinSphere
      = (sphereIndexLoop filterDisc.m_PatchRadius filterDisc.ImageDimension ([], [])).1 ∧
    patchAt filterDisc.m_PatchRadius filterDisc.ImageDimension
        (ConvertVectorToSpatialImage [10, 20, 30, 40, 50] (GenerateMaskImageFromPatch filterDisc))
        filterDisc.m_IndicesWithinSphere (beginningOfSphereRegion filterDisc)
      = [10, 20, 30, 40, 50] := by
  have hs : filterDisc.m_IndicesWithinSphere
      = (sphereIndexLoop filterDisc.m_PatchRadius filterDisc.ImageDimension ([], [])).1 := by
    rw [sphereIndexLoop_empty_fst]
    decide
  exact ⟨hs, (C18_round_trip filterDisc [10, 20, 30, 40, 50] hs rfl).2.2.2.1⟩

end RIPMMARC
